import Mathlib

/-!
# Verification of `RigidBodySet` (src/src/dynamics/rigid_body_set.rs)

A shallow embedding of the rigid-body container of this physics engine:
the generational slot arena, the active dynamic/kinematic sequences, the
change-tracking bookkeeping, the maintenance pass and the activation/island
graph traversal, together with proofs of the specification's claims about
them.

Rust `Vec` pushes/pops at the end are modelled as follows: the traversal
stack is a `List` whose *head* is the top (a Rust `push` is a `cons`, a
Rust `pop` takes the head), while the active sequences and the island
table, whose integer indices matter, are modelled with `push = l ++ [x]`
so that positions coincide with Rust indices.  Rust panics (failed
assertions, indexing a dead arena slot) are modelled by `Except`/`Option`
results.  The `while` loop of the traversal is modelled with an explicit
fuel parameter; a run of the real loop, which always terminates,
corresponds to any `.ok` result of the fuelled loop.
-/

namespace Rapier

/-- A rigid-body handle: a slot index together with a generation counter
(`crate::data::arena::Index`). Two handles are equal iff both fields match. -/
structure RigidBodyHandle where
  index : Nat
  generation : Nat
deriving DecidableEq, Repr

/-- One slot of the generational arena: its current generation and an
optional payload (`none` = vacant). -/
structure ArenaSlot (α : Type) where
  generation : Nat
  payload : Option α
deriving DecidableEq, Repr

/-- Modelled from the spec: the slot arena (spec §4.1) lives outside `src/`
(`crate::data::arena::Arena`); only its interface contract is specified.
`slots` is indexed by slot number; `free` is the stack of vacant slot
indices that subsequent inserts reuse. A slot's generation is bumped on
removal, so a handle to a removed payload never resolves again. -/
structure Arena (α : Type) where
  slots : List (ArenaSlot α)
  free : List Nat
deriving DecidableEq, Repr

namespace Arena

/-- The empty arena. -/
def new : Arena α := ⟨[], []⟩

/-- Modelled from the spec: lookup through a handle fails to `none` on a
stale or absent handle (slot missing, vacant, or generation mismatch). -/
def get (a : Arena α) (h : RigidBodyHandle) : Option α :=
  match a.slots[h.index]? with
  | some sl => if sl.generation = h.generation then sl.payload else none
  | none => none

/-- Write the payload of a live handle (the write-back of a Rust `&mut`
borrow obtained through this handle). A dead handle writes nothing. -/
def set (a : Arena α) (h : RigidBodyHandle) (x : α) : Arena α :=
  match a.slots[h.index]? with
  | some sl =>
    if sl.generation = h.generation ∧ sl.payload.isSome then
      { a with slots := a.slots.set h.index { sl with payload := some x } }
    else a
  | none => a

/-- Modify the payload of a live handle in place. -/
def modify (a : Arena α) (h : RigidBodyHandle) (f : α → α) : Arena α :=
  match a.get h with
  | some x => a.set h (f x)
  | none => a

/-- Modelled from the spec: insertion reuses a vacant slot when one is
free (keeping its bumped generation) and otherwise appends a fresh slot. -/
def insert (a : Arena α) (x : α) : Arena α × RigidBodyHandle :=
  match a.free with
  | i :: rest =>
    match a.slots[i]? with
    | some sl =>
      ({ slots := a.slots.set i { generation := sl.generation, payload := some x },
         free := rest }, ⟨i, sl.generation⟩)
    | none => ({ slots := a.slots ++ [⟨0, some x⟩], free := rest }, ⟨a.slots.length, 0⟩)
  | [] => ({ slots := a.slots ++ [⟨0, some x⟩], free := [] }, ⟨a.slots.length, 0⟩)

/-- Modelled from the spec: removal fails silently (returns `none`) on a
stale or absent handle; on success it vacates the slot, bumps its
generation and returns the payload. -/
def remove (a : Arena α) (h : RigidBodyHandle) : Option (α × Arena α) :=
  match a.slots[h.index]? with
  | some sl =>
    if sl.generation = h.generation then
      match sl.payload with
      | some x =>
        some (x, { slots := a.slots.set h.index ⟨sl.generation + 1, none⟩,
                   free := h.index :: a.free })
      | none => none
    else none
  | none => none

/-- Modelled from the spec: ABA-unsafe access by slot index only; returns
the payload together with a handle carrying the slot's current generation. -/
def getUnknownGen (a : Arena α) (i : Nat) : Option (α × RigidBodyHandle) :=
  match a.slots[i]? with
  | some sl => sl.payload.map (fun x => (x, ⟨i, sl.generation⟩))
  | none => none

/-- Is the handle live? -/
def containsH (a : Arena α) (h : RigidBodyHandle) : Bool :=
  (a.get h).isSome

/-- The live entries of a slot list starting at slot number `n`. -/
def liveListAux (n : Nat) : List (ArenaSlot α) → List (RigidBodyHandle × α)
  | [] => []
  | sl :: rest =>
    match sl.payload with
    | some x => (⟨n, sl.generation⟩, x) :: liveListAux (n + 1) rest
    | none => liveListAux (n + 1) rest

/-- The live entries of the arena in slot order, paired with their
handles (the order of `Arena::iter`/`iter_mut`). -/
def liveList (a : Arena α) : List (RigidBodyHandle × α) :=
  liveListAux 0 a.slots

end Arena

/-- The change bitset of a rigid body
(`RigidBodyChanges = {MODIFIED, POSITION, COLLIDERS, SLEEP}`). -/
structure RigidBodyChanges where
  modified : Bool
  position : Bool
  colliders : Bool
  sleep : Bool
deriving DecidableEq, Repr

namespace RigidBodyChanges

/-- `RigidBodyChanges::MODIFIED`. -/
def MODIFIED : RigidBodyChanges := ⟨true, false, false, false⟩

/-- `RigidBodyChanges::POSITION`. -/
def POSITION : RigidBodyChanges := ⟨false, true, false, false⟩

/-- `RigidBodyChanges::COLLIDERS`. -/
def COLLIDERS : RigidBodyChanges := ⟨false, false, true, false⟩

/-- `RigidBodyChanges::SLEEP`. -/
def SLEEP : RigidBodyChanges := ⟨false, false, false, true⟩

/-- `RigidBodyChanges::all()`. -/
def all : RigidBodyChanges := ⟨true, true, true, true⟩

/-- `RigidBodyChanges::empty()`. -/
def empty : RigidBodyChanges := ⟨false, false, false, false⟩

/-- Bitset inclusion (`bitflags` `contains`). -/
def contains (c other : RigidBodyChanges) : Bool :=
  (!other.modified || c.modified) && (!other.position || c.position) &&
    (!other.colliders || c.colliders) && (!other.sleep || c.sleep)

/-- Bitset union. -/
def union (c other : RigidBodyChanges) : RigidBodyChanges :=
  ⟨c.modified || other.modified, c.position || other.position,
   c.colliders || other.colliders, c.sleep || other.sleep⟩

/-- `bitflags` `set(other, value)`: insert or remove the given flags. -/
def set (c other : RigidBodyChanges) (value : Bool) : RigidBodyChanges :=
  if value then c.union other
  else ⟨c.modified && !other.modified, c.position && !other.position,
        c.colliders && !other.colliders, c.sleep && !other.sleep⟩

end RigidBodyChanges

/-- The fixed dynamic/static/kinematic classification of a body. -/
inductive BodyStatus
  | dynamic
  | staticBody
  | kinematic
deriving DecidableEq, Repr

/-- The sleep-activation state of a body: its current kinetic energy, its
sleep threshold and the (tentative) sleeping flag. Energies are modelled
as naturals; only the order comparison with the threshold is ever used. -/
structure ActivationStatus where
  energy : Nat
  threshold : Nat
  sleeping : Bool
deriving DecidableEq, Repr

/-- The fields of a rigid body that this container reads and writes
(spec §3). `updatedEnergy` carries the kinetic energy that
`RigidBody::update_energy` (defined outside `src/`) will compute from the
body's velocities this step; `moving` models `is_moving()` for kinematic
bodies. The joint-graph node of a body is keyed directly by its handle
(see `JointGraph`). -/
structure RigidBody where
  status : BodyStatus
  activation : ActivationStatus
  updatedEnergy : Nat
  moving : Bool
  active_set_id : Nat
  active_island_id : Nat
  active_set_offset : Nat
  active_set_timestamp : Nat
  changes : RigidBodyChanges
  colliders : List Nat
deriving DecidableEq, Repr

namespace RigidBody

/-- `RigidBody::is_dynamic`. -/
def is_dynamic (rb : RigidBody) : Bool :=
  match rb.status with
  | .dynamic => true
  | _ => false

/-- `RigidBody::is_static`. -/
def is_static (rb : RigidBody) : Bool :=
  match rb.status with
  | .staticBody => true
  | _ => false

/-- `RigidBody::is_kinematic`. -/
def is_kinematic (rb : RigidBody) : Bool :=
  match rb.status with
  | .kinematic => true
  | _ => false

/-- `RigidBody::is_sleeping`. -/
def is_sleeping (rb : RigidBody) : Bool :=
  rb.activation.sleeping

/-- `RigidBody::is_moving`. Modelled from the spec: whether any velocity
is nonzero; velocities themselves are not part of the modelled state. -/
def is_moving (rb : RigidBody) : Bool :=
  rb.moving

/-- Modelled from the spec: `RigidBody::wake_up` (outside `src/`) clears
the sleeping flag; a strong wake additionally boosts the energy above the
threshold so the body does not immediately re-sleep. -/
def wake_up (rb : RigidBody) (strong : Bool) : RigidBody :=
  { rb with activation :=
      { rb.activation with
        sleeping := false,
        energy := if strong then rb.activation.threshold + 1 else rb.activation.energy } }

/-- Modelled from the spec: `RigidBody::sleep` (outside `src/`) clears the
velocity/energy state and sets the sleeping flag. -/
def sleep (rb : RigidBody) : RigidBody :=
  { rb with activation := { rb.activation with sleeping := true, energy := 0 } }

/-- Modelled from the spec: `RigidBody::update_energy` (outside `src/`)
recomputes the kinetic energy from the body's velocities; the resulting
value is carried in the body as `updatedEnergy`. -/
def update_energy (rb : RigidBody) : RigidBody :=
  { rb with activation := { rb.activation with energy := rb.updatedEnergy } }

/-- Modelled from the spec: `reset_internal_references` (outside `src/`)
resets the back-references a body may carry from being cloned. -/
def reset_internal_references (rb : RigidBody) : RigidBody :=
  { rb with colliders := [], active_set_id := 0 }

end RigidBody

/-- A collider as seen by this container: only its parent body handle. -/
structure Collider where
  parent : RigidBodyHandle
deriving DecidableEq, Repr

/-- Modelled from the spec: the collider collaborator (spec §6) as a
finite map from collider handles (naturals) to colliders. -/
structure ColliderSet where
  entries : List (Nat × Collider)
deriving DecidableEq, Repr

namespace ColliderSet

/-- Handle → collider lookup. -/
def get (cs : ColliderSet) (ch : Nat) : Option Collider :=
  (cs.entries.find? fun p => p.1 == ch).map Prod.snd

end ColliderSet

/-- A solver contact point; only the emptiness of the list of points is
ever inspected, so points are opaque naturals. -/
structure ContactManifoldData where
  solver_contacts : List Nat
deriving DecidableEq, Repr

/-- A contact manifold (`manifold.data.solver_contacts`). -/
structure ContactManifold where
  data : ContactManifoldData
deriving DecidableEq, Repr

/-- One interaction of the narrow phase: the two collider handles and the
contact manifolds between them. -/
structure ContactPair where
  collider1 : Nat
  collider2 : Nat
  manifolds : List ContactManifold
deriving DecidableEq, Repr

/-- Modelled from the spec: the narrow-phase collaborator (spec §6),
exposing `contacts_with(collider) -> iterator of (collider, collider,
interaction)`. -/
structure NarrowPhase where
  pairs : List ContactPair
deriving DecidableEq, Repr

namespace NarrowPhase

/-- `NarrowPhase::contacts_with`: all interactions involving the given
collider. -/
def contacts_with (np : NarrowPhase) (ch : Nat) : List ContactPair :=
  np.pairs.filter fun p => decide (p.collider1 = ch ∨ p.collider2 = ch)

end NarrowPhase

/-- `crate::utils::select_other` (outside `src/`, modelled from its use):
given a pair containing `x`, return the other element. -/
def select_other {α : Type} [DecidableEq α] (pair : α × α) (x : α) : α :=
  if pair.1 = x then pair.2 else pair.1

/-- Modelled from the spec: the joint interaction graph
(`InteractionGraph<RigidBodyHandle, Joint>`, outside `src/`). The spec
only exposes `interactions_with(joint_graph_index)` yielding
`(handle, handle, joint)` triples, so the graph is modelled as an edge
list keyed directly by body handles (a body's `joint_graph_index` is
identified with its handle). -/
structure JointGraph where
  edges : List (RigidBodyHandle × RigidBodyHandle)
deriving DecidableEq, Repr

namespace JointGraph

/-- `interactions_with`: the edges incident to the given body. -/
def interactions_with (g : JointGraph) (h : RigidBodyHandle) :
    List (RigidBodyHandle × RigidBodyHandle) :=
  g.edges.filter fun e => decide (e.1 = h ∨ e.2 = h)

end JointGraph

/-- The rigid-body container (`RigidBodySet`): the arena of bodies, the
active dynamic and kinematic sequences, the modified-inactive sequence,
the island table, the traversal timestamp, the modified-bodies list with
its coalescing flag, and the two workspace vectors. -/
structure RigidBodySet where
  bodies : Arena RigidBody
  active_dynamic_set : List RigidBodyHandle
  active_kinematic_set : List RigidBodyHandle
  modified_inactive_set : List RigidBodyHandle
  active_islands : List Nat
  active_set_timestamp : Nat
  modified_bodies : List RigidBodyHandle
  modified_all_bodies : Bool
  can_sleep : List RigidBodyHandle
  stack : List RigidBodyHandle
deriving DecidableEq, Repr

namespace RigidBodySet

/-- `RigidBodySet::new`. -/
def new : RigidBodySet :=
  { bodies := Arena.new, active_dynamic_set := [], active_kinematic_set := [],
    modified_inactive_set := [], active_islands := [], active_set_timestamp := 0,
    modified_bodies := [], modified_all_bodies := false, can_sleep := [], stack := [] }

/-- The body as prepared by `RigidBodySet::insert` before it enters the
arena: internal links reset, every change flag raised. -/
def preparedBody (rb0 : RigidBody) : RigidBody :=
  let rb1 := rb0.reset_internal_references
  { rb1 with changes := rb1.changes.set RigidBodyChanges.all true }

/-- `RigidBodySet::insert`: reset internal links, mark the body fully
changed, insert it into the arena, record it as modified, and if
kinematic append it to the active kinematic sequence. -/
def insert (s : RigidBodySet) (rb0 : RigidBody) : RigidBodySet × RigidBodyHandle :=
  let rb2 := preparedBody rb0
  let p := s.bodies.insert rb2
  let bodies1 := p.1
  let handle := p.2
  let modified1 := s.modified_bodies ++ [handle]
  match bodies1.get handle with
  | some rb =>
    if rb.is_kinematic then
      ({ s with
          bodies := bodies1.set handle { rb with active_set_id := s.active_kinematic_set.length },
          modified_bodies := modified1,
          active_kinematic_set := s.active_kinematic_set ++ [handle] }, handle)
    else ({ s with bodies := bodies1, modified_bodies := modified1 }, handle)
  | none => ({ s with bodies := bodies1, modified_bodies := modified1 }, handle)

/-- `RigidBodySet::len`. -/
def len (s : RigidBodySet) : Nat :=
  (s.bodies.liveList).length

/-- `RigidBodySet::contains`. -/
def containsH (s : RigidBodySet) (h : RigidBodyHandle) : Bool :=
  s.bodies.containsH h

/-- `RigidBodySet::num_islands`: island-table length minus one. -/
def num_islands (s : RigidBodySet) : Nat :=
  s.active_islands.length - 1

/-- `RigidBodySet::wake_up`: a no-op on a stale handle or a non-dynamic
body; otherwise wake the body and, if it is absent from the active
dynamic sequence, append it and record its new `active_set_id`. -/
def wake_up (s : RigidBodySet) (handle : RigidBodyHandle) (strong : Bool) : RigidBodySet :=
  match s.bodies.get handle with
  | none => s
  | some rb =>
    if rb.is_dynamic then
      let rb1 := rb.wake_up strong
      if s.active_dynamic_set[rb1.active_set_id]? = some handle then
        { s with bodies := s.bodies.set handle rb1 }
      else
        { s with
            bodies := s.bodies.set handle { rb1 with active_set_id := s.active_dynamic_set.length },
            active_dynamic_set := s.active_dynamic_set ++ [handle] }
    else s

/-- `RigidBodySet::get` (unconditional pass-through to the arena). -/
def get (s : RigidBodySet) (handle : RigidBodyHandle) : Option RigidBody :=
  s.bodies.get handle

/-- `RigidBodySet::get_mut`: a mutable borrow of a live body. Unless the
modified-all flag is set or the body is already flagged `MODIFIED`, its
change bitset is overwritten with exactly `MODIFIED` and its handle is
appended to the modified-bodies list. Returns the borrowed body together
with the updated set. -/
def get_mut (s : RigidBodySet) (handle : RigidBodyHandle) : Option (RigidBody × RigidBodySet) :=
  match s.bodies.get handle with
  | none => none
  | some rb =>
    if ¬ s.modified_all_bodies ∧ ¬ rb.changes.contains RigidBodyChanges.MODIFIED then
      let rb1 := { rb with changes := RigidBodyChanges.MODIFIED }
      some (rb1, { s with bodies := s.bodies.set handle rb1,
                          modified_bodies := s.modified_bodies ++ [handle] })
    else some (rb, s)

/-- `RigidBodySet::get_mut_internal` (no change tracking). -/
def get_mut_internal (s : RigidBodySet) (handle : RigidBodyHandle) : Option RigidBody :=
  s.bodies.get handle

/-- `RigidBodySet::get_unknown_gen`. -/
def get_unknown_gen (s : RigidBodySet) (i : Nat) : Option (RigidBody × RigidBodyHandle) :=
  s.bodies.getUnknownGen i

/-- `RigidBodySet::get_unknown_gen_mut`: like `get_mut` but through a raw
slot index. -/
def get_unknown_gen_mut (s : RigidBodySet) (i : Nat) :
    Option (RigidBody × RigidBodyHandle × RigidBodySet) :=
  match s.bodies.getUnknownGen i with
  | none => none
  | some (rb, handle) =>
    if ¬ s.modified_all_bodies ∧ ¬ rb.changes.contains RigidBodyChanges.MODIFIED then
      let rb1 := { rb with changes := RigidBodyChanges.MODIFIED }
      some (rb1, handle, { s with bodies := s.bodies.set handle rb1,
                                  modified_bodies := s.modified_bodies ++ [handle] })
    else some (rb, handle, s)

/-- `Index<RigidBodyHandle> for RigidBodySet`: `&set[handle]` panics
(modelled as `.error ()`) on a stale or invalid handle. -/
def indexRB (s : RigidBodySet) (handle : RigidBodyHandle) : Except Unit RigidBody :=
  match s.bodies.get handle with
  | some rb => .ok rb
  | none => .error ()

/-- `IndexMut<RigidBodyHandle> for RigidBodySet`: `&mut set[handle]`
panics on a stale or invalid handle; on success the mutation `f` is
applied through the returned borrow with no modified-bodies tracking. -/
def indexMutRB (s : RigidBodySet) (handle : RigidBodyHandle) (f : RigidBody → RigidBody) :
    Except Unit RigidBodySet :=
  match s.bodies.get handle with
  | some rb => .ok { s with bodies := s.bodies.set handle (f rb) }
  | none => .error ()

end RigidBodySet

/-- `Vec::swap_remove(i)`: remove the element at `i`, moving the last
element into its place. Callers guard `i < l.length`. -/
def swapRemove {α : Type} (l : List α) (i : Nat) : List α :=
  match l.getLast? with
  | none => l
  | some last => (l.set i last).dropLast

/-- Modelled from the spec: `ColliderSet::remove(handle, bodies, wake)`
(spec §6) removes the collider from the set, detaches it from its parent
body's collider list, and optionally wakes the parent. -/
def ColliderSet.remove (cs : ColliderSet) (ch : Nat) (s : RigidBodySet) (wake : Bool) :
    ColliderSet × RigidBodySet :=
  match cs.get ch with
  | some c =>
    let cs1 : ColliderSet := ⟨cs.entries.filter fun p => decide (p.1 ≠ ch)⟩
    let detach : RigidBody → RigidBody := fun rb =>
      { rb with colliders := rb.colliders.filter fun x => decide (x ≠ ch) }
    let s1 := { s with bodies := s.bodies.modify c.parent detach }
    (cs1, if wake then s1.wake_up c.parent true else s1)
  | none => (cs, s)

/-- Modelled from the spec: `JointSet::remove_rigid_body` (spec §6)
unlinks the body from the joint graph by deleting its incident edges. -/
def JointGraph.remove_rigid_body (g : JointGraph) (h : RigidBodyHandle) (s : RigidBodySet) :
    JointGraph × RigidBodySet :=
  (⟨g.edges.filter fun e => decide (e.1 ≠ h ∧ e.2 ≠ h)⟩, s)

/-- The swap-removal of `handle` from one active sequence inside
`RigidBodySet::remove`: if the sequence stores `handle` at index `i`,
swap-remove it and re-patch the `active_set_id` of the displaced body. -/
def swapRemoveAndPatch (seq : List RigidBodyHandle) (bodies : Arena RigidBody)
    (handle : RigidBodyHandle) (i : Nat) : List RigidBodyHandle × Arena RigidBody :=
  if seq[i]? = some handle then
    let seq1 := swapRemove seq i
    match seq1[i]? with
    | some replacement =>
      (seq1, bodies.modify replacement fun rb => { rb with active_set_id := i })
    | none => (seq1, bodies)
  else (seq, bodies)

/-- `RigidBodySet::remove`: remove the body from the arena (returning
`none` on a stale handle), swap-remove it from whichever active sequence
contained it (kinematic first, then dynamic, patching the displaced
body's `active_set_id`), cascade the removal of its attached colliders
and unlink it from the joint graph. -/
def RigidBodySet.remove (s : RigidBodySet) (handle : RigidBodyHandle)
    (colliders : ColliderSet) (joints : JointGraph) :
    Option (RigidBody × RigidBodySet × ColliderSet × JointGraph) :=
  match s.bodies.remove handle with
  | none => none
  | some (rb, bodies1) =>
    let pk := swapRemoveAndPatch s.active_kinematic_set bodies1 handle rb.active_set_id
    let pd := swapRemoveAndPatch s.active_dynamic_set pk.2 handle rb.active_set_id
    let s1 := { s with bodies := pd.2, active_kinematic_set := pk.1, active_dynamic_set := pd.1 }
    let pc := rb.colliders.foldl
      (fun (acc : ColliderSet × RigidBodySet) ch => ColliderSet.remove acc.1 ch acc.2 false)
      (colliders, s1)
    let pj := joints.remove_rigid_body handle pc.2
    some (rb, pj.2, pc.1, pj.1)

/-- Modelled from the spec: `RigidBody::update_colliders_positions`
(outside `src/`) pushes the body's updated collider world transforms;
transforms are not part of the modelled collider state, so the modelled
collider set is returned unchanged. -/
def RigidBody.update_colliders_positions (_rb : RigidBody) (cs : ColliderSet) : ColliderSet :=
  cs

/-- `RigidBodySet::maintain_one`: reconcile one body's accumulated change
flags into the sequences, then clear its change bitset. Returns the
updated collider set, body, modified-inactive sequence, active kinematic
sequence and active dynamic sequence. -/
def RigidBodySet.maintain_one (colliders : ColliderSet) (handle : RigidBodyHandle)
    (rb : RigidBody) (modified_inactive_set active_kinematic_set active_dynamic_set :
    List RigidBodyHandle) :
    ColliderSet × RigidBody × List RigidBodyHandle × List RigidBodyHandle ×
      List RigidBodyHandle :=
  let step1 :=
    if rb.changes.contains RigidBodyChanges.POSITION ∨
        rb.changes.contains RigidBodyChanges.COLLIDERS then
      let colliders1 := rb.update_colliders_positions colliders
      let mis1 := if rb.is_static then modified_inactive_set ++ [handle]
                  else modified_inactive_set
      if rb.is_kinematic ∧ active_kinematic_set[rb.active_set_id]? ≠ some handle then
        (colliders1, { rb with active_set_id := active_kinematic_set.length }, mis1,
         active_kinematic_set ++ [handle])
      else (colliders1, rb, mis1, active_kinematic_set)
    else (colliders, rb, modified_inactive_set, active_kinematic_set)
  let colliders1 := step1.1
  let rb1 := step1.2.1
  let mis1 := step1.2.2.1
  let aks1 := step1.2.2.2
  let step2 :=
    if rb1.changes.contains RigidBodyChanges.SLEEP ∧ ¬ rb1.is_sleeping ∧ rb1.is_dynamic ∧
        active_dynamic_set[rb1.active_set_id]? ≠ some handle then
      ({ rb1 with active_set_id := active_dynamic_set.length },
       active_dynamic_set ++ [handle])
    else (rb1, active_dynamic_set)
  (colliders1, { step2.1 with changes := RigidBodyChanges.empty }, mis1, aks1, step2.2)

/-- `RigidBodySet::maintain`: run `maintain_one` over every body of the
arena when the modified-all flag is set (then clear the list and the
flag), otherwise drain the modified-bodies list, skipping stale
handles. -/
def RigidBodySet.maintain (s : RigidBodySet) (colliders : ColliderSet) :
    RigidBodySet × ColliderSet :=
  if s.modified_all_bodies then
    let res := s.bodies.liveList.foldl
      (fun (acc : Arena RigidBody × ColliderSet × List RigidBodyHandle ×
          List RigidBodyHandle × List RigidBodyHandle) p =>
        let r := RigidBodySet.maintain_one acc.2.1 p.1 p.2 acc.2.2.1 acc.2.2.2.1 acc.2.2.2.2
        (acc.1.set p.1 r.2.1, r.1, r.2.2.1, r.2.2.2.1, r.2.2.2.2))
      (s.bodies, colliders, s.modified_inactive_set, s.active_kinematic_set,
       s.active_dynamic_set)
    ({ s with bodies := res.1, modified_inactive_set := res.2.2.1,
              active_kinematic_set := res.2.2.2.1, active_dynamic_set := res.2.2.2.2,
              modified_bodies := [], modified_all_bodies := false }, res.2.1)
  else
    let res := s.modified_bodies.foldl
      (fun (acc : Arena RigidBody × ColliderSet × List RigidBodyHandle ×
          List RigidBodyHandle × List RigidBodyHandle) handle =>
        match acc.1.get handle with
        | some rb =>
          let r := RigidBodySet.maintain_one acc.2.1 handle rb acc.2.2.1 acc.2.2.2.1 acc.2.2.2.2
          (acc.1.set handle r.2.1, r.1, r.2.2.1, r.2.2.2.1, r.2.2.2.2)
        | none => acc)
      (s.bodies, colliders, s.modified_inactive_set, s.active_kinematic_set,
       s.active_dynamic_set)
    ({ s with bodies := res.1, modified_inactive_set := res.2.2.1,
              active_kinematic_set := res.2.2.2.1, active_dynamic_set := res.2.2.2.2,
              modified_bodies := [] }, res.2.1)

/-- Abnormal outcomes of `update_active_set_with_contacts`: the failed
`assert!` on `min_island_size`, a Rust panic (indexing a dead handle),
or exhaustion of the loop fuel (a modelling artifact: every terminating
run of the source loop is an `.ok` result for a large enough fuel). -/
inductive UpdateErr
  | assertMinIslandSize
  | panicked
  | fuelExhausted
deriving DecidableEq, Repr

/-- `push_contacting_bodies` (the inner helper of
`update_active_set_with_contacts`): for every collider of `rb` and every
narrow-phase interaction involving it, if some manifold has at least one
solver contact, push the parent body of the other collider onto the
traversal stack. Looking up a collider absent from the collider set is a
panic. -/
def push_contacting_bodies (rb : RigidBody) (colliders : ColliderSet)
    (narrow_phase : NarrowPhase) (stack : List RigidBodyHandle) :
    Except UpdateErr (List RigidBodyHandle) :=
  rb.colliders.foldlM
    (fun st ch =>
      (narrow_phase.contacts_with ch).foldlM
        (fun st2 inter =>
          if ∃ m ∈ inter.manifolds, m.data.solver_contacts ≠ [] then
            match colliders.get (select_other (inter.collider1, inter.collider2) ch) with
            | some c => pure (c.parent :: st2)
            | none => throw UpdateErr.panicked
          else pure st2)
        st)
    stack

/-- One drained body: update its energy; at or below the threshold it is
tentatively marked sleeping and joins the sleep-candidate list, otherwise
it is pushed onto the traversal stack. -/
def drainStep (acc : Arena RigidBody × List RigidBodyHandle × List RigidBodyHandle)
    (h : RigidBodyHandle) :
    Except UpdateErr (Arena RigidBody × List RigidBodyHandle × List RigidBodyHandle) :=
  match acc.1.get h with
  | none => throw UpdateErr.panicked
  | some rb =>
    let rb1 := rb.update_energy
    if rb1.activation.energy ≤ rb1.activation.threshold then
      let rb2 := { rb1 with activation := { rb1.activation with sleeping := true } }
      pure (acc.1.set h rb2, acc.2.1, h :: acc.2.2)
    else pure (acc.1.set h rb1, h :: acc.2.1, acc.2.2)

/-- The drain of the active dynamic sequence at the start of
`update_active_set_with_contacts` (processed in reverse order). Returns
the updated arena, the traversal stack (head = top) and the
sleep-candidate list in push order. -/
def drainPhase (bodies : Arena RigidBody) (active_dynamic_set : List RigidBodyHandle) :
    Except UpdateErr (Arena RigidBody × List RigidBodyHandle × List RigidBodyHandle) :=
  ((active_dynamic_set.reverse.foldlM drainStep (bodies, [], []) :
      Except UpdateErr (Arena RigidBody × List RigidBodyHandle × List RigidBodyHandle))).map
    (fun r => (r.1, r.2.1, r.2.2.reverse))

/-- The kinematic phase of `update_active_set_with_contacts`: every
moving active kinematic body pushes all bodies in contact with its
colliders onto the traversal stack. -/
def kinematicPhase (bodies : Arena RigidBody) (active_kinematic_set : List RigidBodyHandle)
    (colliders : ColliderSet) (narrow_phase : NarrowPhase)
    (stack : List RigidBodyHandle) : Except UpdateErr (List RigidBodyHandle) :=
  active_kinematic_set.foldlM
    (fun st h =>
      match bodies.get h with
      | none => throw UpdateErr.panicked
      | some rb =>
        if rb.is_moving then push_contacting_bodies rb colliders narrow_phase st
        else pure st)
    stack

/-- The mutable state of the traversal loop of
`update_active_set_with_contacts`: the arena, the traversal stack
(head = top), the active dynamic sequence being rebuilt, the island
table under construction and the island marker. -/
structure LoopState where
  bodies : Arena RigidBody
  stack : List RigidBodyHandle
  active_dynamic_set : List RigidBodyHandle
  active_islands : List Nat
  island_marker : Nat
deriving DecidableEq, Repr

/-- The island-boundary update at the head of the processing branch of the
traversal loop: when the stack (now `restLen` entries) has shrunk past the
island marker, close the current island — pushing a new boundary if it
holds at least `min_island_size` bodies — and reset the marker. -/
def islandPush (min_island_size : Nat) (st : LoopState) (restLen : Nat) :
    List Nat × Nat :=
  if restLen < st.island_marker then
    (if min_island_size ≤ st.active_dynamic_set.length - st.active_islands.getLastD 0
     then st.active_islands ++ [st.active_dynamic_set.length]
     else st.active_islands, restLen)
  else (st.active_islands, st.island_marker)

/-- The body record written when the traversal processes a body: woken
(non-strong), assigned the current island id, its position in the rebuilt
sequence, its offset inside the island, and the current timestamp. -/
def processedBody (st : LoopState) (islands1 : List Nat) (ts : Nat) (rb : RigidBody) :
    RigidBody :=
  { rb.wake_up false with
    active_island_id := islands1.length - 1,
    active_set_id := st.active_dynamic_set.length,
    active_set_offset := st.active_dynamic_set.length - islands1.getLastD 0,
    active_set_timestamp := ts }

/-- The stack after pushing the joint neighbours of `handle`. -/
def jointPushes (joint_graph : JointGraph) (handle : RigidBodyHandle)
    (stack : List RigidBodyHandle) : List RigidBodyHandle :=
  (joint_graph.interactions_with handle).foldl
    (fun s2 inter => select_other inter handle :: s2) stack

/-- One iteration of the traversal loop: pop a body; skip it when already
visited this timestamp or non-dynamic; otherwise close the current island
when the stack has shrunk past the marker and the island holds at least
`min_island_size` bodies, then wake the body, assign its island id, its
position in the rebuilt sequence and the timestamp, and push its contact
and joint neighbours. Returns `none` when the stack is empty. -/
def traversalStep (colliders : ColliderSet) (narrow_phase : NarrowPhase)
    (joint_graph : JointGraph) (min_island_size : Nat) (ts : Nat) (st : LoopState) :
    Except UpdateErr (Option LoopState) :=
  match st.stack with
  | [] => pure none
  | handle :: rest =>
    match st.bodies.get handle with
    | none => throw UpdateErr.panicked
    | some rb =>
      if rb.active_set_timestamp = ts ∨ ¬ rb.is_dynamic then
        pure (some { st with stack := rest })
      else
        let pr := islandPush min_island_size st rest.length
        let rb2 := processedBody st pr.1 ts rb
        (push_contacting_bodies rb2 colliders narrow_phase rest).map fun stack1 =>
          some { bodies := st.bodies.set handle rb2,
                 stack := jointPushes joint_graph handle stack1,
                 active_dynamic_set := st.active_dynamic_set ++ [handle],
                 active_islands := pr.1,
                 island_marker := pr.2 }

/-- The fuelled traversal loop: iterate `traversalStep` until the stack
empties. -/
def traversalLoop (colliders : ColliderSet) (narrow_phase : NarrowPhase)
    (joint_graph : JointGraph) (min_island_size : Nat) (ts : Nat) :
    Nat → LoopState → Except UpdateErr LoopState
  | fuel, st =>
    match traversalStep colliders narrow_phase joint_graph min_island_size ts st with
    | .error e => .error e
    | .ok none => .ok st
    | .ok (some st1) =>
      match fuel with
      | 0 => .error UpdateErr.fuelExhausted
      | n + 1 => traversalLoop colliders narrow_phase joint_graph min_island_size ts n st1

/-- `RigidBodySet::update_active_set_with_contacts`: assert the minimum
island size, bump the timestamp, drain the active dynamic sequence into
sleep candidates and the traversal stack, seed the stack from moving
kinematic bodies, traverse the contact/joint graph rebuilding the active
dynamic sequence and the island table, close the final island, and put
to sleep every candidate the traversal did not reach. -/
def RigidBodySet.update_active_set_with_contacts (s : RigidBodySet)
    (colliders : ColliderSet) (narrow_phase : NarrowPhase) (joint_graph : JointGraph)
    (min_island_size : Nat) (fuel : Nat) : Except UpdateErr RigidBodySet :=
  if min_island_size = 0 then throw UpdateErr.assertMinIslandSize
  else do
    let ts := s.active_set_timestamp + 1
    let dr ← drainPhase s.bodies s.active_dynamic_set
    let stack2 ← kinematicPhase dr.1 s.active_kinematic_set colliders narrow_phase dr.2.1
    let st0 : LoopState :=
      { bodies := dr.1, stack := stack2, active_dynamic_set := [],
        active_islands := [0], island_marker := stack2.length.max 1 - 1 }
    let stF ← traversalLoop colliders narrow_phase joint_graph min_island_size ts fuel st0
    let bodiesF ← dr.2.2.foldlM
      (fun (b : Arena RigidBody) h =>
        match b.get h with
        | none => throw UpdateErr.panicked
        | some rb => pure (if rb.activation.sleeping then b.set h rb.sleep else b))
      stF.bodies
    pure { s with
      bodies := bodiesF,
      active_dynamic_set := stF.active_dynamic_set,
      active_islands := stF.active_islands ++ [stF.active_dynamic_set.length],
      active_set_timestamp := ts,
      can_sleep := dr.2.2,
      stack := [] }

/-! ## Basic arena lemmas -/

theorem Arena.get_eq_some_iff {α : Type} {a : Arena α} {h : RigidBodyHandle} {y : α} :
    a.get h = some y ↔ ∃ sl, a.slots[h.index]? = some sl ∧ sl.generation = h.generation ∧
      sl.payload = some y := by
  unfold Arena.get
  cases hsl : a.slots[h.index]? with
  | none => simp
  | some sl =>
    by_cases hg : sl.generation = h.generation <;> simp [hg]

theorem Arena.lt_length_of_get_eq_some {α : Type} {a : Arena α} {h : RigidBodyHandle} {y : α}
    (hget : a.get h = some y) : h.index < a.slots.length := by
  rcases Arena.get_eq_some_iff.1 hget with ⟨sl, hsl, -, -⟩
  by_contra hcon
  rw [List.getElem?_eq_none (by omega)] at hsl
  exact Option.noConfusion hsl

theorem Arena.get_set_self {α : Type} {a : Arena α} {h : RigidBodyHandle} {x y : α}
    (hget : a.get h = some y) : (a.set h x).get h = some x := by
  rcases Arena.get_eq_some_iff.1 hget with ⟨sl, hsl, hg, hp⟩
  have hlt : h.index < a.slots.length := Arena.lt_length_of_get_eq_some hget
  simp only [Arena.set, hsl]
  rw [if_pos ⟨hg, by simp [hp]⟩]
  simp only [Arena.get, List.getElem?_set_eq_of_lt _ hlt, hg, if_pos]

theorem Arena.get_set_ne {α : Type} (a : Arena α) (h h' : RigidBodyHandle) (x : α)
    (hne : h' ≠ h) : (a.set h x).get h' = a.get h' := by
  cases hsl : a.slots[h.index]? with
  | none => simp only [Arena.set, hsl]
  | some sl =>
    simp only [Arena.set, hsl]
    by_cases hcond : sl.generation = h.generation ∧ sl.payload.isSome = true
    · rw [if_pos hcond]
      simp only [Arena.get]
      by_cases hidx : h'.index = h.index
      · have hglt : h.index < a.slots.length := by
          by_contra hcon
          rw [List.getElem?_eq_none (by omega)] at hsl
          exact Option.noConfusion hsl
        rw [hidx, List.getElem?_set_eq_of_lt _ hglt, hsl]
        have hgne : sl.generation ≠ h'.generation := by
          intro heq
          exact hne (by cases h; cases h'; simp_all [hcond.1])
        simp only
        rw [if_neg (by simpa using hgne), if_neg hgne]
      · rw [List.getElem?_set_ne (by omega)]
    · rw [if_neg hcond]

theorem Arena.set_dead {α : Type} {a : Arena α} {h : RigidBodyHandle} {x : α}
    (hget : a.get h = none) : a.set h x = a := by
  cases hsl : a.slots[h.index]? with
  | none => simp only [Arena.set, hsl]
  | some sl =>
    simp only [Arena.set, hsl]
    simp only [Arena.get, hsl] at hget
    by_cases hg : sl.generation = h.generation
    · rw [if_pos hg] at hget
      rw [if_neg (by simp [hget])]
    · rw [if_neg (by simp [hg])]

theorem Arena.remove_eq_none_of_get_eq_none {α : Type} {a : Arena α} {h : RigidBodyHandle}
    (hget : a.get h = none) : a.remove h = none := by
  cases hsl : a.slots[h.index]? with
  | none => simp only [Arena.remove, hsl]
  | some sl =>
    simp only [Arena.remove, hsl]
    simp only [Arena.get, hsl] at hget
    by_cases hg : sl.generation = h.generation
    · rw [if_pos hg] at hget
      rw [if_pos hg, hget]
    · rw [if_neg hg]

theorem Arena.remove_spec {α : Type} {a : Arena α} {h : RigidBodyHandle} {x : α}
    {a1 : Arena α} (hrem : a.remove h = some (x, a1)) :
    a.get h = some x ∧ a1.get h = none ∧
      ∀ h', h' ≠ h → a1.get h' = a.get h' := by
  cases hsl : a.slots[h.index]? with
  | none =>
    simp only [Arena.remove, hsl] at hrem
    exact Option.noConfusion hrem
  | some sl =>
    simp only [Arena.remove, hsl] at hrem
    by_cases hg : sl.generation = h.generation
    · rw [if_pos hg] at hrem
      cases hp : sl.payload with
      | none =>
        simp only [hp] at hrem
        exact Option.noConfusion hrem
      | some y =>
        simp only [hp, Option.some.injEq, Prod.mk.injEq] at hrem
        obtain ⟨hyx, ha1⟩ := hrem
        have hlt : h.index < a.slots.length := by
          by_contra hcon
          rw [List.getElem?_eq_none (by omega)] at hsl
          exact Option.noConfusion hsl
        subst hyx
        refine ⟨?_, ?_, ?_⟩
        · simp only [Arena.get, hsl]
          rw [if_pos hg, hp]
        · simp only [Arena.get, ← ha1]
          rw [List.getElem?_set_eq_of_lt _ hlt]
          simp only
          rw [if_neg (by omega)]
        · intro h' hne
          simp only [Arena.get, ← ha1]
          by_cases hidx : h'.index = h.index
          · rw [hidx, List.getElem?_set_eq_of_lt _ hlt, hsl]
            by_cases hg' : sl.generation = h'.generation
            · exact absurd (by cases h; cases h'; simp_all) hne
            · simp only [ite_self]
              rw [if_neg hg']
          · rw [List.getElem?_set_ne (by omega)]
    · rw [if_neg hg] at hrem
      exact Option.noConfusion hrem

theorem Arena.get_insert_self {α : Type} (a : Arena α) (x : α) :
    (a.insert x).1.get (a.insert x).2 = some x := by
  cases hf : a.free with
  | nil => simp [Arena.insert, hf, Arena.get]
  | cons i rest =>
    cases hsl : a.slots[i]? with
    | none => simp [Arena.insert, hf, hsl, Arena.get]
    | some sl =>
      simp only [Arena.insert, hf, hsl]
      have hlt : i < a.slots.length := by
        by_contra hcon
        rw [List.getElem?_eq_none (by omega)] at hsl
        exact Option.noConfusion hsl
      simp [Arena.get, List.getElem?_set_eq_of_lt _ hlt]

theorem Arena.get_mk_append {α : Type} {slots : List (ArenaSlot α)} {f1 f2 : List Nat}
    {x : α} {h' : RigidBodyHandle} (hne : h' ≠ ⟨slots.length, 0⟩) :
    Arena.get ⟨slots ++ [⟨0, some x⟩], f1⟩ h' = Arena.get ⟨slots, f2⟩ h' := by
  simp only [Arena.get]
  by_cases hidx : h'.index = slots.length
  · have h2 : slots[h'.index]? = none := List.getElem?_eq_none (by omega)
    rw [h2, hidx, List.getElem?_append_right (Nat.le_refl _)]
    simp only [Nat.sub_self, List.getElem?_cons_zero]
    rw [if_neg (fun hg => hne (by cases h'; simp_all))]
  · by_cases hlt : h'.index < slots.length
    · have h1 : (slots ++ [(⟨0, some x⟩ : ArenaSlot α)])[h'.index]? = slots[h'.index]? := by
        rw [List.getElem?_append]
        simp [hlt]
      rw [h1]
    · have h1 : (slots ++ [(⟨0, some x⟩ : ArenaSlot α)])[h'.index]? = none :=
        List.getElem?_eq_none (by simp; omega)
      have h2 : slots[h'.index]? = none := List.getElem?_eq_none (by omega)
      rw [h1, h2]

theorem Arena.get_insert_ne {α : Type} (a : Arena α) (x : α) (h' : RigidBodyHandle)
    (hne : h' ≠ (a.insert x).2) : (a.insert x).1.get h' = a.get h' := by
  cases hf : a.free with
  | nil =>
    simp only [Arena.insert, hf] at hne ⊢
    exact Arena.get_mk_append hne
  | cons i rest =>
    cases hsl : a.slots[i]? with
    | none =>
      simp only [Arena.insert, hf, hsl] at hne ⊢
      exact Arena.get_mk_append hne
    | some sl =>
      simp only [Arena.insert, hf, hsl] at hne ⊢
      have hlt : i < a.slots.length := by
        by_contra hcon
        rw [List.getElem?_eq_none (by omega)] at hsl
        exact Option.noConfusion hsl
      simp only [Arena.get]
      by_cases hidx : h'.index = i
      · rw [hidx, List.getElem?_set_eq_of_lt _ hlt, hsl]
        have hgne : sl.generation ≠ h'.generation := by
          intro heq
          exact hne (by cases h'; simp_all)
        simp only
        rw [if_neg (by simpa using hgne), if_neg hgne]
      · rw [List.getElem?_set_ne (by omega)]

theorem Arena.getUnknownGen_get {α : Type} {a : Arena α} {i : Nat} {x : α}
    {h : RigidBodyHandle} (hg : a.getUnknownGen i = some (x, h)) : a.get h = some x := by
  cases hsl : a.slots[i]? with
  | none =>
    simp only [Arena.getUnknownGen, hsl] at hg
    exact Option.noConfusion hg
  | some sl =>
    simp only [Arena.getUnknownGen, hsl] at hg
    cases hp : sl.payload with
    | none =>
      rw [hp] at hg
      exact Option.noConfusion hg
    | some y =>
      rw [hp] at hg
      simp only [Option.map_some'] at hg
      have hy : y = x ∧ (⟨i, sl.generation⟩ : RigidBodyHandle) = h := by
        simpa [Prod.ext_iff] using hg
      simp [Arena.get, ← hy.2, hsl, hp, hy.1]

/-! ## Change tracking and indexing claims -/

/-- **C9.** When `get_mut` (or `get_unknown_gen_mut`) is called on a live body
whose change bitset does not contain `MODIFIED` while the modified-all flag is
unset, it overwrites the body's entire change bitset with exactly `MODIFIED`,
discarding any previously accumulated `POSITION`, `COLLIDERS` or `SLEEP`
flags, rather than adding `MODIFIED` to them. -/
theorem c9_get_mut_overwrites_changes :
    (∀ (s : RigidBodySet) (h : RigidBodyHandle) (rb : RigidBody),
      s.modified_all_bodies = false → s.bodies.get h = some rb →
      rb.changes.contains RigidBodyChanges.MODIFIED = false →
      ∃ s1, s.get_mut h = some ({ rb with changes := RigidBodyChanges.MODIFIED }, s1) ∧
        s1.bodies.get h = some { rb with changes := RigidBodyChanges.MODIFIED } ∧
        s1.modified_bodies = s.modified_bodies ++ [h]) ∧
    (∀ (s : RigidBodySet) (i : Nat) (rb : RigidBody) (h : RigidBodyHandle),
      s.modified_all_bodies = false → s.bodies.getUnknownGen i = some (rb, h) →
      rb.changes.contains RigidBodyChanges.MODIFIED = false →
      ∃ s1, s.get_unknown_gen_mut i =
          some ({ rb with changes := RigidBodyChanges.MODIFIED }, h, s1) ∧
        s1.bodies.get h = some { rb with changes := RigidBodyChanges.MODIFIED } ∧
        s1.modified_bodies = s.modified_bodies ++ [h]) := by
  constructor
  · intro s h rb hall hget hmod
    simp only [RigidBodySet.get_mut, hget]
    rw [if_pos (by simp [hall, hmod])]
    exact ⟨_, rfl, Arena.get_set_self hget, rfl⟩
  · intro s i rb h hall hget hmod
    simp only [RigidBodySet.get_unknown_gen_mut, hget]
    rw [if_pos (by simp [hall, hmod])]
    exact ⟨_, rfl, Arena.get_set_self (Arena.getUnknownGen_get hget), rfl⟩

/-- Witness for C9 at a concrete input: a live body carrying only the
`POSITION` flag has its bitset overwritten with exactly `MODIFIED`. -/
def exBodyC9 : RigidBody :=
  { status := .dynamic,
    activation := { energy := 10, threshold := 1, sleeping := false },
    updatedEnergy := 10, moving := false, active_set_id := 0, active_island_id := 0,
    active_set_offset := 0, active_set_timestamp := 0,
    changes := RigidBodyChanges.POSITION, colliders := [] }

/-- A one-body set whose body carries only the `POSITION` change flag. -/
def exSetC9 : RigidBodySet :=
  { RigidBodySet.new with bodies := (Arena.new.insert exBodyC9).1 }

theorem c9_get_mut_overwrites_changes_witness :
    exSetC9.modified_all_bodies = false ∧
      exSetC9.bodies.get ⟨0, 0⟩ = some exBodyC9 ∧
      exBodyC9.changes.contains RigidBodyChanges.MODIFIED = false ∧
      ∃ s1, exSetC9.get_mut ⟨0, 0⟩ =
          some ({ exBodyC9 with changes := RigidBodyChanges.MODIFIED }, s1) ∧
        s1.bodies.get ⟨0, 0⟩ = some { exBodyC9 with changes := RigidBodyChanges.MODIFIED } ∧
        s1.modified_bodies = exSetC9.modified_bodies ++ [⟨0, 0⟩] :=
  ⟨by decide, by decide, by decide,
    c9_get_mut_overwrites_changes.1 exSetC9 ⟨0, 0⟩ exBodyC9 (by decide) (by decide) (by decide)⟩

/-- **C10.** Indexing a `RigidBodySet` through the `Index` or `IndexMut`
operator with a stale or invalid handle panics, unlike `get` and `get_mut`
which return `none` on the same handle; `IndexMut` additionally performs no
modified-bodies tracking on success. -/
theorem c10_index_operator_panics :
    (∀ (s : RigidBodySet) (h : RigidBodyHandle) (f : RigidBody → RigidBody),
      s.bodies.get h = none →
      s.indexRB h = .error () ∧ s.indexMutRB h f = .error () ∧
        s.get h = none ∧ s.get_mut h = none) ∧
    (∀ (s : RigidBodySet) (h : RigidBodyHandle) (f : RigidBody → RigidBody) (rb : RigidBody),
      s.bodies.get h = some rb →
      ∃ s1, s.indexMutRB h f = .ok s1 ∧ s1.modified_bodies = s.modified_bodies ∧
        s1.modified_all_bodies = s.modified_all_bodies ∧
        s1.bodies = s.bodies.set h (f rb)) := by
  constructor
  · intro s h f hnone
    refine ⟨?_, ?_, hnone, ?_⟩
    · simp only [RigidBodySet.indexRB, hnone]
    · simp only [RigidBodySet.indexMutRB, hnone]
    · simp only [RigidBodySet.get_mut, hnone]
  · intro s h f rb hget
    simp only [RigidBodySet.indexMutRB, hget]
    exact ⟨_, rfl, rfl, rfl, rfl⟩

theorem c10_index_operator_panics_witness :
    (exSetC9.bodies.get ⟨7, 7⟩ = none ∧
      (exSetC9.indexRB ⟨7, 7⟩ = .error () ∧ exSetC9.indexMutRB ⟨7, 7⟩ id = .error () ∧
        exSetC9.get ⟨7, 7⟩ = none ∧ exSetC9.get_mut ⟨7, 7⟩ = none)) ∧
    (exSetC9.bodies.get ⟨0, 0⟩ = some exBodyC9 ∧
      ∃ s1, exSetC9.indexMutRB ⟨0, 0⟩ id = .ok s1 ∧
        s1.modified_bodies = exSetC9.modified_bodies ∧
        s1.modified_all_bodies = exSetC9.modified_all_bodies ∧
        s1.bodies = exSetC9.bodies.set ⟨0, 0⟩ (id exBodyC9)) :=
  ⟨⟨by decide, c10_index_operator_panics.1 exSetC9 ⟨7, 7⟩ id (by decide)⟩,
   ⟨by decide, c10_index_operator_panics.2 exSetC9 ⟨0, 0⟩ id exBodyC9 (by decide)⟩⟩

/-! ## Stale-handle error handling (C6) -/

/-- **C6.** For every handle that is stale (its slot was removed or recycled
to a newer generation) or invalid, `get` and `get_mut` return `none`,
`remove` returns `none` without modifying the set, and `wake_up` is a no-op;
none of these four operations panics on such a handle (all four are total
functions whose results are stated here). -/
theorem c6_stale_handle_graceful (s : RigidBodySet) (h : RigidBodyHandle)
    (colliders : ColliderSet) (joints : JointGraph) (strong : Bool)
    (hstale : s.bodies.get h = none) :
    s.get h = none ∧ s.get_mut h = none ∧
      s.remove h colliders joints = none ∧ s.wake_up h strong = s := by
  refine ⟨hstale, ?_, ?_, ?_⟩
  · simp only [RigidBodySet.get_mut, hstale]
  · simp only [RigidBodySet.remove, Arena.remove_eq_none_of_get_eq_none hstale]
  · simp only [RigidBodySet.wake_up, hstale]

/-- Witness for C6: the handle of a removed body is stale even after its
slot has been recycled by a later insertion. -/
def exSetC6 : RigidBodySet := (RigidBodySet.new.insert exBodyC9).1

/-- The handle returned by the first insertion. -/
def exHandleC6 : RigidBodyHandle := (RigidBodySet.new.insert exBodyC9).2

/-- The set after removing the first body again. -/
def exSetC6r : RigidBodySet :=
  match exSetC6.remove exHandleC6 ⟨[]⟩ ⟨[]⟩ with
  | some r => r.2.1
  | none => RigidBodySet.new

/-- The set after a second insertion recycled the vacated slot. -/
def exSetC6rr : RigidBodySet := (exSetC6r.insert exBodyC9).1

theorem c6_stale_handle_graceful_witness :
    exSetC6rr.bodies.get exHandleC6 = none ∧
      (exSetC6rr.get exHandleC6 = none ∧ exSetC6rr.get_mut exHandleC6 = none ∧
        exSetC6rr.remove exHandleC6 ⟨[]⟩ ⟨[]⟩ = none ∧
        exSetC6rr.wake_up exHandleC6 false = exSetC6rr) :=
  ⟨by decide, c6_stale_handle_graceful exSetC6rr exHandleC6 ⟨[]⟩ ⟨[]⟩ false (by decide)⟩

/-! ## Maintenance idempotence (C5) -/

theorem maintain_modified_cleared (s : RigidBodySet) (colliders : ColliderSet) :
    (s.maintain colliders).1.modified_bodies = [] ∧
      (s.maintain colliders).1.modified_all_bodies = false := by
  unfold RigidBodySet.maintain
  by_cases hall : s.modified_all_bodies = true <;> simp [hall]

/-- **C5.** `maintain` is idempotent: running `maintain` once and then a
second time with no intervening mutation leaves the whole set — in
particular the active dynamic sequence, the active kinematic sequence and
the modified-inactive sequence — exactly as the first run left it, and the
second run leaves its collider argument untouched (it performs no
membership change). -/
theorem c5_maintain_idempotent (s : RigidBodySet) (colliders colliders2 : ColliderSet) :
    (s.maintain colliders).1.maintain colliders2 = ((s.maintain colliders).1, colliders2) := by
  obtain ⟨hmb, hma⟩ := maintain_modified_cleared s colliders
  generalize hs1 : (s.maintain colliders).1 = s1 at hmb hma
  unfold RigidBodySet.maintain
  rw [if_neg (by simp [hma])]
  rw [hmb]
  simp only [List.foldl_nil]
  cases s1
  simp_all

/-! ## The min-island-size assertion (C7) -/

theorem except_pure_ne_error {ε α : Type} (a : α) (e : ε) :
    (pure a : Except ε α) ≠ .error e :=
  fun hcon => Except.noConfusion hcon

theorem except_ok_ne_error {ε α : Type} (a : α) (e : ε) :
    (.ok a : Except ε α) ≠ .error e :=
  fun hcon => Except.noConfusion hcon

theorem except_throw_eq_error {ε α : Type} {e1 e : ε}
    (h : (throw e1 : Except ε α) = .error e) : e1 = e :=
  Except.error.inj h

theorem except_map_err {ε α β : Type} {f : α → β} {x : Except ε α} {e : ε}
    (h : x.map f = .error e) : x = .error e := by
  cases x with
  | error e1 =>
    simp only [Except.map] at h
    rw [Except.error.inj h]
  | ok a => simp only [Except.map] at h; exact absurd h (except_ok_ne_error _ _)

theorem foldlM_except_err {ε α β : Type} (p : ε → Prop) (f : β → α → Except ε β)
    (hf : ∀ b a e, f b a = .error e → p e) :
    ∀ (l : List α) (b : β) (e : ε), l.foldlM f b = .error e → p e := by
  intro l
  induction l with
  | nil =>
    intro b e hfold
    simp only [List.foldlM_nil] at hfold
    exact absurd hfold (except_pure_ne_error _ _)
  | cons x xs ih =>
    intro b e hfold
    simp only [List.foldlM_cons] at hfold
    cases hfx : f b x with
    | error e1 =>
      rw [hfx] at hfold
      simp only [bind, Except.bind] at hfold
      rw [← Except.error.inj hfold]
      exact hf b x e1 hfx
    | ok b1 =>
      rw [hfx] at hfold
      simp only [bind, Except.bind] at hfold
      exact ih b1 e hfold

theorem push_contacting_bodies_err {rb : RigidBody} {colliders : ColliderSet}
    {np : NarrowPhase} {stack : List RigidBodyHandle} {e : UpdateErr}
    (hp : push_contacting_bodies rb colliders np stack = .error e) : e = .panicked := by
  refine foldlM_except_err (fun e => e = UpdateErr.panicked) _ ?_ rb.colliders stack e hp
  intro b a e1 hfold
  refine foldlM_except_err (fun e => e = UpdateErr.panicked) _ ?_ (np.contacts_with a) b e1 hfold
  intro b2 a2 e2 hstep
  by_cases hm : ∃ m ∈ a2.manifolds, m.data.solver_contacts ≠ []
  · rw [if_pos hm] at hstep
    cases hc : colliders.get (select_other (a2.collider1, a2.collider2) a) with
    | some c =>
      rw [hc] at hstep
      exact absurd hstep (except_pure_ne_error _ _)
    | none =>
      rw [hc] at hstep
      exact (except_throw_eq_error hstep).symm
  · rw [if_neg hm] at hstep
    exact absurd hstep (except_pure_ne_error _ _)

theorem drainPhase_err {bodies : Arena RigidBody} {ads : List RigidBodyHandle}
    {e : UpdateErr} (hd : drainPhase bodies ads = .error e) : e = .panicked := by
  unfold drainPhase at hd
  have hbig := except_map_err hd
  refine foldlM_except_err (fun e => e = UpdateErr.panicked) _ ?_ ads.reverse _ e hbig
  intro b a e2 hstep
  unfold drainStep at hstep
  cases hb : b.1.get a with
  | none =>
    rw [hb] at hstep
    exact (except_throw_eq_error hstep).symm
  | some rb =>
    rw [hb] at hstep
    simp only at hstep
    by_cases hle : rb.update_energy.activation.energy ≤ rb.update_energy.activation.threshold
    · rw [if_pos hle] at hstep
      exact absurd hstep (except_pure_ne_error _ _)
    · rw [if_neg hle] at hstep
      exact absurd hstep (except_pure_ne_error _ _)

theorem kinematicPhase_err {bodies : Arena RigidBody} {aks : List RigidBodyHandle}
    {colliders : ColliderSet} {np : NarrowPhase} {stack : List RigidBodyHandle}
    {e : UpdateErr} (hk : kinematicPhase bodies aks colliders np stack = .error e) :
    e = .panicked := by
  refine foldlM_except_err (fun e => e = UpdateErr.panicked) _ ?_ aks stack e hk
  intro b a e1 hstep
  cases hb : bodies.get a with
  | none =>
    rw [hb] at hstep
    exact (except_throw_eq_error hstep).symm
  | some rb =>
    rw [hb] at hstep
    simp only at hstep
    by_cases hmov : rb.is_moving = true
    · rw [if_pos hmov] at hstep
      exact push_contacting_bodies_err hstep
    · rw [if_neg hmov] at hstep
      exact absurd hstep (except_pure_ne_error _ _)

theorem traversalStep_err {colliders : ColliderSet} {np : NarrowPhase} {jg : JointGraph}
    {min_island_size ts : Nat} {st : LoopState} {e : UpdateErr}
    (hs : traversalStep colliders np jg min_island_size ts st = .error e) :
    e = .panicked := by
  unfold traversalStep at hs
  cases hstack : st.stack with
  | nil =>
    rw [hstack] at hs
    exact absurd hs (except_pure_ne_error _ _)
  | cons handle rest =>
    rw [hstack] at hs
    simp only at hs
    cases hb : st.bodies.get handle with
    | none =>
      rw [hb] at hs
      exact (except_throw_eq_error hs).symm
    | some rb =>
      rw [hb] at hs
      simp only at hs
      by_cases hskip : rb.active_set_timestamp = ts ∨ ¬ rb.is_dynamic = true
      · rw [if_pos hskip] at hs
        exact absurd hs (except_pure_ne_error _ _)
      · rw [if_neg hskip] at hs
        exact push_contacting_bodies_err (except_map_err hs)

theorem traversalLoop_err {colliders : ColliderSet} {np : NarrowPhase} {jg : JointGraph}
    {min_island_size ts : Nat} {e : UpdateErr} :
    ∀ (fuel : Nat) (st : LoopState),
      traversalLoop colliders np jg min_island_size ts fuel st = .error e →
      e = .panicked ∨ e = .fuelExhausted := by
  intro fuel
  induction fuel with
  | zero =>
    intro st hl
    unfold traversalLoop at hl
    cases hstep : traversalStep colliders np jg min_island_size ts st with
    | error e1 =>
      simp only [hstep] at hl
      rw [← Except.error.inj hl]
      exact Or.inl (traversalStep_err hstep)
    | ok r =>
      simp only [hstep] at hl
      cases r with
      | none => exact absurd hl (except_ok_ne_error _ _)
      | some st1 =>
        simp only at hl
        exact Or.inr (Except.error.inj hl).symm
  | succ n ih =>
    intro st hl
    unfold traversalLoop at hl
    cases hstep : traversalStep colliders np jg min_island_size ts st with
    | error e1 =>
      simp only [hstep] at hl
      rw [← Except.error.inj hl]
      exact Or.inl (traversalStep_err hstep)
    | ok r =>
      simp only [hstep] at hl
      cases r with
      | none => exact absurd hl (except_ok_ne_error _ _)
      | some st1 =>
        simp only at hl
        exact ih st1 hl

/-- **C7.** `update_active_set_with_contacts` called with
`min_island_size = 0` fails its assertion (modelled as the distinguished
`.error .assertMinIslandSize` result) before doing any work, and for every
`min_island_size ≥ 1` the assertion passes: no run with a positive minimum
island size can produce the assertion failure. -/
theorem c7_min_island_size_assert :
    (∀ (s : RigidBodySet) (colliders : ColliderSet) (np : NarrowPhase)
        (jg : JointGraph) (fuel : Nat),
      s.update_active_set_with_contacts colliders np jg 0 fuel =
        .error .assertMinIslandSize) ∧
    (∀ (s : RigidBodySet) (colliders : ColliderSet) (np : NarrowPhase)
        (jg : JointGraph) (min_island_size fuel : Nat), 1 ≤ min_island_size →
      s.update_active_set_with_contacts colliders np jg min_island_size fuel ≠
        .error .assertMinIslandSize) := by
  constructor
  · intro s colliders np jg fuel
    unfold RigidBodySet.update_active_set_with_contacts
    rw [if_pos rfl]
    rfl
  · intro s colliders np jg min_island_size fuel hmin hcon
    unfold RigidBodySet.update_active_set_with_contacts at hcon
    rw [if_neg (by omega)] at hcon
    simp only [bind, Except.bind] at hcon
    cases hdr : drainPhase s.bodies s.active_dynamic_set with
    | error e1 =>
      rw [hdr] at hcon
      simp only at hcon
      have he1 := drainPhase_err hdr
      rw [Except.error.inj hcon] at he1
      exact UpdateErr.noConfusion he1
    | ok dr =>
      rw [hdr] at hcon
      simp only at hcon
      cases hk : kinematicPhase dr.1 s.active_kinematic_set colliders np dr.2.1 with
      | error e2 =>
        rw [hk] at hcon
        simp only at hcon
        have he2 := kinematicPhase_err hk
        rw [Except.error.inj hcon] at he2
        exact UpdateErr.noConfusion he2
      | ok stack2 =>
        rw [hk] at hcon
        simp only at hcon
        cases hloop : traversalLoop colliders np jg min_island_size
            (s.active_set_timestamp + 1) fuel
            { bodies := dr.1, stack := stack2, active_dynamic_set := [],
              active_islands := [0], island_marker := stack2.length.max 1 - 1 } with
        | error e3 =>
          rw [hloop] at hcon
          simp only at hcon
          have he3 := traversalLoop_err fuel _ hloop
          rw [Except.error.inj hcon] at he3
          rcases he3 with h | h <;> exact UpdateErr.noConfusion h
        | ok stF =>
          rw [hloop] at hcon
          simp only at hcon
          cases hsleep : (dr.2.2.foldlM
              (fun (b : Arena RigidBody) h =>
                match b.get h with
                | none => throw UpdateErr.panicked
                | some rb => pure (if rb.activation.sleeping then b.set h rb.sleep else b))
              stF.bodies : Except UpdateErr (Arena RigidBody)) with
          | error e4 =>
            rw [hsleep] at hcon
            simp only at hcon
            have he4 : e4 = UpdateErr.panicked := by
              refine foldlM_except_err (fun e => e = UpdateErr.panicked) _ ?_
                dr.2.2 stF.bodies _ hsleep
              intro b a e5 hstep
              cases hb : b.get a with
              | none =>
                rw [hb] at hstep
                exact (except_throw_eq_error hstep).symm
              | some rb =>
                rw [hb] at hstep
                exact absurd hstep (except_pure_ne_error _ _)
            rw [Except.error.inj hcon] at he4
            exact UpdateErr.noConfusion he4
          | ok bodiesF =>
            rw [hsleep] at hcon
            simp only at hcon
            exact absurd hcon (except_pure_ne_error _ _)

/-- Witness for C7's second part at a concrete input. -/
theorem c7_min_island_size_assert_witness :
    1 ≤ 1 ∧
      RigidBodySet.new.update_active_set_with_contacts ⟨[]⟩ ⟨[]⟩ ⟨[]⟩ 1 1 ≠
        .error .assertMinIslandSize :=
  ⟨by decide,
   c7_min_island_size_assert.2 RigidBodySet.new ⟨[]⟩ ⟨[]⟩ ⟨[]⟩ 1 1 (by decide)⟩

/-! ## The empty active set produces island table [0, 0] (C8) -/

theorem kinematicPhase_no_push {bodies : Arena RigidBody} {colliders : ColliderSet}
    {np : NarrowPhase} :
    ∀ (aks : List RigidBodyHandle),
      (∀ h ∈ aks, ∃ rb, bodies.get h = some rb ∧
        (rb.is_moving = true → ∀ st, push_contacting_bodies rb colliders np st = .ok st)) →
      ∀ st, kinematicPhase bodies aks colliders np st = .ok st := by
  intro aks
  induction aks with
  | nil => intro _ st; rfl
  | cons h t ih =>
    intro hall st
    obtain ⟨rb, hrb, hpush⟩ := hall h (by simp)
    unfold kinematicPhase
    simp only [List.foldlM_cons, hrb]
    by_cases hmov : rb.is_moving = true
    · rw [if_pos hmov, hpush hmov st]
      simp only [bind, Except.bind]
      exact ih (fun h1 hh1 => hall h1 (by simp [hh1])) st
    · rw [if_neg hmov]
      simp only [pure, Except.pure, bind, Except.bind]
      exact ih (fun h1 hh1 => hall h1 (by simp [hh1])) st

theorem traversalLoop_empty_stack {colliders : ColliderSet} {np : NarrowPhase}
    {jg : JointGraph} {min_island_size ts : Nat} (fuel : Nat) (st : LoopState)
    (hst : st.stack = []) :
    traversalLoop colliders np jg min_island_size ts fuel st = .ok st := by
  unfold traversalLoop traversalStep
  rw [hst]
  rfl

/-- **C8.** If the active dynamic sequence is empty when
`update_active_set_with_contacts` runs and no moving active kinematic body
pushes any contacting body onto the traversal stack, then after the call
the island table is exactly `[0, 0]` — a single empty island with no
phantom extra boundary — and consequently `num_islands` returns `1`. -/
theorem c8_empty_active_set_islands (s : RigidBodySet) (colliders : ColliderSet)
    (np : NarrowPhase) (jg : JointGraph) (min_island_size fuel : Nat)
    (hads : s.active_dynamic_set = [])
    (hkin : ∀ h ∈ s.active_kinematic_set, ∃ rb, s.bodies.get h = some rb ∧
      (rb.is_moving = true → ∀ st, push_contacting_bodies rb colliders np st = .ok st))
    (hmin : min_island_size ≠ 0) :
    ∃ s1, s.update_active_set_with_contacts colliders np jg min_island_size fuel =
        .ok s1 ∧ s1.active_islands = [0, 0] ∧ s1.num_islands = 1 := by
  unfold RigidBodySet.update_active_set_with_contacts
  rw [if_neg hmin]
  simp only [bind, Except.bind]
  have hdr : drainPhase s.bodies s.active_dynamic_set = .ok (s.bodies, [], []) := by
    rw [hads]; rfl
  rw [hdr]
  simp only
  rw [kinematicPhase_no_push s.active_kinematic_set hkin []]
  simp only
  rw [traversalLoop_empty_stack fuel _ rfl]
  simp only [List.foldlM_nil]
  simp only [pure, Except.pure]
  exact ⟨_, rfl, rfl, rfl⟩

/-- Witness for C8 at a concrete input: the empty set. -/
theorem c8_empty_active_set_islands_witness :
    RigidBodySet.new.active_dynamic_set = [] ∧ (1 : Nat) ≠ 0 ∧
      ∃ s1, RigidBodySet.new.update_active_set_with_contacts ⟨[]⟩ ⟨[]⟩ ⟨[]⟩ 1 0 =
          .ok s1 ∧ s1.active_islands = [0, 0] ∧ s1.num_islands = 1 :=
  ⟨rfl, by decide,
   c8_empty_active_set_islands RigidBodySet.new ⟨[]⟩ ⟨[]⟩ ⟨[]⟩ 1 0 rfl
     (by intro h hh; simp [RigidBodySet.new] at hh) (by decide)⟩

/-! ## Decomposition of the traversal loop -/

theorem traversalStep_ok_none {colliders : ColliderSet} {np : NarrowPhase}
    {jg : JointGraph} {min_island_size ts : Nat} {st : LoopState}
    (hs : traversalStep colliders np jg min_island_size ts st = .ok none) :
    st.stack = [] := by
  unfold traversalStep at hs
  cases hstack : st.stack with
  | nil => rfl
  | cons handle rest =>
    rw [hstack] at hs
    simp only at hs
    cases hb : st.bodies.get handle with
    | none =>
      rw [hb] at hs
      exact Except.noConfusion hs
    | some rb =>
      rw [hb] at hs
      simp only at hs
      by_cases hskip : rb.active_set_timestamp = ts ∨ ¬ rb.is_dynamic = true
      · rw [if_pos hskip] at hs
        exact Option.noConfusion (Except.ok.inj hs)
      · rw [if_neg hskip] at hs
        cases hpush : push_contacting_bodies
            (processedBody st (islandPush min_island_size st rest.length).1 ts rb)
            colliders np rest with
        | error e1 =>
          rw [hpush] at hs
          exact Except.noConfusion hs
        | ok stack1 =>
          rw [hpush] at hs
          simp only [Except.map] at hs
          exact Option.noConfusion (Except.ok.inj hs)

/-- The two shapes of a successful non-final traversal iteration: either
the popped body is skipped, or it is processed. -/
theorem traversalStep_ok_some {colliders : ColliderSet} {np : NarrowPhase}
    {jg : JointGraph} {min_island_size ts : Nat} {st st1 : LoopState}
    (hs : traversalStep colliders np jg min_island_size ts st = .ok (some st1)) :
    ∃ handle rest rb, st.stack = handle :: rest ∧ st.bodies.get handle = some rb ∧
      (((rb.active_set_timestamp = ts ∨ ¬ rb.is_dynamic = true) ∧
          st1 = { st with stack := rest }) ∨
       (rb.active_set_timestamp ≠ ts ∧ rb.is_dynamic = true ∧
        ∃ stack1, push_contacting_bodies
            (processedBody st (islandPush min_island_size st rest.length).1 ts rb)
            colliders np rest = .ok stack1 ∧
          st1 = { bodies := st.bodies.set handle
                    (processedBody st (islandPush min_island_size st rest.length).1 ts rb),
                  stack := jointPushes jg handle stack1,
                  active_dynamic_set := st.active_dynamic_set ++ [handle],
                  active_islands := (islandPush min_island_size st rest.length).1,
                  island_marker := (islandPush min_island_size st rest.length).2 })) := by
  unfold traversalStep at hs
  cases hstack : st.stack with
  | nil =>
    rw [hstack] at hs
    exact Option.noConfusion (Except.ok.inj hs)
  | cons handle rest =>
    rw [hstack] at hs
    simp only at hs
    cases hb : st.bodies.get handle with
    | none =>
      rw [hb] at hs
      exact Except.noConfusion hs
    | some rb =>
      rw [hb] at hs
      simp only at hs
      refine ⟨handle, rest, rb, rfl, hb, ?_⟩
      by_cases hskip : rb.active_set_timestamp = ts ∨ ¬ rb.is_dynamic = true
      · rw [if_pos hskip] at hs
        exact Or.inl ⟨hskip, (Option.some.inj (Except.ok.inj hs)).symm⟩
      · rw [if_neg hskip] at hs
        push_neg at hskip
        refine Or.inr ⟨hskip.1, by simpa using hskip.2, ?_⟩
        cases hpush : push_contacting_bodies
            (processedBody st (islandPush min_island_size st rest.length).1 ts rb)
            colliders np rest with
        | error e1 =>
          rw [hpush] at hs
          exact Except.noConfusion hs
        | ok stack1 =>
          rw [hpush] at hs
          simp only [Except.map] at hs
          exact ⟨stack1, rfl, (Option.some.inj (Except.ok.inj hs)).symm⟩

/-- An invariant preserved by every iteration is carried from the initial
loop state to the final one. -/
theorem traversalLoop_inv {colliders : ColliderSet} {np : NarrowPhase} {jg : JointGraph}
    {min_island_size ts : Nat} (P : LoopState → Prop)
    (hstep : ∀ st st1, traversalStep colliders np jg min_island_size ts st = .ok (some st1) →
      P st → P st1) :
    ∀ (fuel : Nat) (st stF : LoopState),
      traversalLoop colliders np jg min_island_size ts fuel st = .ok stF → P st → P stF := by
  intro fuel
  induction fuel with
  | zero =>
    intro st stF hl hP
    unfold traversalLoop at hl
    cases hstep1 : traversalStep colliders np jg min_island_size ts st with
    | error e1 => simp only [hstep1] at hl; exact Except.noConfusion hl
    | ok r =>
      simp only [hstep1] at hl
      cases r with
      | none => rw [← Except.ok.inj hl]; exact hP
      | some st1 => simp only at hl; exact Except.noConfusion hl
  | succ n ih =>
    intro st stF hl hP
    unfold traversalLoop at hl
    cases hstep1 : traversalStep colliders np jg min_island_size ts st with
    | error e1 => simp only [hstep1] at hl; exact Except.noConfusion hl
    | ok r =>
      simp only [hstep1] at hl
      cases r with
      | none => rw [← Except.ok.inj hl]; exact hP
      | some st1 =>
        simp only at hl
        exact ih st1 stF hl (hstep st st1 hstep1 hP)

/-- The traversal loop only stops on an empty stack. -/
theorem traversalLoop_final_stack {colliders : ColliderSet} {np : NarrowPhase}
    {jg : JointGraph} {min_island_size ts : Nat} :
    ∀ (fuel : Nat) (st stF : LoopState),
      traversalLoop colliders np jg min_island_size ts fuel st = .ok stF →
      stF.stack = [] := by
  intro fuel
  induction fuel with
  | zero =>
    intro st stF hl
    unfold traversalLoop at hl
    cases hstep1 : traversalStep colliders np jg min_island_size ts st with
    | error e1 => simp only [hstep1] at hl; exact Except.noConfusion hl
    | ok r =>
      simp only [hstep1] at hl
      cases r with
      | none => rw [← Except.ok.inj hl]; exact traversalStep_ok_none hstep1
      | some st1 => simp only at hl; exact Except.noConfusion hl
  | succ n ih =>
    intro st stF hl
    unfold traversalLoop at hl
    cases hstep1 : traversalStep colliders np jg min_island_size ts st with
    | error e1 => simp only [hstep1] at hl; exact Except.noConfusion hl
    | ok r =>
      simp only [hstep1] at hl
      cases r with
      | none => rw [← Except.ok.inj hl]; exact traversalStep_ok_none hstep1
      | some st1 =>
        simp only at hl
        exact ih st1 stF hl

/-- The sleep pass at the end of `update_active_set_with_contacts`. -/
def sleepPass (canSleep : List RigidBodyHandle) (bodies : Arena RigidBody) :
    Except UpdateErr (Arena RigidBody) :=
  canSleep.foldlM
    (fun (b : Arena RigidBody) h =>
      match b.get h with
      | none => throw UpdateErr.panicked
      | some rb => pure (if rb.activation.sleeping then b.set h rb.sleep else b))
    bodies

/-- Decomposition of any successful run of
`update_active_set_with_contacts` into its phases. -/
theorem update_ok_decomp {s : RigidBodySet} {colliders : ColliderSet} {np : NarrowPhase}
    {jg : JointGraph} {min_island_size fuel : Nat} {s1 : RigidBodySet}
    (hrun : s.update_active_set_with_contacts colliders np jg min_island_size fuel =
      .ok s1) :
    min_island_size ≠ 0 ∧
    ∃ dr stack2 stF bodiesF,
      drainPhase s.bodies s.active_dynamic_set = .ok dr ∧
      kinematicPhase dr.1 s.active_kinematic_set colliders np dr.2.1 = .ok stack2 ∧
      traversalLoop colliders np jg min_island_size (s.active_set_timestamp + 1) fuel
        { bodies := dr.1, stack := stack2, active_dynamic_set := [],
          active_islands := [0], island_marker := stack2.length.max 1 - 1 } = .ok stF ∧
      sleepPass dr.2.2 stF.bodies = .ok bodiesF ∧
      s1 = { s with
        bodies := bodiesF,
        active_dynamic_set := stF.active_dynamic_set,
        active_islands := stF.active_islands ++ [stF.active_dynamic_set.length],
        active_set_timestamp := s.active_set_timestamp + 1,
        can_sleep := dr.2.2,
        stack := [] } := by
  unfold RigidBodySet.update_active_set_with_contacts at hrun
  by_cases hmin : min_island_size = 0
  · rw [if_pos hmin] at hrun
    exact Except.noConfusion hrun
  refine ⟨hmin, ?_⟩
  rw [if_neg hmin] at hrun
  simp only [bind, Except.bind] at hrun
  cases hdr : drainPhase s.bodies s.active_dynamic_set with
  | error e1 => rw [hdr] at hrun; exact Except.noConfusion hrun
  | ok dr =>
    rw [hdr] at hrun
    simp only at hrun
    cases hk : kinematicPhase dr.1 s.active_kinematic_set colliders np dr.2.1 with
    | error e2 => rw [hk] at hrun; exact Except.noConfusion hrun
    | ok stack2 =>
      rw [hk] at hrun
      simp only at hrun
      cases hloop : traversalLoop colliders np jg min_island_size
          (s.active_set_timestamp + 1) fuel
          { bodies := dr.1, stack := stack2, active_dynamic_set := [],
            active_islands := [0], island_marker := stack2.length.max 1 - 1 } with
      | error e3 => rw [hloop] at hrun; exact Except.noConfusion hrun
      | ok stF =>
        rw [hloop] at hrun
        simp only at hrun
        cases hsleep : sleepPass dr.2.2 stF.bodies with
        | error e4 =>
          rw [show (dr.2.2.foldlM
              (fun (b : Arena RigidBody) h =>
                match b.get h with
                | none => throw UpdateErr.panicked
                | some rb => pure (if rb.activation.sleeping then b.set h rb.sleep else b))
              stF.bodies : Except UpdateErr (Arena RigidBody)) = .error e4 from hsleep]
            at hrun
          exact Except.noConfusion hrun
        | ok bodiesF =>
          rw [show (dr.2.2.foldlM
              (fun (b : Arena RigidBody) h =>
                match b.get h with
                | none => throw UpdateErr.panicked
                | some rb => pure (if rb.activation.sleeping then b.set h rb.sleep else b))
              stF.bodies : Except UpdateErr (Arena RigidBody)) = .ok bodiesF from hsleep]
            at hrun
          simp only at hrun
          exact ⟨dr, stack2, stF, bodiesF, rfl, hk, hloop, hsleep,
            (Except.ok.inj hrun).symm⟩

/-! ## Island size bound (C3) -/

theorem getElem?_append_lt {α : Type} {l r : List α} {i : Nat} (h : i < l.length) :
    (l ++ r)[i]? = l[i]? := by
  rw [List.getElem?_append]
  simp [h]

theorem getLastD_eq_getElem? {l : List Nat} (h : l ≠ []) :
    l[l.length - 1]? = some (l.getLastD 0) := by
  rw [List.getLastD_eq_getLast?, ← List.getLast?_eq_getElem?]
  cases hl : l.getLast? with
  | none => exact absurd (by simpa using congrArg Option.isSome hl) (by simp [h])
  | some a => rfl

theorem getLastD_append (l : List Nat) (x d : Nat) : (l ++ [x]).getLastD d = x := by
  simp [List.getLastD_eq_getLast?, List.getLast?_append]

/-- Adjacent island boundaries are at least `min` apart, and the last
boundary does not exceed the length of the rebuilt sequence. -/
def IslandChain (min : Nat) (st : LoopState) : Prop :=
  st.active_islands ≠ [] ∧
  (∀ i a b, st.active_islands[i]? = some a → st.active_islands[i + 1]? = some b →
    a + min ≤ b) ∧
  st.active_islands.getLastD 0 ≤ st.active_dynamic_set.length

theorem chainGe_append {min : Nat} {l : List Nat} {x : Nat}
    (h : ∀ i a b, l[i]? = some a → l[i + 1]? = some b → a + min ≤ b)
    (hne : l ≠ []) (hx : l.getLastD 0 + min ≤ x) :
    ∀ i a b, (l ++ [x])[i]? = some a → (l ++ [x])[i + 1]? = some b → a + min ≤ b := by
  intro i a b ha hb
  by_cases hb' : i + 1 < l.length
  · rw [getElem?_append_lt (by omega)] at ha
    rw [getElem?_append_lt hb'] at hb
    exact h i a b ha hb
  · by_cases hb'' : i + 1 = l.length
    · rw [getElem?_append_lt (by omega)] at ha
      have ha' : a = l.getLastD 0 := by
        have := getLastD_eq_getElem? hne
        rw [show l.length - 1 = i by omega] at this
        rw [ha] at this
        exact Option.some.inj this
      have hb2 : (l ++ [x])[i + 1]? = some x := by
        rw [hb'', List.getElem?_append_right (by omega)]
        simp
      rw [hb2] at hb
      rw [ha', ← Option.some.inj hb]
      exact hx
    · have : (l ++ [x])[i + 1]? = none := List.getElem?_eq_none (by simp; omega)
      rw [this] at hb
      exact Option.noConfusion hb

theorem traversalStep_island_chain {colliders : ColliderSet} {np : NarrowPhase}
    {jg : JointGraph} {min_island_size ts : Nat} {st st1 : LoopState}
    (hs : traversalStep colliders np jg min_island_size ts st = .ok (some st1))
    (hinv : IslandChain min_island_size st) : IslandChain min_island_size st1 := by
  obtain ⟨handle, rest, rb, hstack, hb, hcase⟩ := traversalStep_ok_some hs
  obtain ⟨hne, hchain, hlast⟩ := hinv
  rcases hcase with ⟨hskip, hst1⟩ | ⟨hts, hdyn, stack1, hpush, hst1⟩
  · rw [hst1]
    exact ⟨hne, hchain, hlast⟩
  · rw [hst1]
    unfold islandPush
    by_cases hshrink : rest.length < st.island_marker
    · rw [if_pos hshrink]
      by_cases hgap : min_island_size ≤
          st.active_dynamic_set.length - st.active_islands.getLastD 0
      · rw [if_pos hgap]
        simp only
        refine ⟨by simp, ?_, ?_⟩
        · exact chainGe_append hchain hne (by omega)
        · rw [getLastD_append]
          simp
      · rw [if_neg hgap]
        simp only
        refine ⟨hne, hchain, ?_⟩
        simp only [List.length_append, List.length_cons, List.length_nil]
        omega
    · rw [if_neg hshrink]
      simp only
      refine ⟨hne, hchain, ?_⟩
      simp only [List.length_append, List.length_cons, List.length_nil]
      omega

/-- **C3.** After `update_active_set_with_contacts` with any
`min_island_size ≥ 1`, every island range delimited by consecutive entries
of the island table — except possibly the last island — contains at least
`min_island_size` bodies: `active_islands[i+1] - active_islands[i] ≥
min_island_size` for every `i < island_count - 1`. -/
theorem c3_island_size_bound (s : RigidBodySet) (colliders : ColliderSet)
    (np : NarrowPhase) (jg : JointGraph) (min_island_size fuel : Nat)
    (s1 : RigidBodySet) (hmin : 1 ≤ min_island_size)
    (hrun : s.update_active_set_with_contacts colliders np jg min_island_size fuel =
      .ok s1) :
    ∀ i a b, i + 2 < s1.active_islands.length →
      s1.active_islands[i]? = some a → s1.active_islands[i + 1]? = some b →
      min_island_size ≤ b - a := by
  obtain ⟨hmin0, dr, stack2, stF, bodiesF, hdr, hk, hloop, hsleep, hs1⟩ :=
    update_ok_decomp hrun
  have hinv : IslandChain min_island_size stF := by
    refine traversalLoop_inv (IslandChain min_island_size)
      (fun st st1 hstep hp => traversalStep_island_chain hstep hp) fuel _ stF hloop ?_
    refine ⟨by simp, ?_, by simp⟩
    intro i a b ha hb
    rw [List.getElem?_eq_none (by simp)] at hb
    exact Option.noConfusion hb
  intro i a b hlen ha hb
  rw [hs1] at hlen ha hb
  simp only at hlen ha hb
  rw [List.length_append, List.length_cons, List.length_nil] at hlen
  rw [getElem?_append_lt (by omega)] at ha
  rw [getElem?_append_lt (by omega)] at hb
  have := hinv.2.1 i a b ha hb
  omega

/-- A set with three isolated awake dynamic bodies, for the C3 witness. -/
def exBodyAwake : RigidBody :=
  { status := .dynamic,
    activation := { energy := 10, threshold := 1, sleeping := false },
    updatedEnergy := 10, moving := false, active_set_id := 0, active_island_id := 0,
    active_set_offset := 0, active_set_timestamp := 0,
    changes := RigidBodyChanges.empty, colliders := [] }

/-- Three awake isolated dynamic bodies in the active dynamic sequence. -/
def exSetC3 : RigidBodySet :=
  let p1 := RigidBodySet.new.insert exBodyAwake
  let p2 := p1.1.insert exBodyAwake
  let p3 := p2.1.insert exBodyAwake
  ((p3.1.wake_up p1.2 false).wake_up p2.2 false).wake_up p3.2 false

/-- The result of the C3 witness run (three singleton islands). -/
def exResC3 : RigidBodySet :=
  match exSetC3.update_active_set_with_contacts ⟨[]⟩ ⟨[]⟩ ⟨[]⟩ 1 10 with
  | .ok r => r
  | .error _ => RigidBodySet.new

theorem c3_island_size_bound_witness :
    1 ≤ 1 ∧
      exSetC3.update_active_set_with_contacts ⟨[]⟩ ⟨[]⟩ ⟨[]⟩ 1 10 = .ok exResC3 ∧
      (∀ i a b, i + 2 < exResC3.active_islands.length →
        exResC3.active_islands[i]? = some a → exResC3.active_islands[i + 1]? = some b →
        1 ≤ b - a) ∧
      exResC3.active_islands = [0, 1, 2, 3] :=
  ⟨by decide, by rfl,
   c3_island_size_bound exSetC3 ⟨[]⟩ ⟨[]⟩ ⟨[]⟩ 1 10 exResC3 (by decide) (by rfl),
   by decide⟩

/-! ## Drain and sleep-pass specifications (C4) -/

/-- Erase the fields the drain phase may write (the kinetic energy and
the tentative sleeping flag): drained bodies agree with their originals
up to this erasure. -/
def eraseES (rb : RigidBody) : RigidBody :=
  { rb with activation := { rb.activation with energy := 0, sleeping := false } }

theorem drainFold_spec (bodies0 : Arena RigidBody) :
    ∀ (l : List RigidBodyHandle)
      (acc r : Arena RigidBody × List RigidBodyHandle × List RigidBodyHandle),
      l.foldlM drainStep acc = .ok r →
      (∀ h, (acc.1.get h).map eraseES = (bodies0.get h).map eraseES) →
      (∀ h, h ∈ acc.2.2 → ∃ rb, acc.1.get h = some rb ∧ rb.activation.sleeping = true) →
      ((∀ h, (r.1.get h).map eraseES = (bodies0.get h).map eraseES) ∧
       (∀ h, h ∈ r.2.2 ↔ (h ∈ acc.2.2 ∨ (h ∈ l ∧ ∃ rb0, bodies0.get h = some rb0 ∧
          rb0.updatedEnergy ≤ rb0.activation.threshold))) ∧
       (∀ h, h ∈ r.2.2 → ∃ rb, r.1.get h = some rb ∧ rb.activation.sleeping = true) ∧
       (∀ h, h ∈ r.2.1 ↔ (h ∈ acc.2.1 ∨ (h ∈ l ∧ ∃ rb0, bodies0.get h = some rb0 ∧
          ¬ rb0.updatedEnergy ≤ rb0.activation.threshold)))) := by
  intro l
  induction l with
  | nil =>
    intro acc r hfold hsim hmark
    simp only [List.foldlM_nil] at hfold
    obtain rfl : acc = r := Except.ok.inj hfold
    refine ⟨hsim, ?_, hmark, ?_⟩ <;> intro h <;> simp
  | cons x xs ih =>
    intro acc r hfold hsim hmark
    simp only [List.foldlM_cons] at hfold
    cases hstep : drainStep acc x with
    | error e =>
      rw [hstep] at hfold
      simp only [bind, Except.bind] at hfold
      exact Except.noConfusion hfold
    | ok acc1 =>
      rw [hstep] at hfold
      simp only [bind, Except.bind] at hfold
      unfold drainStep at hstep
      cases hbx : acc.1.get x with
      | none =>
        rw [hbx] at hstep
        exact Except.noConfusion hstep
      | some rb =>
        rw [hbx] at hstep
        simp only at hstep
        have hsimx := hsim x
        rw [hbx] at hsimx
        cases hb0 : bodies0.get x with
        | none =>
          rw [hb0] at hsimx
          simp only [Option.map_some', Option.map_none'] at hsimx
          exact Option.noConfusion hsimx
        | some rb0 =>
          rw [hb0] at hsimx
          simp only [Option.map_some'] at hsimx
          have herb : eraseES rb = eraseES rb0 := Option.some.inj hsimx
          have hue : rb.updatedEnergy = rb0.updatedEnergy := by
            have := congrArg RigidBody.updatedEnergy herb
            simpa [eraseES] using this
          have hth : rb.activation.threshold = rb0.activation.threshold := by
            have := congrArg (fun r => r.activation.threshold) herb
            simpa [eraseES] using this
          have hcond :
              (rb.update_energy.activation.energy ≤
                rb.update_energy.activation.threshold) ↔
              (rb0.updatedEnergy ≤ rb0.activation.threshold) := by
            simp only [RigidBody.update_energy]
            rw [hue, hth]
          by_cases hle : rb.update_energy.activation.energy ≤
              rb.update_energy.activation.threshold
          · rw [if_pos hle] at hstep
            obtain rfl := Except.ok.inj hstep
            have hsim1 : ∀ h, (((acc.1.set x
                { rb.update_energy with activation :=
                    { rb.update_energy.activation with sleeping := true } }).get h).map
                  eraseES) = (bodies0.get h).map eraseES := by
              intro h
              by_cases hx : h = x
              · subst hx
                rw [Arena.get_set_self hbx, hb0]
                simpa using herb
              · rw [Arena.get_set_ne _ _ _ _ hx]
                exact hsim h
            have hmark1 : ∀ h, h ∈ x :: acc.2.2 →
                ∃ rb1, ((acc.1.set x
                  { rb.update_energy with activation :=
                    { rb.update_energy.activation with sleeping := true } }).get h) =
                  some rb1 ∧ rb1.activation.sleeping = true := by
              intro h hh
              by_cases hx : h = x
              · subst hx
                exact ⟨_, Arena.get_set_self hbx, rfl⟩
              · rw [Arena.get_set_ne _ _ _ _ hx]
                refine hmark h ?_
                rcases List.mem_cons.1 hh with h1 | h1
                · exact absurd h1 hx
                · exact h1
            obtain ⟨ih1, ih2, ih3, ih4⟩ := ih _ r hfold hsim1 hmark1
            refine ⟨ih1, ?_, ih3, ?_⟩
            · intro h
              rw [ih2 h]
              simp only [List.mem_cons]
              constructor
              · rintro ((rfl | hm) | ⟨hxs, hc⟩)
                · exact Or.inr ⟨Or.inl rfl, rb0, hb0, hcond.1 hle⟩
                · exact Or.inl hm
                · exact Or.inr ⟨Or.inr hxs, hc⟩
              · rintro (hm | ⟨rfl | hxs, hc⟩)
                · exact Or.inl (Or.inr hm)
                · exact Or.inl (Or.inl rfl)
                · exact Or.inr ⟨hxs, hc⟩
            · intro h
              rw [ih4 h]
              simp only [List.mem_cons]
              constructor
              · rintro (hm | ⟨hxs, hc⟩)
                · exact Or.inl hm
                · exact Or.inr ⟨Or.inr hxs, hc⟩
              · rintro (hm | ⟨rfl | hxs, rb0', hb0', hnle⟩)
                · exact Or.inl hm
                · rw [hb0] at hb0'
                  rw [← Option.some.inj hb0'] at hnle
                  exact absurd (hcond.1 hle) hnle
                · exact Or.inr ⟨hxs, rb0', hb0', hnle⟩
          · rw [if_neg hle] at hstep
            obtain rfl := Except.ok.inj hstep
            have hsim1 : ∀ h, (((acc.1.set x rb.update_energy).get h).map eraseES) =
                (bodies0.get h).map eraseES := by
              intro h
              by_cases hx : h = x
              · subst hx
                rw [Arena.get_set_self hbx, hb0]
                simpa using herb
              · rw [Arena.get_set_ne _ _ _ _ hx]
                exact hsim h
            have hmark1 : ∀ h, h ∈ acc.2.2 →
                ∃ rb1, ((acc.1.set x rb.update_energy).get h) = some rb1 ∧
                  rb1.activation.sleeping = true := by
              intro h hh
              by_cases hx : h = x
              · subst hx
                obtain ⟨rb', hrb', hsleep'⟩ := hmark h hh
                rw [hbx] at hrb'
                obtain rfl := Option.some.inj hrb'
                refine ⟨_, Arena.get_set_self hbx, ?_⟩
                simpa [RigidBody.update_energy] using hsleep'
              · rw [Arena.get_set_ne _ _ _ _ hx]
                exact hmark h hh
            obtain ⟨ih1, ih2, ih3, ih4⟩ := ih _ r hfold hsim1 hmark1
            refine ⟨ih1, ?_, ih3, ?_⟩
            · intro h
              rw [ih2 h]
              simp only [List.mem_cons]
              constructor
              · rintro (hm | ⟨hxs, hc⟩)
                · exact Or.inl hm
                · exact Or.inr ⟨Or.inr hxs, hc⟩
              · rintro (hm | ⟨rfl | hxs, rb0', hb0', hle'⟩)
                · exact Or.inl hm
                · rw [hb0] at hb0'
                  rw [← Option.some.inj hb0'] at hle'
                  exact absurd (hcond.2 hle') hle
                · exact Or.inr ⟨hxs, rb0', hb0', hle'⟩
            · intro h
              rw [ih4 h]
              simp only [List.mem_cons]
              constructor
              · rintro ((rfl | hm) | ⟨hxs, hc⟩)
                · exact Or.inr ⟨Or.inl rfl, rb0, hb0, fun hcon => hle (hcond.2 hcon)⟩
                · exact Or.inl hm
                · exact Or.inr ⟨Or.inr hxs, hc⟩
              · rintro (hm | ⟨rfl | hxs, hc⟩)
                · exact Or.inl (Or.inr hm)
                · exact Or.inl (Or.inl rfl)
                · exact Or.inr ⟨hxs, hc⟩

theorem drainPhase_spec {bodies0 : Arena RigidBody} {ads : List RigidBodyHandle}
    {b1 : Arena RigidBody} {stk cs : List RigidBodyHandle}
    (hd : drainPhase bodies0 ads = .ok (b1, stk, cs)) :
    (∀ h, (b1.get h).map eraseES = (bodies0.get h).map eraseES) ∧
    (∀ h, h ∈ cs ↔ (h ∈ ads ∧ ∃ rb0, bodies0.get h = some rb0 ∧
        rb0.updatedEnergy ≤ rb0.activation.threshold)) ∧
    (∀ h, h ∈ cs → ∃ rb, b1.get h = some rb ∧ rb.activation.sleeping = true) ∧
    (∀ h, h ∈ stk ↔ (h ∈ ads ∧ ∃ rb0, bodies0.get h = some rb0 ∧
        ¬ rb0.updatedEnergy ≤ rb0.activation.threshold)) := by
  unfold drainPhase at hd
  cases hfold : (ads.reverse.foldlM drainStep (bodies0, [], []) :
      Except UpdateErr (Arena RigidBody × List RigidBodyHandle × List RigidBodyHandle)) with
  | error e =>
    rw [hfold] at hd
    simp only [Except.map] at hd
    exact Except.noConfusion hd
  | ok r =>
    rw [hfold] at hd
    simp only [Except.map] at hd
    have hr := Except.ok.inj hd
    rw [Prod.ext_iff, Prod.ext_iff] at hr
    obtain ⟨hr1, hr2, hr3⟩ := hr
    simp only at hr1 hr2 hr3
    obtain ⟨f1, f2, f3, f4⟩ := drainFold_spec bodies0 ads.reverse (bodies0, [], []) r
      hfold (fun h => rfl) (by intro h hh; simp at hh)
    refine ⟨?_, ?_, ?_, ?_⟩
    · intro h
      rw [← hr1]
      exact f1 h
    · intro h
      rw [← hr3, List.mem_reverse]
      rw [f2 h]
      simp [List.mem_reverse]
    · intro h hh
      rw [← hr1]
      exact f3 h (by rw [← hr3, List.mem_reverse] at hh; exact hh)
    · intro h
      rw [← hr2]
      rw [f4 h]
      simp [List.mem_reverse]

theorem sleepPass_spec :
    ∀ (cs : List RigidBodyHandle) (b bF : Arena RigidBody),
      sleepPass cs b = .ok bF →
      ∀ h rb, b.get h = some rb →
        (¬ (h ∈ cs ∧ rb.activation.sleeping = true) → bF.get h = some rb) ∧
        ((h ∈ cs ∧ rb.activation.sleeping = true) → bF.get h = some rb.sleep) := by
  intro cs
  induction cs with
  | nil =>
    intro b bF hok h rb hget
    unfold sleepPass at hok
    simp only [List.foldlM_nil] at hok
    obtain rfl := Except.ok.inj hok
    exact ⟨fun _ => hget, fun hcon => absurd hcon.1 (by simp)⟩
  | cons x xs ih =>
    intro b bF hok h rb hget
    unfold sleepPass at hok
    simp only [List.foldlM_cons] at hok
    cases hbx : b.get x with
    | none =>
      rw [hbx] at hok
      simp only [bind, Except.bind] at hok
      exact Except.noConfusion hok
    | some rbx =>
      rw [hbx] at hok
      simp only [bind, Except.bind] at hok
      have hok' : sleepPass xs (if rbx.activation.sleeping = true then
          b.set x rbx.sleep else b) = .ok bF := hok
      by_cases hx : h = x
      · subst hx
        rw [hget] at hbx
        obtain rfl := Option.some.inj hbx
        by_cases hsleeping : rb.activation.sleeping = true
        · rw [if_pos hsleeping] at hok'
          have hget' : (b.set h rb.sleep).get h = some rb.sleep :=
            Arena.get_set_self hget
          obtain ⟨ih1, ih2⟩ := ih _ bF hok' h rb.sleep hget'
          refine ⟨fun hni => absurd ⟨by simp, hsleeping⟩ hni, fun _ => ?_⟩
          by_cases hmem : h ∈ xs ∧ (rb.sleep).activation.sleeping = true
          · rw [ih2 hmem]
            rfl
          · exact ih1 hmem
        · rw [if_neg hsleeping] at hok'
          obtain ⟨ih1, ih2⟩ := ih _ bF hok' h rb hget
          refine ⟨fun _ => ?_, fun hcon => absurd hcon.2 hsleeping⟩
          exact ih1 (fun hcon => hsleeping hcon.2)
      · have hget' : (if rbx.activation.sleeping = true then
            b.set x rbx.sleep else b).get h = some rb := by
          by_cases hsx : rbx.activation.sleeping = true
          · rw [if_pos hsx, Arena.get_set_ne _ _ _ _ hx]
            exact hget
          · rw [if_neg hsx]
            exact hget
        obtain ⟨ih1, ih2⟩ := ih _ bF hok' h rb hget'
        constructor
        · intro hni
          refine ih1 (fun hcon => hni ⟨List.mem_cons_of_mem x hcon.1, hcon.2⟩)
        · intro hyes
          refine ih2 ⟨?_, hyes.2⟩
          rcases List.mem_cons.1 hyes.1 with h1 | h1
          · exact absurd h1 hx
          · exact h1

/-! ## Sleep candidates and the traversal (C4) -/

/-- Every live body's traversal timestamp is at most the set's current
timestamp (maintained by the real system, where stamps only come from the
monotone counter). Stated over the slots so that it is decidable on
concrete states. -/
def TimestampsOk (s : RigidBodySet) : Prop :=
  ∀ sl ∈ s.bodies.slots,
    (sl.payload.all fun rb =>
      decide (rb.active_set_timestamp ≤ s.active_set_timestamp)) = true

instance timestampsOk_decidable (s : RigidBodySet) : Decidable (TimestampsOk s) :=
  inferInstanceAs (Decidable (∀ sl ∈ s.bodies.slots,
    (sl.payload.all fun rb =>
      decide (rb.active_set_timestamp ≤ s.active_set_timestamp)) = true))

theorem timestampsOk_get {s : RigidBodySet} (hts : TimestampsOk s) :
    ∀ h rb, s.bodies.get h = some rb →
      rb.active_set_timestamp ≤ s.active_set_timestamp := by
  intro h rb hget
  rcases Arena.get_eq_some_iff.1 hget with ⟨sl, hsl, -, hp⟩
  have := hts sl (List.getElem?_mem hsl)
  rw [hp] at this
  simpa using this

/-- Loop invariant for C4: every body stamped with the current timestamp
is awake and in the rebuilt sequence, and every body that entered the
loop unstamped is either untouched or stamped. -/
def C4Inv (ts : Nat) (bpre : Arena RigidBody) (st : LoopState) : Prop :=
  (∀ h rb, st.bodies.get h = some rb → rb.active_set_timestamp = ts →
    rb.activation.sleeping = false ∧ h ∈ st.active_dynamic_set) ∧
  (∀ h rb0, bpre.get h = some rb0 → rb0.active_set_timestamp ≠ ts →
    (st.bodies.get h = some rb0 ∨
     ∃ rb, st.bodies.get h = some rb ∧ rb.active_set_timestamp = ts))

theorem traversalStep_c4inv {colliders : ColliderSet} {np : NarrowPhase}
    {jg : JointGraph} {min_island_size ts : Nat} {bpre : Arena RigidBody}
    {st st1 : LoopState}
    (hs : traversalStep colliders np jg min_island_size ts st = .ok (some st1))
    (hinv : C4Inv ts bpre st) : C4Inv ts bpre st1 := by
  obtain ⟨handle, rest, rb, hstack, hb, hcase⟩ := traversalStep_ok_some hs
  obtain ⟨hinv1, hinv2⟩ := hinv
  rcases hcase with ⟨hskip, hst1⟩ | ⟨hts1, hdyn, stack1, hpush, hst1⟩
  · rw [hst1]
    exact ⟨hinv1, hinv2⟩
  · rw [hst1]
    constructor
    · intro h rb' hget' hts'
      by_cases hx : h = handle
      · subst hx
        rw [Arena.get_set_self hb] at hget'
        obtain rfl := Option.some.inj hget'
        exact ⟨rfl, by simp⟩
      · rw [Arena.get_set_ne _ _ _ _ hx] at hget'
        obtain ⟨hs1, hs2⟩ := hinv1 h rb' hget' hts'
        exact ⟨hs1, by simp [hs2]⟩
    · intro h rb0 hb0 hts0
      by_cases hx : h = handle
      · subst hx
        exact Or.inr ⟨_, Arena.get_set_self hb, rfl⟩
      · rw [Arena.get_set_ne _ _ _ _ hx]
        exact hinv2 h rb0 hb0 hts0

/-- **C4.** During `update_active_set_with_contacts`, every body drained
from the active dynamic sequence whose updated energy is at most its sleep
threshold is placed on the sleep-candidate list (otherwise it goes to the
traversal stack, hence not to the candidate list), and at the end of the
pass exactly those candidates whose tentative sleeping flag was never
cleared by the traversal — i.e. that were not stamped with the new
timestamp — have the sleep routine applied (sleeping with cleared energy),
while a candidate reached by the traversal remains awake and in the
rebuilt active dynamic sequence. -/
theorem c4_sleep_candidates (s : RigidBodySet) (colliders : ColliderSet)
    (np : NarrowPhase) (jg : JointGraph) (min_island_size fuel : Nat)
    (s1 : RigidBodySet) (hts : TimestampsOk s)
    (hrun : s.update_active_set_with_contacts colliders np jg min_island_size fuel =
      .ok s1) :
    (∀ h rb, h ∈ s.active_dynamic_set → s.bodies.get h = some rb →
      (h ∈ s1.can_sleep ↔ rb.updatedEnergy ≤ rb.activation.threshold)) ∧
    (∀ h rb1, h ∈ s1.can_sleep → s1.bodies.get h = some rb1 →
      ((rb1.active_set_timestamp = s1.active_set_timestamp →
         rb1.activation.sleeping = false ∧ h ∈ s1.active_dynamic_set) ∧
       (rb1.active_set_timestamp ≠ s1.active_set_timestamp →
         rb1.activation.sleeping = true ∧ rb1.activation.energy = 0))) := by
  obtain ⟨hmin0, dr, stack2, stF, bodiesF, hdr, hk, hloop, hsleep, hs1⟩ :=
    update_ok_decomp hrun
  obtain ⟨dsim, dcs, dmark, dstk⟩ :=
    drainPhase_spec (show drainPhase s.bodies s.active_dynamic_set =
      .ok (dr.1, dr.2.1, dr.2.2) from hdr)
  have hcansleep : s1.can_sleep = dr.2.2 := by rw [hs1]
  have hads1 : s1.active_dynamic_set = stF.active_dynamic_set := by rw [hs1]
  have hbodies1 : s1.bodies = bodiesF := by rw [hs1]
  have hts1 : s1.active_set_timestamp = s.active_set_timestamp + 1 := by rw [hs1]
  constructor
  · intro h rb hmem hget
    rw [hcansleep, dcs h]
    constructor
    · rintro ⟨-, rb0, hget0, hle⟩
      rw [hget] at hget0
      obtain rfl := Option.some.inj hget0
      exact hle
    · intro hle
      exact ⟨hmem, rb, hget, hle⟩
  · intro h rb1 hmem hget1
    rw [hcansleep] at hmem
    obtain ⟨rbd, hrbd, hrbdsleep⟩ := dmark h hmem
    have hsimh := dsim h
    rw [hrbd] at hsimh
    cases hget0 : s.bodies.get h with
    | none =>
      rw [hget0] at hsimh
      simp only [Option.map_some', Option.map_none'] at hsimh
      exact Option.noConfusion hsimh
    | some rb0 =>
      rw [hget0] at hsimh
      simp only [Option.map_some'] at hsimh
      have herb := Option.some.inj hsimh
      have htsd : rbd.active_set_timestamp = rb0.active_set_timestamp := by
        have := congrArg RigidBody.active_set_timestamp herb
        simpa [eraseES] using this
      have htsd' : rbd.active_set_timestamp ≠ s.active_set_timestamp + 1 := by
        have := timestampsOk_get hts h rb0 hget0
        omega
      have hinvF : C4Inv (s.active_set_timestamp + 1) dr.1 stF := by
        refine traversalLoop_inv (C4Inv (s.active_set_timestamp + 1) dr.1)
          (fun st st1 hstep hp => traversalStep_c4inv hstep hp) fuel _ stF hloop ?_
        constructor
        · intro h' rb' hget' hts'
          have hsimh' := dsim h'
          rw [hget'] at hsimh'
          cases hget0' : s.bodies.get h' with
          | none =>
            rw [hget0'] at hsimh'
            simp only [Option.map_some', Option.map_none'] at hsimh'
            exact Option.noConfusion hsimh'
          | some rb0' =>
            rw [hget0'] at hsimh'
            simp only [Option.map_some'] at hsimh'
            have htseq : rb'.active_set_timestamp = rb0'.active_set_timestamp := by
              have := congrArg RigidBody.active_set_timestamp (Option.some.inj hsimh')
              simpa [eraseES] using this
            have := timestampsOk_get hts h' rb0' hget0'
            omega
        · intro h' rb0' hb0' _
          exact Or.inl hb0'
      rcases hinvF.2 h rbd hrbd htsd' with huntouched | ⟨rb', hrb', hts'⟩
      · -- not reached by the traversal: the sleep pass puts it to sleep
        obtain ⟨-, hslept⟩ := sleepPass_spec dr.2.2 stF.bodies bodiesF hsleep h rbd huntouched
        have hbF : bodiesF.get h = some rbd.sleep := hslept ⟨hmem, hrbdsleep⟩
        rw [hbodies1, hbF] at hget1
        obtain rfl := Option.some.inj hget1
        rw [hts1]
        refine ⟨fun hcon => absurd ?_ htsd', fun _ => ⟨rfl, rfl⟩⟩
        simpa [RigidBody.sleep] using hcon
      · -- reached by the traversal: stays awake and in the rebuilt sequence
        obtain ⟨hawake, hmem'⟩ := hinvF.1 h rb' hrb' hts'
        obtain ⟨hkeep, -⟩ := sleepPass_spec dr.2.2 stF.bodies bodiesF hsleep h rb' hrb'
        have hbF : bodiesF.get h = some rb' := hkeep (fun hcon => by
          rw [hawake] at hcon
          exact Bool.noConfusion hcon.2)
        rw [hbodies1, hbF] at hget1
        obtain rfl := Option.some.inj hget1
        rw [hts1, hads1]
        exact ⟨fun _ => ⟨hawake, hmem'⟩, fun hcon => absurd hts' hcon⟩

/-- C4 witness scenario: body A is a sleep candidate (zero updated energy)
but is reached through a live contact with the awake body B. -/
def exSetC4 : RigidBodySet :=
  let p1 := RigidBodySet.new.insert exBodyAwake
  let p2 := p1.1.insert exBodyAwake
  let fA : RigidBody → RigidBody := fun rb =>
    { rb with colliders := [0], updatedEnergy := 0 }
  let fB : RigidBody → RigidBody := fun rb => { rb with colliders := [1] }
  let s2 := { p2.1 with bodies := (p2.1.bodies.modify p1.2 fA).modify p2.2 fB }
  (s2.wake_up p1.2 false).wake_up p2.2 false

/-- The collider set of the C4 witness: collider 0 on body ⟨0,0⟩,
collider 1 on body ⟨1,0⟩. -/
def exCsC4 : ColliderSet := ⟨[(0, ⟨⟨0, 0⟩⟩), (1, ⟨⟨1, 0⟩⟩)]⟩

/-- The narrow phase of the C4 witness: one live contact pair. -/
def exNpC4 : NarrowPhase := ⟨[⟨0, 1, [⟨⟨[7]⟩⟩]⟩]⟩

/-- The result of the C4 witness run. -/
def exResC4 : RigidBodySet :=
  match exSetC4.update_active_set_with_contacts exCsC4 exNpC4 ⟨[]⟩ 1 10 with
  | .ok r => r
  | .error _ => RigidBodySet.new

theorem c4_sleep_candidates_witness :
    TimestampsOk exSetC4 ∧
      exSetC4.update_active_set_with_contacts exCsC4 exNpC4 ⟨[]⟩ 1 10 = .ok exResC4 ∧
      ((∀ h rb, h ∈ exSetC4.active_dynamic_set → exSetC4.bodies.get h = some rb →
        (h ∈ exResC4.can_sleep ↔ rb.updatedEnergy ≤ rb.activation.threshold)) ∧
       (∀ h rb1, h ∈ exResC4.can_sleep → exResC4.bodies.get h = some rb1 →
        ((rb1.active_set_timestamp = exResC4.active_set_timestamp →
           rb1.activation.sleeping = false ∧ h ∈ exResC4.active_dynamic_set) ∧
         (rb1.active_set_timestamp ≠ exResC4.active_set_timestamp →
           rb1.activation.sleeping = true ∧ rb1.activation.energy = 0)))) :=
  ⟨by decide, by rfl,
   c4_sleep_candidates exSetC4 exCsC4 exNpC4 ⟨[]⟩ 1 10 exResC4 (by decide) (by rfl)⟩

/-! ## Active-set consistency (C2): arena well-formedness -/

theorem Arena.get_modify_self {α : Type} {a : Arena α} {h : RigidBodyHandle} {x : α}
    (f : α → α) (hget : a.get h = some x) : (a.modify h f).get h = some (f x) := by
  unfold Arena.modify
  rw [hget]
  exact Arena.get_set_self hget

theorem Arena.get_modify_ne {α : Type} (a : Arena α) (h h' : RigidBodyHandle)
    (f : α → α) (hne : h' ≠ h) : (a.modify h f).get h' = a.get h' := by
  unfold Arena.modify
  cases hget : a.get h with
  | none => rfl
  | some x => exact Arena.get_set_ne _ _ _ _ hne

/-- Well-formedness of the free list: distinct indices, each pointing at
a vacant, in-range slot. Every arena reachable by the container's
operations satisfies it. -/
def ArenaWF {α : Type} (a : Arena α) : Prop :=
  a.free.Nodup ∧ ∀ i ∈ a.free, ∃ sl, a.slots[i]? = some sl ∧ sl.payload = none

theorem ArenaWF_new {α : Type} : ArenaWF (Arena.new : Arena α) :=
  ⟨List.nodup_nil, by simp [Arena.new]⟩

theorem ArenaWF_set {α : Type} {a : Arena α} (h : RigidBodyHandle) (x : α)
    (hwf : ArenaWF a) : ArenaWF (a.set h x) := by
  obtain ⟨hnd, hfree⟩ := hwf
  cases hsl : a.slots[h.index]? with
  | none => simp only [Arena.set, hsl]; exact ⟨hnd, hfree⟩
  | some sl =>
    simp only [Arena.set, hsl]
    by_cases hcond : sl.generation = h.generation ∧ sl.payload.isSome = true
    · rw [if_pos hcond]
      refine ⟨hnd, ?_⟩
      intro i hi
      obtain ⟨sl', hsl', hp'⟩ := hfree i hi
      by_cases hidx : i = h.index
      · subst hidx
        rw [hsl'] at hsl
        obtain rfl := Option.some.inj hsl
        rw [hp'] at hcond
        exact absurd hcond.2 (by simp)
      · refine ⟨sl', ?_, hp'⟩
        rw [List.getElem?_set_ne (fun hcon => hidx hcon.symm)]
        exact hsl'
    · rw [if_neg hcond]
      exact ⟨hnd, hfree⟩

theorem ArenaWF_modify {α : Type} {a : Arena α} (h : RigidBodyHandle) (f : α → α)
    (hwf : ArenaWF a) : ArenaWF (a.modify h f) := by
  unfold Arena.modify
  cases hget : a.get h with
  | none => exact hwf
  | some x => exact ArenaWF_set h (f x) hwf

theorem ArenaWF_insert {α : Type} {a : Arena α} (x : α) (hwf : ArenaWF a) :
    ArenaWF (a.insert x).1 := by
  obtain ⟨hnd, hfree⟩ := hwf
  cases hf : a.free with
  | nil =>
    simp only [Arena.insert, hf]
    exact ⟨List.nodup_nil, by simp⟩
  | cons i rest =>
    obtain ⟨sl, hsl, hp⟩ := hfree i (by rw [hf]; exact List.mem_cons_self i rest)
    simp only [Arena.insert, hf, hsl]
    rw [hf] at hnd
    refine ⟨(List.nodup_cons.1 hnd).2, ?_⟩
    intro j hj
    obtain ⟨sl', hsl', hp'⟩ := hfree j (by rw [hf]; exact List.mem_cons_of_mem i hj)
    have hji : j ≠ i := fun hcon => (List.nodup_cons.1 hnd).1 (hcon ▸ hj)
    refine ⟨sl', ?_, hp'⟩
    rw [List.getElem?_set_ne (fun hcon => hji hcon.symm)]
    exact hsl'

theorem ArenaWF_remove {α : Type} {a : Arena α} {h : RigidBodyHandle} {x : α}
    {a1 : Arena α} (hwf : ArenaWF a) (hrem : a.remove h = some (x, a1)) :
    ArenaWF a1 := by
  obtain ⟨hnd, hfree⟩ := hwf
  cases hsl : a.slots[h.index]? with
  | none =>
    simp only [Arena.remove, hsl] at hrem
    exact Option.noConfusion hrem
  | some sl =>
    simp only [Arena.remove, hsl] at hrem
    by_cases hg : sl.generation = h.generation
    · rw [if_pos hg] at hrem
      cases hp : sl.payload with
      | none =>
        simp only [hp] at hrem
        exact Option.noConfusion hrem
      | some y =>
        simp only [hp, Option.some.injEq, Prod.mk.injEq] at hrem
        obtain ⟨-, ha1⟩ := hrem
        have hlt : h.index < a.slots.length := by
          by_contra hcon
          rw [List.getElem?_eq_none (by omega)] at hsl
          exact Option.noConfusion hsl
        have hnotfree : h.index ∉ a.free := by
          intro hcon
          obtain ⟨sl', hsl', hp'⟩ := hfree _ hcon
          rw [hsl] at hsl'
          obtain rfl := Option.some.inj hsl'
          rw [hp] at hp'
          exact Option.noConfusion hp'
        rw [← ha1]
        refine ⟨List.nodup_cons.2 ⟨hnotfree, hnd⟩, ?_⟩
        intro i hi
        rcases List.mem_cons.1 hi with rfl | hi'
        · exact ⟨_, List.getElem?_set_eq_of_lt _ hlt, rfl⟩
        · obtain ⟨sl', hsl', hp'⟩ := hfree i hi'
          by_cases hidx : i = h.index
          · subst hidx
            exact ⟨_, List.getElem?_set_eq_of_lt _ hlt, rfl⟩
          · refine ⟨sl', ?_, hp'⟩
            rw [List.getElem?_set_ne (fun hcon => hidx hcon.symm)]
            exact hsl'
    · rw [if_neg hg] at hrem
      exact Option.noConfusion hrem

/-- Under well-formedness, a freshly inserted handle differs from every
handle that was live before the insertion. -/
theorem Arena.insert_fresh {α : Type} {a : Arena α} {x : α} {h' : RigidBodyHandle}
    {y : α} (hwf : ArenaWF a) (hget : a.get h' = some y) : h' ≠ (a.insert x).2 := by
  obtain ⟨-, hfree⟩ := hwf
  intro hcon
  cases hf : a.free with
  | nil =>
    simp only [Arena.insert, hf] at hcon
    have : h'.index = a.slots.length := by rw [hcon]
    have := Arena.lt_length_of_get_eq_some hget
    omega
  | cons i rest =>
    obtain ⟨sl, hsl, hp⟩ := hfree i (by rw [hf]; exact List.mem_cons_self i rest)
    simp only [Arena.insert, hf, hsl] at hcon
    rcases Arena.get_eq_some_iff.1 hget with ⟨sl', hsl', hg', hp'⟩
    rw [hcon] at hsl'
    simp only at hsl'
    rw [hsl] at hsl'
    obtain rfl := Option.some.inj hsl'
    rw [hp] at hp'
    exact Option.noConfusion hp'

/-! ## Active-set consistency (C2): live entries and sequence invariants -/

theorem liveListAux_mem {α : Type} :
    ∀ (l : List (ArenaSlot α)) (n : Nat) (h : RigidBodyHandle) (x : α),
      (h, x) ∈ Arena.liveListAux n l →
      n ≤ h.index ∧ ∃ sl, l[h.index - n]? = some sl ∧ sl.generation = h.generation ∧
        sl.payload = some x := by
  intro l
  induction l with
  | nil =>
    intro n h x hm
    simp [Arena.liveListAux] at hm
  | cons sl rest ih =>
    intro n h x hm
    unfold Arena.liveListAux at hm
    cases hp : sl.payload with
    | some y =>
      rw [hp] at hm
      rcases List.mem_cons.1 hm with hm1 | hm1
      · obtain ⟨hh, hx⟩ : (⟨n, sl.generation⟩ : RigidBodyHandle) = h ∧ y = x := by
          simpa [Prod.ext_iff] using hm1.symm
        refine ⟨by rw [← hh], sl, ?_, by rw [← hh], by rw [hp, hx]⟩
        rw [← hh]
        simp
      · obtain ⟨hge, sl', hsl', hg', hp'⟩ := ih (n + 1) h x hm1
        refine ⟨by omega, sl', ?_, hg', hp'⟩
        rw [show h.index - n = (h.index - (n + 1)) + 1 by omega]
        simpa using hsl'
    | none =>
      rw [hp] at hm
      obtain ⟨hge, sl', hsl', hg', hp'⟩ := ih (n + 1) h x hm
      refine ⟨by omega, sl', ?_, hg', hp'⟩
      rw [show h.index - n = (h.index - (n + 1)) + 1 by omega]
      simpa using hsl'

theorem Arena.liveList_get {α : Type} {a : Arena α} {h : RigidBodyHandle} {x : α}
    (hm : (h, x) ∈ a.liveList) : a.get h = some x := by
  obtain ⟨-, sl, hsl, hg, hp⟩ := liveListAux_mem a.slots 0 h x hm
  rw [Nat.sub_zero] at hsl
  exact Arena.get_eq_some_iff.2 ⟨sl, hsl, hg, hp⟩

theorem liveListAux_pairwise {α : Type} :
    ∀ (l : List (ArenaSlot α)) (n : Nat),
      (Arena.liveListAux n l).Pairwise (fun p q => p.1 ≠ q.1) := by
  intro l
  induction l with
  | nil => intro n; simp [Arena.liveListAux]
  | cons sl rest ih =>
    intro n
    unfold Arena.liveListAux
    cases hp : sl.payload with
    | some y =>
      refine List.pairwise_cons.2 ⟨?_, ih (n + 1)⟩
      intro q hq hcon
      obtain ⟨hge, -⟩ := liveListAux_mem rest (n + 1) q.1 q.2 (by
        rcases q with ⟨q1, q2⟩
        exact hq)
      rw [← hcon] at hge
      simp at hge
    | none => exact ih (n + 1)

/-- Consistency of one active sequence: every stored handle resolves to a
body of the right kind whose `active_set_id` is its index. -/
def SeqOk (bodies : Arena RigidBody) (seq : List RigidBodyHandle)
    (p : RigidBody → Prop) : Prop :=
  ∀ (i : Nat) (h : RigidBodyHandle), seq[i]? = some h →
    ∃ rb, bodies.get h = some rb ∧ p rb ∧ rb.active_set_id = i

theorem SeqOk_uniq {bodies : Arena RigidBody} {seq : List RigidBodyHandle}
    {p : RigidBody → Prop} (hs : SeqOk bodies seq p) {i j : Nat} {h : RigidBodyHandle}
    (hi : seq[i]? = some h) (hj : seq[j]? = some h) : i = j := by
  obtain ⟨rb1, hb1, -, ha1⟩ := hs i h hi
  obtain ⟨rb2, hb2, -, ha2⟩ := hs j h hj
  rw [hb1] at hb2
  obtain rfl := Option.some.inj hb2
  omega

theorem SeqOk_not_mem {bodies : Arena RigidBody} {seq : List RigidBodyHandle}
    {p : RigidBody → Prop} (hs : SeqOk bodies seq p) {h : RigidBodyHandle}
    {rb : RigidBody} (hb : bodies.get h = some rb)
    (hchk : seq[rb.active_set_id]? ≠ some h) : ∀ (i : Nat), seq[i]? ≠ some h := by
  intro i hcon
  obtain ⟨rb', hb', -, ha'⟩ := hs i h hcon
  rw [hb] at hb'
  obtain rfl := Option.some.inj hb'
  rw [ha'] at hchk
  exact hchk hcon

theorem SeqOk_mono {bodies bodies' : Arena RigidBody} {seq : List RigidBodyHandle}
    {p : RigidBody → Prop} (hs : SeqOk bodies seq p)
    (hsame : ∀ (i : Nat) (h : RigidBodyHandle), seq[i]? = some h →
      bodies'.get h = bodies.get h) :
    SeqOk bodies' seq p := by
  intro i h hi
  obtain ⟨rb, hb, hp, ha⟩ := hs i h hi
  exact ⟨rb, (hsame i h hi).trans hb, hp, ha⟩

theorem SeqOk_push {bodies bodies' : Arena RigidBody} {seq : List RigidBodyHandle}
    {p : RigidBody → Prop} {h : RigidBodyHandle} {rb' : RigidBody}
    (hs : SeqOk bodies seq p) (hnot : ∀ (i : Nat), seq[i]? ≠ some h)
    (hget' : bodies'.get h = some rb') (hp : p rb')
    (ha : rb'.active_set_id = seq.length)
    (hsame : ∀ h2, h2 ≠ h → bodies'.get h2 = bodies.get h2) :
    SeqOk bodies' (seq ++ [h]) p := by
  intro i h2 hi
  by_cases hlt : i < seq.length
  · rw [getElem?_append_lt hlt] at hi
    have hne : h2 ≠ h := fun hcon => hnot i (hcon ▸ hi)
    obtain ⟨rb, hb, hp2, ha2⟩ := hs i h2 hi
    exact ⟨rb, (hsame h2 hne).trans hb, hp2, ha2⟩
  · by_cases heq : i = seq.length
    · subst heq
      rw [List.getElem?_append_right (by omega), Nat.sub_self,
        List.getElem?_cons_zero] at hi
      obtain rfl := Option.some.inj hi
      exact ⟨rb', hget', hp, ha⟩
    · rw [List.getElem?_eq_none (by simp; omega)] at hi
      exact Option.noConfusion hi

theorem swapRemove_getElem? {α : Type} {seq : List α} {i : Nat}
    (hlt : i < seq.length) (j : Nat) :
    (swapRemove seq i)[j]? =
      if j < seq.length - 1 then
        (if j = i then seq[seq.length - 1]? else seq[j]?) else none := by
  cases hl : seq.getLast? with
  | none =>
    rw [List.getLast?_eq_none_iff.1 hl] at hlt
    simp at hlt
  | some last =>
    simp only [swapRemove, hl]
    have hlast : seq[seq.length - 1]? = some last := by
      rw [← List.getLast?_eq_getElem?]
      exact hl
    rw [List.dropLast_eq_take, List.getElem?_take]
    simp only [List.length_set]
    by_cases hj : j < seq.length - 1
    · rw [if_pos hj, if_pos hj]
      by_cases hji : j = i
      · subst hji
        rw [List.getElem?_set_eq_of_lt _ (by omega), hlast, if_pos rfl]
      · rw [List.getElem?_set_ne (fun hcon => hji hcon.symm), if_neg hji]
    · rw [if_neg hj, if_neg hj]

theorem swapRemovePatch_core {bodies1 : Arena RigidBody}
    {seq : List RigidBodyHandle} {p : RigidBody → Prop} {h : RigidBodyHandle}
    {i : Nat}
    (hpatch : ∀ (j : Nat) (rbx : RigidBody), p rbx →
      p { rbx with active_set_id := j })
    (hmem : ∀ (j : Nat) (h' : RigidBodyHandle), seq[j]? = some h' → h' ≠ h →
      ∃ rbx, bodies1.get h' = some rbx ∧ p rbx ∧ rbx.active_set_id = j)
    (huniq : ∀ (j k : Nat) (h' : RigidBodyHandle), seq[j]? = some h' →
      seq[k]? = some h' → j = k)
    (honly : ∀ (j : Nat), seq[j]? = some h → j = i) :
    SeqOk (swapRemoveAndPatch seq bodies1 h i).2 (swapRemoveAndPatch seq bodies1 h i).1
      p ∧
    (∀ h', (swapRemoveAndPatch seq bodies1 h i).2.get h' = bodies1.get h' ∨
      ∃ rbx j, bodies1.get h' = some rbx ∧ p rbx ∧
        (swapRemoveAndPatch seq bodies1 h i).2.get h' =
          some { rbx with active_set_id := j }) := by
  by_cases hchk : seq[i]? = some h
  · have hlt : i < seq.length := by
      by_contra hcon
      rw [List.getElem?_eq_none (by omega)] at hchk
      exact Option.noConfusion hchk
    cases hrep : (swapRemove seq i)[i]? with
    | none =>
      simp only [swapRemoveAndPatch, if_pos hchk, hrep]
      have hge : ¬ i < seq.length - 1 := by
        intro hcon
        rw [swapRemove_getElem? hlt i, if_pos hcon, if_pos rfl] at hrep
        rw [List.getElem?_eq_some_iff.2 ⟨by omega, rfl⟩] at hrep
        exact Option.noConfusion hrep
      constructor
      · intro j h2 hj
        rw [swapRemove_getElem? hlt j] at hj
        by_cases hjlt : j < seq.length - 1
        · rw [if_pos hjlt, if_neg (by omega)] at hj
          refine hmem j h2 hj (fun hcon => ?_)
          subst hcon
          have := honly j hj
          omega
        · rw [if_neg hjlt] at hj
          exact Option.noConfusion hj
      · intro h'
        exact Or.inl (by trivial)
    | some replacement =>
      simp only [swapRemoveAndPatch, if_pos hchk, hrep]
      have hilt : i < seq.length - 1 := by
        by_contra hcon
        rw [swapRemove_getElem? hlt i, if_neg hcon] at hrep
        exact Option.noConfusion hrep
      have hreplast : seq[seq.length - 1]? = some replacement := by
        rw [swapRemove_getElem? hlt i, if_pos hilt, if_pos rfl] at hrep
        exact hrep
      have hrepne : replacement ≠ h := by
        intro hcon
        subst hcon
        have := honly _ hreplast
        omega
      obtain ⟨rbx, hrbx, hprbx, harbx⟩ := hmem _ replacement hreplast hrepne
      constructor
      · intro j h2 hj
        rw [swapRemove_getElem? hlt j] at hj
        by_cases hjlt : j < seq.length - 1
        · rw [if_pos hjlt] at hj
          by_cases hji : j = i
          · subst hji
            rw [if_pos rfl, hreplast] at hj
            obtain rfl := Option.some.inj hj
            exact ⟨_, Arena.get_modify_self _ hrbx, hpatch _ _ hprbx, rfl⟩
          · rw [if_neg hji] at hj
            have hne : h2 ≠ h := by
              intro hcon
              subst hcon
              exact hji (honly j hj)
            have hnerep : h2 ≠ replacement := by
              intro hcon
              subst hcon
              have := huniq j (seq.length - 1) h2 hj hreplast
              omega
            obtain ⟨rb2, hb2, hp2, ha2⟩ := hmem j h2 hj hne
            exact ⟨rb2, (Arena.get_modify_ne _ _ _ _ hnerep).trans hb2, hp2, ha2⟩
        · rw [if_neg hjlt] at hj
          exact Option.noConfusion hj
      · intro h'
        by_cases hrep' : h' = replacement
        · subst hrep'
          exact Or.inr ⟨rbx, i, hrbx, hprbx, Arena.get_modify_self _ hrbx⟩
        · exact Or.inl (Arena.get_modify_ne _ _ _ _ hrep')
  · simp only [swapRemoveAndPatch, if_neg hchk]
    constructor
    · intro j h2 hj
      refine hmem j h2 hj (fun hcon => ?_)
      subst hcon
      rw [honly j hj] at hj
      exact hchk hj
    · intro h'
      exact Or.inl (by trivial)

/-! ## Active-set consistency (C2): operation preservation -/

/-- The full container invariant of claim C2: a well-formed arena, and
both active sequences consistent (each stored handle resolves to a live
body of the right kind whose `active_set_id` is its index). -/
def SetInv (s : RigidBodySet) : Prop :=
  ArenaWF s.bodies ∧
  SeqOk s.bodies s.active_dynamic_set (fun rb => rb.is_dynamic = true) ∧
  SeqOk s.bodies s.active_kinematic_set (fun rb => rb.is_kinematic = true)

theorem not_kinematic_of_dynamic {rb : RigidBody} (hd : rb.is_dynamic = true) :
    rb.is_kinematic = false := by
  unfold RigidBody.is_dynamic at hd
  unfold RigidBody.is_kinematic
  cases hst : rb.status
  · rfl
  · rw [hst] at hd
  · rw [hst] at hd; simp at hd

theorem not_dynamic_of_kinematic {rb : RigidBody} (hk : rb.is_kinematic = true) :
    rb.is_dynamic = false := by
  unfold RigidBody.is_kinematic at hk
  unfold RigidBody.is_dynamic
  cases hst : rb.status
  · rw [hst] at hk; simp at hk
  · rw [hst] at hk
  · rfl

theorem Arena.get_insert_handle_none {α : Type} {a : Arena α} (x : α)
    (hwf : ArenaWF a) : a.get (a.insert x).2 = none := by
  obtain ⟨-, hfree⟩ := hwf
  cases hf : a.free with
  | nil =>
    have hlen : a.slots[a.slots.length]? = none := List.getElem?_eq_none (le_refl _)
    simp [Arena.insert, hf, Arena.get, hlen]
  | cons i rest =>
    obtain ⟨sl, hsl, hp⟩ := hfree i (by rw [hf]; exact List.mem_cons_self i rest)
    simp [Arena.insert, hf, hsl, Arena.get, hp]

theorem SeqOk_set_compat {bodies : Arena RigidBody} {seq : List RigidBodyHandle}
    {p : RigidBody → Prop} {e : RigidBodyHandle} {rb rbf : RigidBody}
    (hs : SeqOk bodies seq p) (hget : bodies.get e = some rb)
    (hp : p rb → p rbf) (ha : rbf.active_set_id = rb.active_set_id) :
    SeqOk (bodies.set e rbf) seq p := by
  intro i h' hi
  obtain ⟨rb', hb', hp', ha'⟩ := hs i h' hi
  by_cases he : h' = e
  · subst he
    rw [hget] at hb'
    obtain rfl := Option.some.inj hb'
    exact ⟨rbf, Arena.get_set_self hget, hp hp', by omega⟩
  · exact ⟨rb', (Arena.get_set_ne _ _ _ _ he).trans hb', hp', ha'⟩

theorem SeqOk_preserve_other {bodies bodies' : Arena RigidBody}
    {seq : List RigidBodyHandle} {p q : RigidBody → Prop}
    (hs : SeqOk bodies seq p)
    (hchg : ∀ h', bodies'.get h' = bodies.get h' ∨
      ∃ rbx j, bodies.get h' = some rbx ∧ q rbx ∧
        bodies'.get h' = some { rbx with active_set_id := j })
    (hdisj : ∀ rbx, p rbx → q rbx → False) :
    SeqOk bodies' seq p := by
  intro i h' hi
  obtain ⟨rb, hb, hp, ha⟩ := hs i h' hi
  rcases hchg h' with heq | ⟨rbx, j, hbx, hq, hbx'⟩
  · exact ⟨rb, heq.trans hb, hp, ha⟩
  · rw [hb] at hbx
    obtain rfl := Option.some.inj hbx
    exact absurd (hdisj rb hp hq) not_false

/-- `insert` preserves the container invariant. -/
theorem SetInv_insert {s : RigidBodySet} (hinv : SetInv s) (rb0 : RigidBody) :
    SetInv (s.insert rb0).1 := by
  obtain ⟨hwf, hdyn, hkin⟩ := hinv
  have hnew : s.bodies.get (s.bodies.insert (RigidBodySet.preparedBody rb0)).2 = none :=
    Arena.get_insert_handle_none _ hwf
  unfold RigidBodySet.insert
  simp only
  rw [Arena.get_insert_self]
  simp only
  by_cases hk : (RigidBodySet.preparedBody rb0).is_kinematic = true
  · rw [if_pos hk]
    simp only
    refine ⟨ArenaWF_set _ _ (ArenaWF_insert _ hwf), ?_, ?_⟩
    · refine SeqOk_mono hdyn ?_
      intro i h' hi
      obtain ⟨rb', hb', -, -⟩ := hdyn i h' hi
      have hne : h' ≠ (s.bodies.insert (RigidBodySet.preparedBody rb0)).2 :=
        fun hcon => by rw [hcon, hnew] at hb'; exact Option.noConfusion hb'
      rw [Arena.get_set_ne _ _ _ _ hne, Arena.get_insert_ne _ _ _ hne]
    · refine SeqOk_push hkin ?_ (Arena.get_set_self (Arena.get_insert_self _ _)) ?_ ?_ ?_
      · intro i hcon
        obtain ⟨rb', hb', -, -⟩ := hkin i _ hcon
        rw [hnew] at hb'
        exact Option.noConfusion hb'
      · exact hk
      · rfl
      · intro h2 hne
        rw [Arena.get_set_ne _ _ _ _ hne, Arena.get_insert_ne _ _ _ hne]
  · rw [if_neg hk]
    simp only
    refine ⟨ArenaWF_insert _ hwf, ?_, ?_⟩
    · refine SeqOk_mono hdyn ?_
      intro i h' hi
      obtain ⟨rb', hb', -, -⟩ := hdyn i h' hi
      have hne : h' ≠ (s.bodies.insert (RigidBodySet.preparedBody rb0)).2 :=
        fun hcon => by rw [hcon, hnew] at hb'; exact Option.noConfusion hb'
      rw [Arena.get_insert_ne _ _ _ hne]
    · refine SeqOk_mono hkin ?_
      intro i h' hi
      obtain ⟨rb', hb', -, -⟩ := hkin i h' hi
      have hne : h' ≠ (s.bodies.insert (RigidBodySet.preparedBody rb0)).2 :=
        fun hcon => by rw [hcon, hnew] at hb'; exact Option.noConfusion hb'
      rw [Arena.get_insert_ne _ _ _ hne]

/-- `wake_up` preserves the container invariant. -/
theorem SetInv_wake_up {s : RigidBodySet} (hinv : SetInv s) (h : RigidBodyHandle)
    (strong : Bool) : SetInv (s.wake_up h strong) := by
  obtain ⟨hwf, hdyn, hkin⟩ := hinv
  unfold RigidBodySet.wake_up
  cases hget : s.bodies.get h with
  | none => exact ⟨hwf, hdyn, hkin⟩
  | some rb =>
    simp only
    by_cases hd : rb.is_dynamic = true
    · rw [if_pos hd]
      have hasid : (rb.wake_up strong).active_set_id = rb.active_set_id := rfl
      have hdyn' : (rb.wake_up strong).is_dynamic = rb.is_dynamic := rfl
      by_cases hchk :
          s.active_dynamic_set[(rb.wake_up strong).active_set_id]? = some h
      · rw [if_pos hchk]
        refine ⟨ArenaWF_set _ _ hwf, ?_, ?_⟩
        · exact SeqOk_set_compat hdyn hget (fun _ => by rw [hdyn', hd]) hasid
        · refine SeqOk_mono hkin ?_
          intro i h' hi
          obtain ⟨rb', hb', hk', -⟩ := hkin i h' hi
          have hne : h' ≠ h := by
            intro hcon
            subst hcon
            rw [hget] at hb'
            obtain rfl := Option.some.inj hb'
            rw [not_kinematic_of_dynamic hd] at hk'
            exact Bool.noConfusion hk'
          exact Arena.get_set_ne _ _ _ _ hne
      · rw [if_neg hchk]
        refine ⟨ArenaWF_set _ _ hwf, ?_, ?_⟩
        · refine SeqOk_push hdyn ?_ (Arena.get_set_self hget) ?_ ?_ ?_
          · exact SeqOk_not_mem hdyn hget (by rw [← hasid]; exact hchk)
          · exact hd
          · rfl
          · intro h2 hne
            exact Arena.get_set_ne _ _ _ _ hne
        · refine SeqOk_mono hkin ?_
          intro i h' hi
          obtain ⟨rb', hb', hk', -⟩ := hkin i h' hi
          have hne : h' ≠ h := by
            intro hcon
            subst hcon
            rw [hget] at hb'
            obtain rfl := Option.some.inj hb'
            rw [not_kinematic_of_dynamic hd] at hk'
            exact Bool.noConfusion hk'
          exact Arena.get_set_ne _ _ _ _ hne
    · rw [if_neg hd]
      exact ⟨hwf, hdyn, hkin⟩

theorem SeqOk_modify_compat {bodies : Arena RigidBody} {seq : List RigidBodyHandle}
    {p : RigidBody → Prop} (e : RigidBodyHandle) (f : RigidBody → RigidBody)
    (hs : SeqOk bodies seq p) (hf : ∀ rb, p rb → p (f rb))
    (ha : ∀ rb, (f rb).active_set_id = rb.active_set_id) :
    SeqOk (bodies.modify e f) seq p := by
  unfold Arena.modify
  cases hget : bodies.get e with
  | none => exact hs
  | some rb => exact SeqOk_set_compat hs hget (hf rb) (ha rb)

theorem ArenaWF_swapRemovePatch {seq : List RigidBodyHandle}
    {bodies : Arena RigidBody} (h : RigidBodyHandle) (i : Nat)
    (hwf : ArenaWF bodies) : ArenaWF (swapRemoveAndPatch seq bodies h i).2 := by
  by_cases hchk : seq[i]? = some h
  · cases hrep : (swapRemove seq i)[i]? with
    | none =>
      simp only [swapRemoveAndPatch, if_pos hchk, hrep]
      exact hwf
    | some replacement =>
      simp only [swapRemoveAndPatch, if_pos hchk, hrep]
      exact ArenaWF_modify _ _ hwf
  · simp only [swapRemoveAndPatch, if_neg hchk]
    exact hwf

/-- `ColliderSet::remove` preserves the container invariant of the body
set it cascades into. -/
theorem SetInv_collider_remove {s : RigidBodySet} (hinv : SetInv s)
    (cs : ColliderSet) (ch : Nat) (wake : Bool) :
    SetInv (ColliderSet.remove cs ch s wake).2 := by
  obtain ⟨hwf, hdyn, hkin⟩ := hinv
  unfold ColliderSet.remove
  cases hc : cs.get ch with
  | none => exact ⟨hwf, hdyn, hkin⟩
  | some c =>
    simp only
    have hs1 : SetInv { s with bodies := s.bodies.modify c.parent fun rb => { rb with colliders := rb.colliders.filter fun x => decide (x ≠ ch) } } := by
      refine ⟨ArenaWF_modify _ _ hwf, ?_, ?_⟩
      · exact SeqOk_modify_compat _ _ hdyn (fun rb hp => hp) (fun rb => rfl)
      · exact SeqOk_modify_compat _ _ hkin (fun rb hp => hp) (fun rb => rfl)
    cases wake with
    | false => exact hs1
    | true => exact SetInv_wake_up hs1 c.parent true

theorem SetInv_collider_fold {l : List Nat}
    {acc : ColliderSet × RigidBodySet} (hinv : SetInv acc.2) :
    SetInv (l.foldl
      (fun (acc : ColliderSet × RigidBodySet) ch => ColliderSet.remove acc.1 ch acc.2 false)
      acc).2 := by
  induction l generalizing acc with
  | nil => exact hinv
  | cons ch rest ih =>
    rw [List.foldl_cons]
    exact ih (SetInv_collider_remove hinv acc.1 ch false)

/-- `remove` preserves the container invariant of the surviving set. -/
theorem SetInv_remove {s : RigidBodySet} (hinv : SetInv s)
    (handle : RigidBodyHandle) (colliders : ColliderSet) (joints : JointGraph)
    {rb : RigidBody} {out : RigidBodySet} {cs : ColliderSet} {g : JointGraph}
    (hrem : s.remove handle colliders joints = some (rb, out, cs, g)) :
    SetInv out := by
  obtain ⟨hwf, hdyn, hkin⟩ := hinv
  unfold RigidBodySet.remove at hrem
  cases hr : s.bodies.remove handle with
  | none => rw [hr] at hrem; exact Option.noConfusion hrem
  | some pr =>
    obtain ⟨rb0, bodies1⟩ := pr
    rw [hr] at hrem
    simp only at hrem
    obtain ⟨hget0, hgone, hoff⟩ := Arena.remove_spec hr
    have hwf1 : ArenaWF bodies1 := ArenaWF_remove hwf hr
    -- kinematic pass
    have hkpass := @swapRemovePatch_core bodies1
      s.active_kinematic_set (fun x => x.is_kinematic = true)
      handle rb0.active_set_id
      (fun j rbx hp => hp)
      (fun j h' hj hne => by
        obtain ⟨rbx, hb, hp, ha⟩ := hkin j h' hj
        exact ⟨rbx, (hoff h' hne).trans hb, hp, ha⟩)
      (fun j k h' hj hk => SeqOk_uniq hkin hj hk)
      (fun j hj => by
        obtain ⟨rbx, hb, -, ha⟩ := hkin j handle hj
        rw [hget0] at hb
        obtain rfl := Option.some.inj hb
        omega)
    obtain ⟨hkin1, hchgk⟩ := hkpass
    -- dynamic pass over the kinematic-patched arena
    have hdmem : ∀ (j : Nat) (h' : RigidBodyHandle),
        s.active_dynamic_set[j]? = some h' → h' ≠ handle →
        ∃ rbx, (swapRemoveAndPatch s.active_kinematic_set bodies1 handle
          rb0.active_set_id).2.get h' = some rbx ∧ rbx.is_dynamic = true ∧
          rbx.active_set_id = j := by
      intro j h' hj hne
      obtain ⟨rbx, hb, hp, ha⟩ := hdyn j h' hj
      rcases hchgk h' with heq | ⟨rby, jj, hby, hq, hby'⟩
      · exact ⟨rbx, heq.trans ((hoff h' hne).trans hb), hp, ha⟩
      · rw [hoff h' hne, hb] at hby
        obtain rfl := Option.some.inj hby
        rw [not_kinematic_of_dynamic hp] at hq
        exact absurd hq (by simp)
    have hdpass := @swapRemovePatch_core
      (swapRemoveAndPatch s.active_kinematic_set bodies1 handle
        rb0.active_set_id).2
      s.active_dynamic_set (fun x => x.is_dynamic = true)
      handle rb0.active_set_id
      (fun j rbx hp => hp)
      hdmem
      (fun j k h' hj hk => SeqOk_uniq hdyn hj hk)
      (fun j hj => by
        obtain ⟨rbx, hb, -, ha⟩ := hdyn j handle hj
        rw [hget0] at hb
        obtain rfl := Option.some.inj hb
        omega)
    obtain ⟨hdyn1, hchgd⟩ := hdpass
    -- the kinematic sequence survives the dynamic pass
    have hkin2 : SeqOk
        (swapRemoveAndPatch s.active_dynamic_set
          (swapRemoveAndPatch s.active_kinematic_set bodies1 handle
            rb0.active_set_id).2 handle rb0.active_set_id).2
        (swapRemoveAndPatch s.active_kinematic_set bodies1 handle
          rb0.active_set_id).1 (fun x => x.is_kinematic = true) := by
      refine SeqOk_preserve_other hkin1 hchgd ?_
      intro rbx hp hq
      rw [not_kinematic_of_dynamic hq] at hp
      exact Bool.noConfusion hp
    have hwfd : ArenaWF
        (swapRemoveAndPatch s.active_dynamic_set
          (swapRemoveAndPatch s.active_kinematic_set bodies1 handle
            rb0.active_set_id).2 handle rb0.active_set_id).2 :=
      ArenaWF_swapRemovePatch _ _ (ArenaWF_swapRemovePatch _ _ hwf1)
    have hs1 : SetInv { s with
        bodies := (swapRemoveAndPatch s.active_dynamic_set
          (swapRemoveAndPatch s.active_kinematic_set bodies1 handle
            rb0.active_set_id).2 handle rb0.active_set_id).2,
        active_kinematic_set := (swapRemoveAndPatch s.active_kinematic_set bodies1
          handle rb0.active_set_id).1,
        active_dynamic_set := (swapRemoveAndPatch s.active_dynamic_set
          (swapRemoveAndPatch s.active_kinematic_set bodies1 handle
            rb0.active_set_id).2 handle rb0.active_set_id).1 } :=
      ⟨hwfd, hdyn1, hkin2⟩
    have hout := @SetInv_collider_fold rb0.colliders
      ((colliders, { s with
        bodies := (swapRemoveAndPatch s.active_dynamic_set
          (swapRemoveAndPatch s.active_kinematic_set bodies1 handle
            rb0.active_set_id).2 handle rb0.active_set_id).2,
        active_kinematic_set := (swapRemoveAndPatch s.active_kinematic_set bodies1
          handle rb0.active_set_id).1,
        active_dynamic_set := (swapRemoveAndPatch s.active_dynamic_set
          (swapRemoveAndPatch s.active_kinematic_set bodies1 handle
            rb0.active_set_id).2 handle rb0.active_set_id).1 })) hs1
    have h4 := Option.some.inj hrem
    have hout_eq := congrArg (fun t => t.2.1) h4
    simp only at hout_eq
    rw [← hout_eq]
    exact hout

/-- The invariant carried through the `maintain` folds: a well-formed
arena and both accumulated active sequences consistent with it. -/
def MaintInv (acc : Arena RigidBody × ColliderSet × List RigidBodyHandle ×
    List RigidBodyHandle × List RigidBodyHandle) : Prop :=
  ArenaWF acc.1 ∧
  SeqOk acc.1 acc.2.2.2.2 (fun x => x.is_dynamic = true) ∧
  SeqOk acc.1 acc.2.2.2.1 (fun x => x.is_kinematic = true)

theorem inv_leaf_same {bodies : Arena RigidBody} {aks ads : List RigidBodyHandle}
    {handle : RigidBodyHandle} {rb rbF : RigidBody}
    (hwf : ArenaWF bodies)
    (hdyn : SeqOk bodies ads (fun x => x.is_dynamic = true))
    (hkin : SeqOk bodies aks (fun x => x.is_kinematic = true))
    (hget : bodies.get handle = some rb)
    (hstat : rbF.status = rb.status) (ha : rbF.active_set_id = rb.active_set_id) :
    ArenaWF (bodies.set handle rbF) ∧
    SeqOk (bodies.set handle rbF) ads (fun x => x.is_dynamic = true) ∧
    SeqOk (bodies.set handle rbF) aks (fun x => x.is_kinematic = true) := by
  refine ⟨ArenaWF_set _ _ hwf, ?_, ?_⟩
  · refine SeqOk_set_compat hdyn hget (fun hp => ?_) ha
    unfold RigidBody.is_dynamic at hp ⊢
    rw [hstat]
    exact hp
  · refine SeqOk_set_compat hkin hget (fun hp => ?_) ha
    unfold RigidBody.is_kinematic at hp ⊢
    rw [hstat]
    exact hp

theorem inv_leaf_push_kin {bodies : Arena RigidBody} {aks ads : List RigidBodyHandle}
    {handle : RigidBodyHandle} {rb rbF : RigidBody}
    (hwf : ArenaWF bodies)
    (hdyn : SeqOk bodies ads (fun x => x.is_dynamic = true))
    (hkin : SeqOk bodies aks (fun x => x.is_kinematic = true))
    (hget : bodies.get handle = some rb)
    (hkrb : rb.is_kinematic = true) (hnot : aks[rb.active_set_id]? ≠ some handle)
    (hstat : rbF.status = rb.status) (ha : rbF.active_set_id = aks.length) :
    ArenaWF (bodies.set handle rbF) ∧
    SeqOk (bodies.set handle rbF) ads (fun x => x.is_dynamic = true) ∧
    SeqOk (bodies.set handle rbF) (aks ++ [handle]) (fun x => x.is_kinematic = true) := by
  refine ⟨ArenaWF_set _ _ hwf, ?_, ?_⟩
  · refine SeqOk_mono hdyn ?_
    intro i h' hi
    obtain ⟨rb', hb', hd', -⟩ := hdyn i h' hi
    have hne : h' ≠ handle := by
      intro hcon
      subst hcon
      rw [hget] at hb'
      obtain rfl := Option.some.inj hb'
      rw [not_dynamic_of_kinematic hkrb] at hd'
      exact Bool.noConfusion hd'
    exact Arena.get_set_ne _ _ _ _ hne
  · refine SeqOk_push hkin (SeqOk_not_mem hkin hget hnot)
      (Arena.get_set_self hget) ?_ ha ?_
    · unfold RigidBody.is_kinematic at hkrb ⊢
      rw [hstat]
      exact hkrb
    · intro h2 hne
      exact Arena.get_set_ne _ _ _ _ hne

theorem inv_leaf_push_dyn {bodies : Arena RigidBody} {aks ads : List RigidBodyHandle}
    {handle : RigidBodyHandle} {rb rbF : RigidBody}
    (hwf : ArenaWF bodies)
    (hdyn : SeqOk bodies ads (fun x => x.is_dynamic = true))
    (hkin : SeqOk bodies aks (fun x => x.is_kinematic = true))
    (hget : bodies.get handle = some rb)
    (hdrb : rb.is_dynamic = true) (hnot : ads[rb.active_set_id]? ≠ some handle)
    (hstat : rbF.status = rb.status) (ha : rbF.active_set_id = ads.length) :
    ArenaWF (bodies.set handle rbF) ∧
    SeqOk (bodies.set handle rbF) (ads ++ [handle]) (fun x => x.is_dynamic = true) ∧
    SeqOk (bodies.set handle rbF) aks (fun x => x.is_kinematic = true) := by
  refine ⟨ArenaWF_set _ _ hwf, ?_, ?_⟩
  · refine SeqOk_push hdyn (SeqOk_not_mem hdyn hget hnot)
      (Arena.get_set_self hget) ?_ ha ?_
    · unfold RigidBody.is_dynamic at hdrb ⊢
      rw [hstat]
      exact hdrb
    · intro h2 hne
      exact Arena.get_set_ne _ _ _ _ hne
  · refine SeqOk_mono hkin ?_
    intro i h' hi
    obtain ⟨rb', hb', hk', -⟩ := hkin i h' hi
    have hne : h' ≠ handle := by
      intro hcon
      subst hcon
      rw [hget] at hb'
      obtain rfl := Option.some.inj hb'
      rw [not_kinematic_of_dynamic hdrb] at hk'
      exact Bool.noConfusion hk'
    exact Arena.get_set_ne _ _ _ _ hne

/-- One `maintain_one` step keeps the fold invariant: writing back the
reconciled body and the (possibly extended) sequences stays consistent. -/
theorem maintain_one_inv {bodies : Arena RigidBody} {aks ads : List RigidBodyHandle}
    {handle : RigidBodyHandle} {rb : RigidBody}
    (hwf : ArenaWF bodies)
    (hdyn : SeqOk bodies ads (fun x => x.is_dynamic = true))
    (hkin : SeqOk bodies aks (fun x => x.is_kinematic = true))
    (hget : bodies.get handle = some rb)
    (cs : ColliderSet) (mis : List RigidBodyHandle) :
    ArenaWF (bodies.set handle
      (RigidBodySet.maintain_one cs handle rb mis aks ads).2.1) ∧
    SeqOk (bodies.set handle (RigidBodySet.maintain_one cs handle rb mis aks ads).2.1)
      (RigidBodySet.maintain_one cs handle rb mis aks ads).2.2.2.2
      (fun x => x.is_dynamic = true) ∧
    SeqOk (bodies.set handle (RigidBodySet.maintain_one cs handle rb mis aks ads).2.1)
      (RigidBodySet.maintain_one cs handle rb mis aks ads).2.2.2.1
      (fun x => x.is_kinematic = true) := by
  simp only [RigidBodySet.maintain_one]
  by_cases hc1 : rb.changes.contains RigidBodyChanges.POSITION = true ∨
      rb.changes.contains RigidBodyChanges.COLLIDERS = true
  · rw [if_pos hc1]
    by_cases hk : rb.is_kinematic = true ∧
        aks[rb.active_set_id]? ≠ some handle
    · rw [if_pos hk]
      simp only
      rw [if_neg ?hnd]
      case hnd =>
        intro hd
        have h2 : rb.is_dynamic = true := hd.2.2.1
        rw [not_dynamic_of_kinematic hk.1] at h2
        exact Bool.noConfusion h2
      simp only
      exact inv_leaf_push_kin hwf hdyn hkin hget hk.1 hk.2 rfl rfl
    · rw [if_neg hk]
      simp only
      by_cases hd : rb.changes.contains RigidBodyChanges.SLEEP = true ∧
          ¬ rb.is_sleeping = true ∧ rb.is_dynamic = true ∧
          ads[rb.active_set_id]? ≠ some handle
      · rw [if_pos hd]
        simp only
        exact inv_leaf_push_dyn hwf hdyn hkin hget hd.2.2.1 hd.2.2.2 rfl rfl
      · rw [if_neg hd]
        simp only
        exact inv_leaf_same hwf hdyn hkin hget rfl rfl
  · rw [if_neg hc1]
    simp only
    by_cases hd : rb.changes.contains RigidBodyChanges.SLEEP = true ∧
        ¬ rb.is_sleeping = true ∧ rb.is_dynamic = true ∧
        ads[rb.active_set_id]? ≠ some handle
    · rw [if_pos hd]
      simp only
      exact inv_leaf_push_dyn hwf hdyn hkin hget hd.2.2.1 hd.2.2.2 rfl rfl
    · rw [if_neg hd]
      simp only
      exact inv_leaf_same hwf hdyn hkin hget rfl rfl

theorem maintainMod_fold_inv :
    ∀ (l : List RigidBodyHandle)
      (acc : Arena RigidBody × ColliderSet × List RigidBodyHandle ×
        List RigidBodyHandle × List RigidBodyHandle),
      MaintInv acc →
      MaintInv (l.foldl
        (fun acc handle =>
          match acc.1.get handle with
          | some rb =>
            let r := RigidBodySet.maintain_one acc.2.1 handle rb acc.2.2.1
              acc.2.2.2.1 acc.2.2.2.2
            (acc.1.set handle r.2.1, r.1, r.2.2.1, r.2.2.2.1, r.2.2.2.2)
          | none => acc)
        acc) := by
  intro l
  induction l with
  | nil => intro acc hinv; exact hinv
  | cons handle rest ih =>
    intro acc hinv
    rw [List.foldl_cons]
    refine ih _ ?_
    cases hget : acc.1.get handle with
    | none => simp only [hget]; exact hinv
    | some rb =>
      simp only [hget]
      obtain ⟨hwf, hdyn, hkin⟩ := hinv
      exact maintain_one_inv hwf hdyn hkin hget _ _

theorem maintainAll_fold_inv :
    ∀ (l : List (RigidBodyHandle × RigidBody))
      (acc : Arena RigidBody × ColliderSet × List RigidBodyHandle ×
        List RigidBodyHandle × List RigidBodyHandle),
      l.Pairwise (fun p q => p.1 ≠ q.1) →
      (∀ pr ∈ l, acc.1.get pr.1 = some pr.2) →
      MaintInv acc →
      MaintInv (l.foldl
        (fun acc p =>
          let r := RigidBodySet.maintain_one acc.2.1 p.1 p.2 acc.2.2.1
            acc.2.2.2.1 acc.2.2.2.2
          (acc.1.set p.1 r.2.1, r.1, r.2.2.1, r.2.2.2.1, r.2.2.2.2))
        acc) := by
  intro l
  induction l with
  | nil => intro acc _ _ hinv; exact hinv
  | cons pr rest ih =>
    intro acc hpw hmem hinv
    rw [List.foldl_cons]
    obtain ⟨hwf, hdyn, hkin⟩ := hinv
    have hget : acc.1.get pr.1 = some pr.2 := hmem pr (List.mem_cons_self pr rest)
    have hpwh := (List.pairwise_cons.1 hpw).1
    refine ih _ (List.pairwise_cons.1 hpw).2 ?_ ?_
    · intro q hq
      have hne : q.1 ≠ pr.1 := fun hcon => (hpwh q hq) hcon.symm
      simp only
      rw [Arena.get_set_ne _ _ _ _ hne]
      exact hmem q (List.mem_cons_of_mem pr hq)
    · exact maintain_one_inv hwf hdyn hkin hget _ _

/-- `maintain` preserves the container invariant. -/
theorem SetInv_maintain {s : RigidBodySet} (hinv : SetInv s) (colliders : ColliderSet) :
    SetInv (s.maintain colliders).1 := by
  obtain ⟨hwf, hdyn, hkin⟩ := hinv
  unfold RigidBodySet.maintain
  by_cases hall : s.modified_all_bodies = true
  · rw [if_pos hall]
    simp only
    have hres := maintainAll_fold_inv s.bodies.liveList
      (s.bodies, colliders, s.modified_inactive_set, s.active_kinematic_set,
       s.active_dynamic_set)
      (liveListAux_pairwise s.bodies.slots 0)
      (fun pr hpr => Arena.liveList_get hpr)
      ⟨hwf, hdyn, hkin⟩
    exact ⟨hres.1, hres.2.1, hres.2.2⟩
  · rw [if_neg hall]
    simp only
    have hres := maintainMod_fold_inv s.modified_bodies
      (s.bodies, colliders, s.modified_inactive_set, s.active_kinematic_set,
       s.active_dynamic_set)
      ⟨hwf, hdyn, hkin⟩
    exact ⟨hres.1, hres.2.1, hres.2.2⟩

/-- The mutating operations quantified over by the active-set consistency
claim. Removal carries the collider set and joint graph the cascade runs
against. -/
inductive SetOp
  | insertOp (rb : RigidBody)
  | removeOp (h : RigidBodyHandle) (cs : ColliderSet) (g : JointGraph)
  | wakeOp (h : RigidBodyHandle) (strong : Bool)
  | maintainOp (cs : ColliderSet)
deriving Repr

/-- Run one operation, keeping the surviving `RigidBodySet`. -/
def applyOp (s : RigidBodySet) : SetOp → RigidBodySet
  | .insertOp rb => (s.insert rb).1
  | .removeOp h cs g =>
    match s.remove h cs g with
    | some r => r.2.1
    | none => s
  | .wakeOp h strong => s.wake_up h strong
  | .maintainOp cs => (s.maintain cs).1

/-- Run a sequence of operations from a starting set. -/
def applyOps (s : RigidBodySet) (ops : List SetOp) : RigidBodySet :=
  ops.foldl applyOp s

theorem SetInv_new : SetInv RigidBodySet.new := by
  refine ⟨ArenaWF_new, ?_, ?_⟩
  · intro i h hi
    simp [RigidBodySet.new] at hi
  · intro i h hi
    simp [RigidBodySet.new] at hi

theorem SetInv_applyOp {s : RigidBodySet} (hinv : SetInv s) (op : SetOp) :
    SetInv (applyOp s op) := by
  cases op with
  | insertOp rb => exact SetInv_insert hinv rb
  | removeOp h cs g =>
    simp only [applyOp]
    cases hr : s.remove h cs g with
    | none => exact hinv
    | some r =>
      obtain ⟨rb, r2⟩ := r
      obtain ⟨out, r3⟩ := r2
      obtain ⟨cs', g'⟩ := r3
      exact SetInv_remove hinv h cs g hr
  | wakeOp h strong => exact SetInv_wake_up hinv h strong
  | maintainOp cs => exact SetInv_maintain hinv cs

theorem SetInv_applyOps {s : RigidBodySet} (hinv : SetInv s) (ops : List SetOp) :
    SetInv (applyOps s ops) := by
  unfold applyOps
  induction ops generalizing s with
  | nil => exact hinv
  | cons op rest ih =>
    rw [List.foldl_cons]
    exact ih (SetInv_applyOp hinv op)

/-- C2: after any sequence of `insert`, `remove`, `wake_up` and `maintain`
operations starting from the empty set, every handle stored at index `i`
of the active dynamic sequence resolves to a live dynamic body whose
`active_set_id` is `i`, and every handle stored at index `i` of the
active kinematic sequence resolves to a live kinematic body whose
`active_set_id` is `i` (in particular the swap-removal inside `remove`
re-patched every displaced body's `active_set_id`). -/
theorem c2_active_set_consistency (ops : List SetOp) (i : Nat) (h : RigidBodyHandle) :
    ((applyOps RigidBodySet.new ops).active_dynamic_set[i]? = some h →
      ∃ rb, (applyOps RigidBodySet.new ops).bodies.get h = some rb ∧
        rb.is_dynamic = true ∧ rb.active_set_id = i) ∧
    ((applyOps RigidBodySet.new ops).active_kinematic_set[i]? = some h →
      ∃ rb, (applyOps RigidBodySet.new ops).bodies.get h = some rb ∧
        rb.is_kinematic = true ∧ rb.active_set_id = i) := by
  obtain ⟨-, hdyn, hkin⟩ := SetInv_applyOps SetInv_new ops
  exact ⟨fun hh => hdyn i h hh, fun hh => hkin i h hh⟩

/-- A kinematic body used by the C2 witness run. -/
def exBodyKinC2 : RigidBody :=
  { status := .kinematic,
    activation := { energy := 10, threshold := 1, sleeping := false },
    updatedEnergy := 10, moving := true, active_set_id := 7, active_island_id := 0,
    active_set_offset := 0, active_set_timestamp := 0,
    changes := RigidBodyChanges.empty, colliders := [] }

/-- A dynamic body used by the C2 witness run. -/
def exBodyDynC2 : RigidBody :=
  { status := .dynamic,
    activation := { energy := 10, threshold := 1, sleeping := false },
    updatedEnergy := 10, moving := true, active_set_id := 7, active_island_id := 0,
    active_set_offset := 0, active_set_timestamp := 0,
    changes := RigidBodyChanges.empty, colliders := [] }

/-- The C2 witness run: insert a kinematic and a dynamic body, wake the
dynamic one. -/
def exOpsC2 : List SetOp :=
  [SetOp.insertOp exBodyKinC2, SetOp.insertOp exBodyDynC2,
   SetOp.wakeOp ⟨1, 0⟩ false]

theorem c2_active_set_consistency_witness :
    (applyOps RigidBodySet.new exOpsC2).active_kinematic_set[0]? =
        some ⟨0, 0⟩ ∧
    (applyOps RigidBodySet.new exOpsC2).active_dynamic_set[0]? =
        some ⟨1, 0⟩ ∧
    (∃ rb, (applyOps RigidBodySet.new exOpsC2).bodies.get ⟨0, 0⟩ = some rb ∧
      rb.is_kinematic = true ∧ rb.active_set_id = 0) ∧
    (∃ rb, (applyOps RigidBodySet.new exOpsC2).bodies.get ⟨1, 0⟩ = some rb ∧
      rb.is_dynamic = true ∧ rb.active_set_id = 0) :=
  ⟨by rfl, by rfl,
   (c2_active_set_consistency exOpsC2 0 ⟨0, 0⟩).2 (by rfl),
   (c2_active_set_consistency exOpsC2 0 ⟨1, 0⟩).1 (by rfl)⟩

/-! ## Island partition (C1): connectivity, attachment WF, the region -/

/-- Two bodies connected by a contact manifold holding at least one
solver contact: some narrow-phase pair whose two colliders resolve in the
collider set to parents `h1` and `h2` (in either orientation). -/
def contactConnected (colliders : ColliderSet) (np : NarrowPhase)
    (h1 h2 : RigidBodyHandle) : Prop :=
  ∃ pr, pr ∈ np.pairs ∧ ∃ c1 c2,
    colliders.get pr.collider1 = some c1 ∧ colliders.get pr.collider2 = some c2 ∧
    (∃ m ∈ pr.manifolds, m.data.solver_contacts ≠ []) ∧
    ((c1.parent = h1 ∧ c2.parent = h2) ∨ (c1.parent = h2 ∧ c2.parent = h1))

/-- Two bodies joined by an edge of the joint graph (either direction). -/
def jointConnected (jg : JointGraph) (h1 h2 : RigidBodyHandle) : Prop :=
  (h1, h2) ∈ jg.edges ∨ (h2, h1) ∈ jg.edges

/-- The interaction relation of the island claim: a live contact manifold
or a joint edge. -/
def interactionConnected (colliders : ColliderSet) (np : NarrowPhase) (jg : JointGraph)
    (h1 h2 : RigidBodyHandle) : Prop :=
  contactConnected colliders np h1 h2 ∨ jointConnected jg h1 h2

theorem interactionConnected_symm {colliders : ColliderSet} {np : NarrowPhase}
    {jg : JointGraph} {h1 h2 : RigidBodyHandle}
    (hc : interactionConnected colliders np jg h1 h2) :
    interactionConnected colliders np jg h2 h1 := by
  rcases hc with ⟨pr, hpr, c1, c2, hg1, hg2, hman, hor⟩ | hj
  · exact Or.inl ⟨pr, hpr, c1, c2, hg1, hg2, hman, hor.symm⟩
  · exact Or.inr hj.symm

/-- Well-formed attachment between the arena and the collider set: every
collider of the set is listed by its parent body, and every collider
listed by a body exists in the set with that body as parent. -/
def AttachWF (bodies : Arena RigidBody) (colliders : ColliderSet) : Prop :=
  (∀ (ch : Nat) (c : Collider), colliders.get ch = some c →
    ∀ rb, bodies.get c.parent = some rb → ch ∈ rb.colliders) ∧
  (∀ (h : RigidBodyHandle) (rb : RigidBody), bodies.get h = some rb →
    ∀ ch ∈ rb.colliders, ∃ c, colliders.get ch = some c ∧ c.parent = h)

/-- The decidable form of `AttachWF`, quantified over the stored entries. -/
def AttachOk (bodies : Arena RigidBody) (colliders : ColliderSet) : Prop :=
  (∀ p ∈ colliders.entries,
    ((colliders.get p.1).all fun c =>
      (bodies.get c.parent).all fun rb => rb.colliders.contains p.1) = true) ∧
  (∀ pr ∈ bodies.liveList,
    (pr.2.colliders.all fun ch =>
      (colliders.get ch).any fun c => decide (c.parent = pr.1)) = true)

instance attachOk_decidable (bodies : Arena RigidBody) (colliders : ColliderSet) :
    Decidable (AttachOk bodies colliders) :=
  inferInstanceAs (Decidable (_ ∧ _))

theorem liveListAux_of_get {α : Type} :
    ∀ (l : List (ArenaSlot α)) (n i : Nat) (sl : ArenaSlot α) (x : α),
      l[i]? = some sl → sl.payload = some x →
      ((⟨n + i, sl.generation⟩ : RigidBodyHandle), x) ∈ Arena.liveListAux n l := by
  intro l
  induction l with
  | nil =>
    intro n i sl x hi hp
    rw [List.getElem?_eq_none (by simp)] at hi
    exact Option.noConfusion hi
  | cons hd rest ih =>
    intro n i sl x hi hp
    cases i with
    | zero =>
      rw [List.getElem?_cons_zero] at hi
      obtain rfl := Option.some.inj hi
      unfold Arena.liveListAux
      rw [hp]
      exact List.mem_cons_self _ _
    | succ j =>
      rw [List.getElem?_cons_succ] at hi
      have hm := ih (n + 1) j sl x hi hp
      have harith : n + 1 + j = n + (j + 1) := by omega
      rw [harith] at hm
      unfold Arena.liveListAux
      cases hpd : hd.payload with
      | none => exact hm
      | some y => exact List.mem_cons_of_mem _ hm

theorem Arena.mem_liveList_of_get {α : Type} {a : Arena α} {h : RigidBodyHandle}
    {x : α} (hget : a.get h = some x) : (h, x) ∈ a.liveList := by
  rcases Arena.get_eq_some_iff.1 hget with ⟨sl, hsl, hg, hp⟩
  have := liveListAux_of_get a.slots 0 h.index sl x hsl hp
  rw [Nat.zero_add, hg] at this
  exact this

theorem AttachOk_to_WF {bodies : Arena RigidBody} {colliders : ColliderSet}
    (hok : AttachOk bodies colliders) : AttachWF bodies colliders := by
  obtain ⟨h1, h2⟩ := hok
  constructor
  · intro ch c hget rb hrb
    cases hfind : colliders.entries.find? fun p => p.1 == ch with
    | none =>
      unfold ColliderSet.get at hget
      rw [hfind] at hget
      exact Option.noConfusion hget
    | some p =>
      have hpm := List.mem_of_find?_eq_some hfind
      have hkey : p.1 = ch := by
        have := List.find?_some hfind
        simpa using this
      have := h1 p hpm
      rw [hkey, hget] at this
      simp only [Option.all] at this
      rw [hrb] at this
      simp only [Option.all] at this
      simpa using this
  · intro h rb hget ch hch
    have hm := Arena.mem_liveList_of_get hget
    have := h2 (h, rb) hm
    rw [List.all_eq_true] at this
    have hx := this ch hch
    cases hgc : colliders.get ch with
    | none =>
      rw [hgc] at hx
      simp only [Option.any] at hx
      exact Bool.noConfusion hx
    | some c =>
      rw [hgc] at hx
      simp only [Option.any] at hx
      exact ⟨c, rfl, of_decide_eq_true hx⟩

/-- Attachment WF only depends on liveness and the collider lists. -/
theorem AttachWF_congr {b1 b2 : Arena RigidBody} {colliders : ColliderSet}
    (hag : ∀ h, (b2.get h).map (fun rb => rb.colliders) =
      (b1.get h).map (fun rb => rb.colliders))
    (hwf : AttachWF b1 colliders) : AttachWF b2 colliders := by
  obtain ⟨w1, w2⟩ := hwf
  constructor
  · intro ch c hget rb hrb
    have := hag c.parent
    rw [hrb] at this
    cases hb1 : b1.get c.parent with
    | none =>
      rw [hb1] at this
      simp only [Option.map] at this
      exact Option.noConfusion this
    | some rb1 =>
      rw [hb1] at this
      simp only [Option.map] at this
      rw [Option.some.inj this]
      exact w1 ch c hget rb1 hb1
  · intro h rb hget ch hch
    have := hag h
    rw [hget] at this
    cases hb1 : b1.get h with
    | none =>
      rw [hb1] at this
      simp only [Option.map] at this
      exact Option.noConfusion this
    | some rb1 =>
      rw [hb1] at this
      simp only [Option.map] at this
      exact w2 h rb1 hb1 ch (Option.some.inj this ▸ hch)

/-- The region of the traversal stack: the entries strictly above the
island marker (those reached from the currently open island). -/
def Region (st : LoopState) : List RigidBodyHandle :=
  st.stack.take (st.stack.length - st.island_marker)

theorem region_cons {handle : RigidBodyHandle} {rest : List RigidBodyHandle}
    {marker : Nat} :
    (handle :: rest).take (rest.length + 1 - marker) =
      if marker ≤ rest.length then handle :: rest.take (rest.length - marker)
      else [] := by
  by_cases hm : marker ≤ rest.length
  · rw [if_pos hm]
    have harith : rest.length + 1 - marker = (rest.length - marker) + 1 := by omega
    rw [harith, List.take_succ_cons]
  · rw [if_neg hm]
    have harith : rest.length + 1 - marker = 0 := by omega
    rw [harith, List.take_zero]

theorem take_append_left_full {α : Type} :
    ∀ (a b : List α) (n : Nat), (a ++ b).take (a.length + n) = a ++ b.take n := by
  intro a
  induction a with
  | nil => intro b n; simp
  | cons x xs ih =>
    intro b n
    have harith : (x :: xs).length + n = (xs.length + n) + 1 := by
      simp only [List.length_cons]; omega
    rw [harith, List.cons_append, List.take_succ_cons, ih]
    rfl

/-! ## Island partition (C1): push soundness and coverage -/

theorem pushInner_spec (colliders : ColliderSet) (ch : Nat) :
    ∀ (L : List ContactPair) (stk out : List RigidBodyHandle),
      (L.foldlM
        (fun st2 inter =>
          if ∃ m ∈ inter.manifolds, m.data.solver_contacts ≠ [] then
            match colliders.get (select_other (inter.collider1, inter.collider2) ch) with
            | some c => pure (c.parent :: st2)
            | none => throw UpdateErr.panicked
          else pure st2)
        stk : Except UpdateErr (List RigidBodyHandle)) = .ok out →
      ∃ newl, out = newl ++ stk ∧
        (∀ x ∈ newl, ∃ inter, inter ∈ L ∧
          (∃ m ∈ inter.manifolds, m.data.solver_contacts ≠ []) ∧
          ∃ c, colliders.get (select_other (inter.collider1, inter.collider2) ch) =
            some c ∧ x = c.parent) ∧
        (∀ inter, inter ∈ L → (∃ m ∈ inter.manifolds, m.data.solver_contacts ≠ []) →
          ∀ c, colliders.get (select_other (inter.collider1, inter.collider2) ch) =
            some c → c.parent ∈ newl) := by
  intro L
  induction L with
  | nil =>
    intro stk out hok
    simp only [List.foldlM_nil] at hok
    obtain rfl := Except.ok.inj hok
    exact ⟨[], rfl, by simp, by simp⟩
  | cons inter L' ih =>
    intro stk out hok
    simp only [List.foldlM_cons] at hok
    by_cases hman : ∃ m ∈ inter.manifolds, m.data.solver_contacts ≠ []
    · rw [if_pos hman] at hok
      cases hgc : colliders.get (select_other (inter.collider1, inter.collider2) ch) with
      | none =>
        rw [hgc] at hok
        simp only [throw, throwThe, MonadExceptOf.throw, bind, Except.bind] at hok
        exact Except.noConfusion hok
      | some c =>
        rw [hgc] at hok
        simp only [pure, bind, Except.bind, Except.pure] at hok
        obtain ⟨newl', hshape, hsound, hcover⟩ := ih (c.parent :: stk) out hok
        refine ⟨newl' ++ [c.parent], by rw [hshape, List.append_assoc]; rfl, ?_, ?_⟩
        · intro x hx
          rcases List.mem_append.1 hx with hx' | hx'
          · obtain ⟨inter', hi', hm', hc'⟩ := hsound x hx'
            exact ⟨inter', List.mem_cons_of_mem _ hi', hm', hc'⟩
          · rw [List.mem_singleton.1 hx']
            exact ⟨inter, List.mem_cons_self _ _, hman, c, hgc, rfl⟩
        · intro inter2 hi2 hm2 c2 hc2
          rcases List.mem_cons.1 hi2 with rfl | hi2'
          · rw [hgc] at hc2
            obtain rfl := Option.some.inj hc2
            exact List.mem_append_right _ (List.mem_singleton.2 rfl)
          · exact List.mem_append_left _ (hcover inter2 hi2' hm2 c2 hc2)
    · rw [if_neg hman] at hok
      simp only [pure, bind, Except.bind, Except.pure] at hok
      obtain ⟨newl', hshape, hsound, hcover⟩ := ih stk out hok
      refine ⟨newl', hshape, ?_, ?_⟩
      · intro x hx
        obtain ⟨inter', hi', hm', hc'⟩ := hsound x hx
        exact ⟨inter', List.mem_cons_of_mem _ hi', hm', hc'⟩
      · intro inter2 hi2 hm2 c2 hc2
        rcases List.mem_cons.1 hi2 with rfl | hi2'
        · exact absurd hm2 hman
        · exact hcover inter2 hi2' hm2 c2 hc2

theorem pushOuter_spec (colliders : ColliderSet) (np : NarrowPhase) :
    ∀ (cols : List Nat) (stk out : List RigidBodyHandle),
      (cols.foldlM
        (fun st ch =>
          (np.contacts_with ch).foldlM
            (fun st2 inter =>
              if ∃ m ∈ inter.manifolds, m.data.solver_contacts ≠ [] then
                match colliders.get
                    (select_other (inter.collider1, inter.collider2) ch) with
                | some c => pure (c.parent :: st2)
                | none => throw UpdateErr.panicked
              else pure st2)
            st)
        stk : Except UpdateErr (List RigidBodyHandle)) = .ok out →
      ∃ newl, out = newl ++ stk ∧
        (∀ x ∈ newl, ∃ ch, ch ∈ cols ∧ ∃ inter, inter ∈ np.contacts_with ch ∧
          (∃ m ∈ inter.manifolds, m.data.solver_contacts ≠ []) ∧
          ∃ c, colliders.get (select_other (inter.collider1, inter.collider2) ch) =
            some c ∧ x = c.parent) ∧
        (∀ ch, ch ∈ cols → ∀ inter, inter ∈ np.contacts_with ch →
          (∃ m ∈ inter.manifolds, m.data.solver_contacts ≠ []) →
          ∀ c, colliders.get (select_other (inter.collider1, inter.collider2) ch) =
            some c → c.parent ∈ newl) := by
  intro cols
  induction cols with
  | nil =>
    intro stk out hok
    simp only [List.foldlM_nil] at hok
    obtain rfl := Except.ok.inj hok
    exact ⟨[], rfl, by simp, by simp⟩
  | cons ch cols' ih =>
    intro stk out hok
    simp only [List.foldlM_cons] at hok
    cases hin : ((np.contacts_with ch).foldlM
        (fun st2 inter =>
          if ∃ m ∈ inter.manifolds, m.data.solver_contacts ≠ [] then
            match colliders.get (select_other (inter.collider1, inter.collider2) ch) with
            | some c => pure (c.parent :: st2)
            | none => throw UpdateErr.panicked
          else pure st2)
        stk : Except UpdateErr (List RigidBodyHandle)) with
    | error e =>
      rw [hin] at hok
      simp only [bind, Except.bind] at hok
      exact Except.noConfusion hok
    | ok mid =>
      rw [hin] at hok
      simp only [bind, Except.bind] at hok
      obtain ⟨newl1, hshape1, hsound1, hcover1⟩ := pushInner_spec colliders ch _ stk mid hin
      obtain ⟨newl2, hshape2, hsound2, hcover2⟩ := ih mid out hok
      refine ⟨newl2 ++ newl1, by rw [hshape2, hshape1, List.append_assoc], ?_, ?_⟩
      · intro x hx
        rcases List.mem_append.1 hx with hx' | hx'
        · obtain ⟨ch', hch', rest⟩ := hsound2 x hx'
          exact ⟨ch', List.mem_cons_of_mem _ hch', rest⟩
        · obtain ⟨inter', hi', hm', hc'⟩ := hsound1 x hx'
          exact ⟨ch, List.mem_cons_self _ _, inter', hi', hm', hc'⟩
      · intro ch2 hch2 inter2 hi2 hm2 c2 hc2
        rcases List.mem_cons.1 hch2 with rfl | hch2'
        · exact List.mem_append_right _ (hcover1 inter2 hi2 hm2 c2 hc2)
        · exact List.mem_append_left _ (hcover2 ch2 hch2' inter2 hi2 hm2 c2 hc2)

theorem push_contacting_bodies_spec {rb : RigidBody} {colliders : ColliderSet}
    {np : NarrowPhase} {stk out : List RigidBodyHandle}
    (hok : push_contacting_bodies rb colliders np stk = .ok out) :
    ∃ newl, out = newl ++ stk ∧
      (∀ x ∈ newl, ∃ ch, ch ∈ rb.colliders ∧ ∃ inter, inter ∈ np.contacts_with ch ∧
        (∃ m ∈ inter.manifolds, m.data.solver_contacts ≠ []) ∧
        ∃ c, colliders.get (select_other (inter.collider1, inter.collider2) ch) =
          some c ∧ x = c.parent) ∧
      (∀ ch, ch ∈ rb.colliders → ∀ inter, inter ∈ np.contacts_with ch →
        (∃ m ∈ inter.manifolds, m.data.solver_contacts ≠ []) →
        ∀ c, colliders.get (select_other (inter.collider1, inter.collider2) ch) =
          some c → c.parent ∈ newl) := by
  unfold push_contacting_bodies at hok
  exact pushOuter_spec colliders np rb.colliders stk out hok

theorem jointFold_spec (handle : RigidBodyHandle) :
    ∀ (L : List (RigidBodyHandle × RigidBodyHandle)) (stk : List RigidBodyHandle),
      ∃ newl, L.foldl (fun s2 inter => select_other inter handle :: s2) stk =
          newl ++ stk ∧
        (∀ x ∈ newl, ∃ inter, inter ∈ L ∧ x = select_other inter handle) ∧
        (∀ inter, inter ∈ L → select_other inter handle ∈ newl) := by
  intro L
  induction L with
  | nil =>
    intro stk
    exact ⟨[], rfl, by simp, by simp⟩
  | cons inter L' ih =>
    intro stk
    rw [List.foldl_cons]
    obtain ⟨newl', hshape, hsound, hcover⟩ := ih (select_other inter handle :: stk)
    refine ⟨newl' ++ [select_other inter handle],
      by rw [hshape, List.append_assoc]; rfl, ?_, ?_⟩
    · intro x hx
      rcases List.mem_append.1 hx with hx' | hx'
      · obtain ⟨inter', hi', he'⟩ := hsound x hx'
        exact ⟨inter', List.mem_cons_of_mem _ hi', he'⟩
      · exact ⟨inter, List.mem_cons_self _ _, List.mem_singleton.1 hx'⟩
    · intro inter2 hi2
      rcases List.mem_cons.1 hi2 with rfl | hi2'
      · exact List.mem_append_right _ (List.mem_singleton.2 rfl)
      · exact List.mem_append_left _ (hcover inter2 hi2')

theorem jointPushes_spec (jg : JointGraph) (handle : RigidBodyHandle)
    (stk : List RigidBodyHandle) :
    ∃ newl, jointPushes jg handle stk = newl ++ stk ∧
      (∀ x ∈ newl, ∃ inter, inter ∈ jg.interactions_with handle ∧
        x = select_other inter handle) ∧
      (∀ inter, inter ∈ jg.interactions_with handle →
        select_other inter handle ∈ newl) := by
  unfold jointPushes
  exact jointFold_spec handle (jg.interactions_with handle) stk

theorem contacts_with_mem {np : NarrowPhase} {ch : Nat} {pr : ContactPair} :
    pr ∈ np.contacts_with ch ↔
      pr ∈ np.pairs ∧ (pr.collider1 = ch ∨ pr.collider2 = ch) := by
  unfold NarrowPhase.contacts_with
  rw [List.mem_filter]
  simp

theorem interactions_with_mem {jg : JointGraph} {h : RigidBodyHandle}
    {e : RigidBodyHandle × RigidBodyHandle} :
    e ∈ jg.interactions_with h ↔ e ∈ jg.edges ∧ (e.1 = h ∨ e.2 = h) := by
  unfold JointGraph.interactions_with
  rw [List.mem_filter]
  simp

/-- Everything `push_contacting_bodies` pushes from a body is
contact-connected to that body. -/
theorem pushTarget_connected {bodies : Arena RigidBody} {colliders : ColliderSet}
    {np : NarrowPhase} {h : RigidBodyHandle} {rb : RigidBody}
    (hwf : AttachWF bodies colliders) (hget : bodies.get h = some rb)
    {ch : Nat} (hch : ch ∈ rb.colliders) {inter : ContactPair}
    (hinter : inter ∈ np.contacts_with ch)
    (hman : ∃ m ∈ inter.manifolds, m.data.solver_contacts ≠ [])
    {c : Collider}
    (hc : colliders.get (select_other (inter.collider1, inter.collider2) ch) = some c) :
    contactConnected colliders np h c.parent := by
  obtain ⟨hpairs, hor⟩ := contacts_with_mem.1 hinter
  obtain ⟨c_h, hch_get, hch_par⟩ := hwf.2 h rb hget ch hch
  by_cases h1 : inter.collider1 = ch
  · rw [select_other, if_pos h1] at hc
    exact ⟨inter, hpairs, c_h, c, h1 ▸ hch_get, hc, hman,
      Or.inl ⟨hch_par, rfl⟩⟩
  · rw [select_other, if_neg h1] at hc
    have h2 : inter.collider2 = ch := hor.resolve_left h1
    exact ⟨inter, hpairs, c, c_h, hc, h2 ▸ hch_get, hman,
      Or.inr ⟨rfl, hch_par⟩⟩

/-- Every body contact-connected to the processed body is pushed. -/
theorem connected_parent_pushed {bodies : Arena RigidBody} {colliders : ColliderSet}
    {np : NarrowPhase} {h h2 : RigidBodyHandle} {rb : RigidBody}
    (hwf : AttachWF bodies colliders) (hget : bodies.get h = some rb)
    (hconn : contactConnected colliders np h h2)
    {newl : List RigidBodyHandle}
    (hcover : ∀ ch, ch ∈ rb.colliders → ∀ inter, inter ∈ np.contacts_with ch →
      (∃ m ∈ inter.manifolds, m.data.solver_contacts ≠ []) →
      ∀ c, colliders.get (select_other (inter.collider1, inter.collider2) ch) =
        some c → c.parent ∈ newl) :
    h2 ∈ newl := by
  obtain ⟨pr, hpr, c1, c2, hg1, hg2, hman, hor⟩ := hconn
  rcases hor with ⟨hp1, hp2⟩ | ⟨hp1, hp2⟩
  · -- c1.parent = h, c2.parent = h2: iterate from collider1
    have hch : pr.collider1 ∈ rb.colliders := by
      refine hwf.1 pr.collider1 c1 hg1 rb ?_
      rw [hp1]
      exact hget
    have hin : pr ∈ np.contacts_with pr.collider1 :=
      contacts_with_mem.2 ⟨hpr, Or.inl rfl⟩
    have hsel : select_other (pr.collider1, pr.collider2) pr.collider1 = pr.collider2 := by
      rw [select_other, if_pos rfl]
    have := hcover pr.collider1 hch pr hin hman c2 (by rw [hsel]; exact hg2)
    rw [hp2] at this
    exact this
  · -- c1.parent = h2, c2.parent = h: iterate from collider2
    have hch : pr.collider2 ∈ rb.colliders := by
      refine hwf.1 pr.collider2 c2 hg2 rb ?_
      rw [hp2]
      exact hget
    have hin : pr ∈ np.contacts_with pr.collider2 :=
      contacts_with_mem.2 ⟨hpr, Or.inr rfl⟩
    by_cases heq : pr.collider1 = pr.collider2
    · have hsel : select_other (pr.collider1, pr.collider2) pr.collider2 =
          pr.collider2 := by
        rw [select_other, if_pos heq]
      have := hcover pr.collider2 hch pr hin hman c2 (by rw [hsel]; exact hg2)
      have hc12 : c1 = c2 := by
        rw [heq] at hg1
        rw [hg1] at hg2
        exact Option.some.inj hg2
      rw [← hp1, hc12]
      exact this
    · have hsel : select_other (pr.collider1, pr.collider2) pr.collider2 =
          pr.collider1 := by
        rw [select_other, if_neg heq]
      have := hcover pr.collider2 hch pr hin hman c1 (by rw [hsel]; exact hg1)
      rw [hp1] at this
      exact this

/-- Everything the joint loop pushes from a body is joint-connected to it. -/
theorem jointPush_connected {jg : JointGraph} {handle x : RigidBodyHandle}
    {inter : RigidBodyHandle × RigidBodyHandle}
    (hi : inter ∈ jg.interactions_with handle)
    (hx : x = select_other inter handle) : jointConnected jg handle x := by
  obtain ⟨hedge, hor⟩ := interactions_with_mem.1 hi
  by_cases h1 : inter.1 = handle
  · rw [select_other, if_pos h1] at hx
    refine Or.inl ?_
    rw [hx, ← h1]
    exact hedge
  · rw [select_other, if_neg h1] at hx
    have h2 : inter.2 = handle := hor.resolve_left h1
    refine Or.inr ?_
    rw [hx, ← h2]
    exact hedge

/-- Every body joint-connected to the processed body is pushed. -/
theorem joint_connected_pushed {jg : JointGraph} {h h2 : RigidBodyHandle}
    (hconn : jointConnected jg h h2)
    {newl : List RigidBodyHandle}
    (hcover : ∀ inter, inter ∈ jg.interactions_with h →
      select_other inter h ∈ newl) :
    h2 ∈ newl := by
  rcases hconn with hedge | hedge
  · have hin : (h, h2) ∈ jg.interactions_with h :=
      interactions_with_mem.2 ⟨hedge, Or.inl rfl⟩
    have := hcover (h, h2) hin
    rw [select_other, if_pos rfl] at this
    exact this
  · have hin : (h2, h) ∈ jg.interactions_with h :=
      interactions_with_mem.2 ⟨hedge, Or.inr rfl⟩
    have := hcover (h2, h) hin
    by_cases heq : h2 = h
    · rw [select_other, if_pos heq] at this
      rw [heq]
      exact this
    · rw [select_other, if_neg heq] at this
      exact this

theorem islandPush_not_lt {mis : Nat} {st : LoopState} {n : Nat}
    (h : ¬ n < st.island_marker) :
    islandPush mis st n = (st.active_islands, st.island_marker) := by
  unfold islandPush
  rw [if_neg h]

theorem islandPush_snd_lt {mis : Nat} {st : LoopState} {n : Nat}
    (h : n < st.island_marker) : (islandPush mis st n).2 = n := by
  unfold islandPush
  rw [if_pos h]

theorem islandPush_len {mis : Nat} {st : LoopState} {n : Nat}
    (h : 1 ≤ st.active_islands.length) : 1 ≤ (islandPush mis st n).1.length := by
  unfold islandPush
  by_cases hlt : n < st.island_marker
  · rw [if_pos hlt]
    by_cases hsz : mis ≤ st.active_dynamic_set.length - st.active_islands.getLastD 0
    · rw [if_pos hsz]
      simp only [List.length_append, List.length_singleton]
      omega
    · rw [if_neg hsz]
      exact h
  · rw [if_neg hlt]
    exact h

theorem colliders_map_set {bodies : Arena RigidBody} {handle : RigidBodyHandle}
    {rb rbF : RigidBody} (hget : bodies.get handle = some rb)
    (hcols : rbF.colliders = rb.colliders) :
    ∀ h', ((bodies.set handle rbF).get h').map (fun x => x.colliders) =
      (bodies.get h').map (fun x => x.colliders) := by
  intro h'
  by_cases he : h' = handle
  · subst he
    rw [Arena.get_set_self hget, hget]
    simp only [Option.map]
    rw [hcols]
  · rw [Arena.get_set_ne _ _ _ _ he]

/-- The master invariant of the island traversal (claim C1):
(1) every rebuilt active member is stamped with the current timestamp;
(2) every dynamic body interacting with a stamped body is either stamped
into the same island, or the stamped body sits in the open island and the
neighbour still waits in the region of the stack above the island marker;
(3) every stamped body waiting in the region belongs to the open island;
(4) the arena-collider attachment is well formed;
(5) the island table is nonempty. -/
def C1Inv (colliders : ColliderSet) (np : NarrowPhase) (jg : JointGraph) (ts : Nat)
    (st : LoopState) : Prop :=
  (∀ h ∈ st.active_dynamic_set, ∃ rb, st.bodies.get h = some rb ∧
     rb.active_set_timestamp = ts) ∧
  (∀ (h : RigidBodyHandle) (rb : RigidBody), st.bodies.get h = some rb →
    rb.active_set_timestamp = ts →
    ∀ (h2 : RigidBodyHandle) (rb2 : RigidBody),
      interactionConnected colliders np jg h h2 →
      st.bodies.get h2 = some rb2 → rb2.is_dynamic = true →
      ((rb2.active_set_timestamp = ts ∧
        rb2.active_island_id = rb.active_island_id) ∨
       (rb.active_island_id = st.active_islands.length - 1 ∧ h2 ∈ Region st))) ∧
  (∀ h ∈ Region st, ∀ (rb : RigidBody), st.bodies.get h = some rb →
    rb.active_set_timestamp = ts →
    rb.active_island_id = st.active_islands.length - 1) ∧
  AttachWF st.bodies colliders ∧
  1 ≤ st.active_islands.length

/-- One traversal iteration preserves the island invariant. -/
theorem traversalStep_c1inv {colliders : ColliderSet} {np : NarrowPhase}
    {jg : JointGraph} {mis ts : Nat} {st st1 : LoopState}
    (hstep : traversalStep colliders np jg mis ts st = .ok (some st1))
    (hinv : C1Inv colliders np jg ts st) : C1Inv colliders np jg ts st1 := by
  obtain ⟨hD, hB, hC, hA, hLen⟩ := hinv
  obtain ⟨handle, rest, rb, hstack, hget, hcase⟩ := traversalStep_ok_some hstep
  have hregion : Region st = if st.island_marker ≤ rest.length then
      handle :: rest.take (rest.length - st.island_marker) else [] := by
    unfold Region
    rw [hstack]
    simp only [List.length_cons]
    exact region_cons
  rcases hcase with ⟨hskip, rfl⟩ | ⟨hts, hdyn, stack1, hpush, rfl⟩
  · -- skip case
    have hreg1 : Region { st with stack := rest } =
        rest.take (rest.length - st.island_marker) := rfl
    refine ⟨hD, ?_, ?_, hA, hLen⟩
    · intro h0 rb0 hget0 hts0 h2 rb2 hconn hget2 hdyn2
      rcases hB h0 rb0 hget0 hts0 h2 rb2 hconn hget2 hdyn2 with hd1 | ⟨hki, hr⟩
      · exact Or.inl hd1
      · rw [hregion] at hr
        by_cases hm : st.island_marker ≤ rest.length
        · rw [if_pos hm] at hr
          rcases List.mem_cons.1 hr with heq | hr'
          · rw [heq, hget] at hget2
            obtain rfl := Option.some.inj hget2
            rcases hskip with hstamp | hnd
            · have hh : handle ∈ Region st := by
                rw [hregion, if_pos hm]
                exact List.mem_cons_self _ _
              have hisl := hC handle hh rb hget hstamp
              exact Or.inl ⟨hstamp, by rw [hisl, hki]⟩
            · exact absurd hdyn2 hnd
          · exact Or.inr ⟨hki, by rw [hreg1]; exact hr'⟩
        · rw [if_neg hm] at hr
          exact absurd hr (List.not_mem_nil h2)
    · intro h2 hh2 rb2 hget2 hts2
      refine hC h2 ?_ rb2 hget2 hts2
      rw [hreg1] at hh2
      rw [hregion]
      by_cases hm : st.island_marker ≤ rest.length
      · rw [if_pos hm]
        exact List.mem_cons_of_mem _ hh2
      · rw [show rest.length - st.island_marker = 0 by omega] at hh2
        rw [List.take_zero] at hh2
        exact absurd hh2 (List.not_mem_nil h2)
  · -- process case
    have htsP : (processedBody st (islandPush mis st rest.length).1 ts rb).active_set_timestamp
        = ts := rfl
    have hislP : (processedBody st (islandPush mis st rest.length).1 ts rb).active_island_id
        = (islandPush mis st rest.length).1.length - 1 := rfl
    have hcolP : (processedBody st (islandPush mis st rest.length).1 ts rb).colliders
        = rb.colliders := rfl
    obtain ⟨newC, hshapeC, hsoundC, hcoverC⟩ := push_contacting_bodies_spec hpush
    obtain ⟨newJ, hshapeJ, hsoundJ, hcoverJ⟩ := jointPushes_spec jg handle stack1
    by_cases hfire : rest.length < st.island_marker
    · -- the boundary fires: the region was empty, the region becomes the pushes
      have hempty : Region st = [] := by
        rw [hregion, if_neg (by omega)]
      have hprsnd : (islandPush mis st rest.length).2 = rest.length :=
        islandPush_snd_lt hfire
      have hreg1 : Region { bodies := st.bodies.set handle (processedBody st (islandPush mis st rest.length).1 ts rb), stack := jointPushes jg handle stack1, active_dynamic_set := st.active_dynamic_set ++ [handle], active_islands := (islandPush mis st rest.length).1, island_marker := (islandPush mis st rest.length).2 } = newJ ++ newC := by
        unfold Region
        simp only
        rw [hprsnd, hshapeJ, hshapeC]
        have harith : (newJ ++ (newC ++ rest)).length - rest.length =
            newJ.length + (newC.length + 0) := by
          simp only [List.length_append]
          omega
        rw [harith, take_append_left_full, take_append_left_full, List.take_zero,
          List.append_nil]
      refine ⟨?_, ?_, ?_, AttachWF_congr (colliders_map_set hget hcolP) hA,
        islandPush_len hLen⟩
      · intro h0 hh0
        rcases List.mem_append.1 hh0 with hh0' | hh0'
        · obtain ⟨rb0, hget0, hts0⟩ := hD h0 hh0'
          have hne : h0 ≠ handle := by
            intro hcon
            subst hcon
            rw [hget] at hget0
            obtain rfl := Option.some.inj hget0
            exact hts hts0
          exact ⟨rb0, (Arena.get_set_ne _ _ _ _ hne).trans hget0, hts0⟩
        · rw [List.mem_singleton.1 hh0']
          exact ⟨_, Arena.get_set_self hget, htsP⟩
      · intro h0 rb0 hget0 hts0 h2 rb2 hconn hget2 hdyn2
        by_cases h0h : h0 = handle
        · rw [h0h] at hget0 hconn
          rw [Arena.get_set_self hget] at hget0
          obtain rfl := Option.some.inj hget0
          by_cases h2h : h2 = handle
          · rw [h2h] at hget2
            rw [Arena.get_set_self hget] at hget2
            obtain rfl := Option.some.inj hget2
            exact Or.inl ⟨htsP, rfl⟩
          · rw [Arena.get_set_ne _ _ _ _ h2h] at hget2
            by_cases hst2 : rb2.active_set_timestamp = ts
            · rcases hB h2 rb2 hget2 hst2 handle rb (interactionConnected_symm hconn)
                  hget hdyn with ⟨hcon, -⟩ | ⟨-, hmem⟩
              · exact absurd hcon hts
              · rw [hempty] at hmem
                exact absurd hmem (List.not_mem_nil handle)
            · refine Or.inr ⟨rfl, ?_⟩
              rw [hreg1]
              rcases hconn with hcc | hjc
              · exact List.mem_append_right _
                  (connected_parent_pushed hA hget hcc hcoverC)
              · exact List.mem_append_left _ (joint_connected_pushed hjc hcoverJ)
        · rw [Arena.get_set_ne _ _ _ _ h0h] at hget0
          by_cases h2h : h2 = handle
          · rw [h2h] at hconn
            rcases hB h0 rb0 hget0 hts0 handle rb hconn hget hdyn with
              ⟨hcon, -⟩ | ⟨-, hmem⟩
            · exact absurd hcon hts
            · rw [hempty] at hmem
              exact absurd hmem (List.not_mem_nil handle)
          · rw [Arena.get_set_ne _ _ _ _ h2h] at hget2
            rcases hB h0 rb0 hget0 hts0 h2 rb2 hconn hget2 hdyn2 with
              hd1 | ⟨-, hmem⟩
            · exact Or.inl hd1
            · rw [hempty] at hmem
              exact absurd hmem (List.not_mem_nil h2)
      · intro x hx rbx hgetx htsx
        by_cases hxh : x = handle
        · rw [hxh] at hgetx
          rw [Arena.get_set_self hget] at hgetx
          obtain rfl := Option.some.inj hgetx
          exact hislP
        · rw [Arena.get_set_ne _ _ _ _ hxh] at hgetx
          rw [hreg1] at hx
          have hconn : interactionConnected colliders np jg handle x := by
            rcases List.mem_append.1 hx with hxJ | hxC
            · obtain ⟨inter, hi, hxe⟩ := hsoundJ x hxJ
              exact Or.inr (jointPush_connected hi hxe)
            · obtain ⟨ch, hch, inter, hi, hm, c, hc, hxe⟩ := hsoundC x hxC
              refine Or.inl ?_
              rw [hxe]
              exact pushTarget_connected hA hget hch hi hm hc
          rcases hB x rbx hgetx htsx handle rb (interactionConnected_symm hconn)
              hget hdyn with ⟨hcon, -⟩ | ⟨-, hmem⟩
          · exact absurd hcon hts
          · rw [hempty] at hmem
            exact absurd hmem (List.not_mem_nil handle)
    · -- no boundary: the island and the marker stay, the region keeps its tail
      have hmNF : st.island_marker ≤ rest.length := by omega
      have hprNF : islandPush mis st rest.length = (st.active_islands, st.island_marker) :=
        islandPush_not_lt hfire
      have hregS : Region st = handle :: rest.take (rest.length - st.island_marker) := by
        rw [hregion, if_pos hmNF]
      have hreg1 : Region { bodies := st.bodies.set handle (processedBody st (islandPush mis st rest.length).1 ts rb), stack := jointPushes jg handle stack1, active_dynamic_set := st.active_dynamic_set ++ [handle], active_islands := (islandPush mis st rest.length).1, island_marker := (islandPush mis st rest.length).2 } = newJ ++ (newC ++ rest.take (rest.length - st.island_marker)) := by
        unfold Region
        simp only
        rw [hprNF, hshapeJ, hshapeC]
        have harith : (newJ ++ (newC ++ rest)).length - st.island_marker =
            newJ.length + (newC.length + (rest.length - st.island_marker)) := by
          simp only [List.length_append]
          omega
        rw [harith, take_append_left_full, take_append_left_full]
      have hkNF : (islandPush mis st rest.length).1.length - 1 =
          st.active_islands.length - 1 := by
        rw [hprNF]
      refine ⟨?_, ?_, ?_, AttachWF_congr (colliders_map_set hget hcolP) hA,
        islandPush_len hLen⟩
      · intro h0 hh0
        rcases List.mem_append.1 hh0 with hh0' | hh0'
        · obtain ⟨rb0, hget0, hts0⟩ := hD h0 hh0'
          have hne : h0 ≠ handle := by
            intro hcon
            subst hcon
            rw [hget] at hget0
            obtain rfl := Option.some.inj hget0
            exact hts hts0
          exact ⟨rb0, (Arena.get_set_ne _ _ _ _ hne).trans hget0, hts0⟩
        · rw [List.mem_singleton.1 hh0']
          exact ⟨_, Arena.get_set_self hget, htsP⟩
      · intro h0 rb0 hget0 hts0 h2 rb2 hconn hget2 hdyn2
        by_cases h0h : h0 = handle
        · rw [h0h] at hget0 hconn
          rw [Arena.get_set_self hget] at hget0
          obtain rfl := Option.some.inj hget0
          by_cases h2h : h2 = handle
          · rw [h2h] at hget2
            rw [Arena.get_set_self hget] at hget2
            obtain rfl := Option.some.inj hget2
            exact Or.inl ⟨htsP, rfl⟩
          · rw [Arena.get_set_ne _ _ _ _ h2h] at hget2
            by_cases hst2 : rb2.active_set_timestamp = ts
            · rcases hB h2 rb2 hget2 hst2 handle rb (interactionConnected_symm hconn)
                  hget hdyn with ⟨hcon, -⟩ | ⟨hki, -⟩
              · exact absurd hcon hts
              · refine Or.inl ⟨hst2, ?_⟩
                rw [hki, hislP, hkNF]
            · refine Or.inr ⟨rfl, ?_⟩
              rw [hreg1]
              rcases hconn with hcc | hjc
              · exact List.mem_append_right _ (List.mem_append_left _
                  (connected_parent_pushed hA hget hcc hcoverC))
              · exact List.mem_append_left _ (joint_connected_pushed hjc hcoverJ)
        · rw [Arena.get_set_ne _ _ _ _ h0h] at hget0
          by_cases h2h : h2 = handle
          · rw [h2h] at hget2 hconn
            rw [Arena.get_set_self hget] at hget2
            obtain rfl := Option.some.inj hget2
            rcases hB h0 rb0 hget0 hts0 handle rb hconn hget hdyn with
              ⟨hcon, -⟩ | ⟨hki, -⟩
            · exact absurd hcon hts
            · refine Or.inl ⟨htsP, ?_⟩
              rw [hislP, hkNF, hki]
          · rw [Arena.get_set_ne _ _ _ _ h2h] at hget2
            rcases hB h0 rb0 hget0 hts0 h2 rb2 hconn hget2 hdyn2 with
              hd1 | ⟨hki, hmem⟩
            · exact Or.inl hd1
            · refine Or.inr ⟨?_, ?_⟩
              · rw [hki]
                exact hkNF.symm
              · rw [hreg1]
                rw [hregS] at hmem
                rcases List.mem_cons.1 hmem with rfl | hmem'
                · exact absurd rfl h2h
                · exact List.mem_append_right _ (List.mem_append_right _ hmem')
      · intro x hx rbx hgetx htsx
        by_cases hxh : x = handle
        · rw [hxh] at hgetx
          rw [Arena.get_set_self hget] at hgetx
          obtain rfl := Option.some.inj hgetx
          exact hislP
        · rw [Arena.get_set_ne _ _ _ _ hxh] at hgetx
          rw [hreg1] at hx
          have hgoal : rbx.active_island_id = st.active_islands.length - 1 → rbx.active_island_id =
              (islandPush mis st rest.length).1.length - 1 := by
            intro hk
            rw [hk, hkNF]
          rcases List.mem_append.1 hx with hxJ | hx'
          · obtain ⟨inter, hi, hxe⟩ := hsoundJ x hxJ
            have hconn : interactionConnected colliders np jg handle x :=
              Or.inr (jointPush_connected hi hxe)
            rcases hB x rbx hgetx htsx handle rb (interactionConnected_symm hconn)
                hget hdyn with ⟨hcon, -⟩ | ⟨hki, -⟩
            · exact absurd hcon hts
            · exact hgoal hki
          · rcases List.mem_append.1 hx' with hxC | hxT
            · obtain ⟨ch, hch, inter, hi, hm, c, hc, hxe⟩ := hsoundC x hxC
              have hconn : interactionConnected colliders np jg handle x := by
                refine Or.inl ?_
                rw [hxe]
                exact pushTarget_connected hA hget hch hi hm hc
              rcases hB x rbx hgetx htsx handle rb (interactionConnected_symm hconn)
                  hget hdyn with ⟨hcon, -⟩ | ⟨hki, -⟩
              · exact absurd hcon hts
              · exact hgoal hki
            · have hxr : x ∈ Region st := by
                rw [hregS]
                exact List.mem_cons_of_mem _ hxT
              exact hgoal (hC x hxr rbx hgetx htsx)

theorem map_field_of_eraseES {b1 b0 : Arena RigidBody}
    (hag : ∀ h, (b1.get h).map eraseES = (b0.get h).map eraseES)
    {β : Type} (f : RigidBody → β) (hf : ∀ rb, f (eraseES rb) = f rb) :
    ∀ h, (b1.get h).map f = (b0.get h).map f := by
  intro h
  have hh := hag h
  cases h1 : b1.get h with
  | none =>
    rw [h1] at hh
    cases h0 : b0.get h with
    | none => rfl
    | some rb0 =>
      rw [h0] at hh
      simp only [Option.map] at hh
      exact Option.noConfusion hh
  | some rb1 =>
    rw [h1] at hh
    cases h0 : b0.get h with
    | none =>
      rw [h0] at hh
      simp only [Option.map] at hh
      exact Option.noConfusion hh
    | some rb0 =>
      rw [h0] at hh
      simp only [Option.map] at hh ⊢
      have he := Option.some.inj hh
      have hfe : f rb1 = f rb0 := by
        rw [← hf rb1, ← hf rb0, he]
      rw [hfe]

theorem loopStart_unstamped {s : RigidBodySet} (hts : TimestampsOk s)
    {b1 : Arena RigidBody}
    (hag : ∀ h, (b1.get h).map eraseES = (s.bodies.get h).map eraseES) :
    ∀ (h : RigidBodyHandle) (rb : RigidBody), b1.get h = some rb →
      rb.active_set_timestamp ≠ s.active_set_timestamp + 1 := by
  intro h rb hget hcon
  have hmap := map_field_of_eraseES hag (fun rb => rb.active_set_timestamp)
    (fun rb => rfl) h
  rw [hget] at hmap
  cases h0 : s.bodies.get h with
  | none =>
    rw [h0] at hmap
    simp only [Option.map] at hmap
    exact Option.noConfusion hmap
  | some rb0 =>
    rw [h0] at hmap
    simp only [Option.map] at hmap
    have hle := timestampsOk_get hts h rb0 h0
    have heq := Option.some.inj hmap
    omega

theorem c1inv_init {colliders : ColliderSet} {np : NarrowPhase} {jg : JointGraph}
    {ts : Nat} {b1 : Arena RigidBody} {stack2 : List RigidBodyHandle}
    (hunst : ∀ (h : RigidBodyHandle) (rb : RigidBody), b1.get h = some rb →
      rb.active_set_timestamp ≠ ts)
    (hatt : AttachWF b1 colliders) :
    C1Inv colliders np jg ts { bodies := b1, stack := stack2, active_dynamic_set := [], active_islands := [0], island_marker := stack2.length.max 1 - 1 } := by
  refine ⟨?_, ?_, ?_, hatt, by simp⟩
  · intro h hh
    exact absurd hh (List.not_mem_nil h)
  · intro h rb hget hts2 h2 rb2 _ _ _
    exact absurd hts2 (hunst h rb hget)
  · intro h _ rb hget hts2
    exact absurd hts2 (hunst h rb hget)

/-- C1: after a successful `update_active_set_with_contacts` on a set with
consistent timestamps and a well-attached collider set, any two dynamic
bodies present in the rebuilt active dynamic sequence that are connected
by a contact manifold with at least one solver contact or by a joint edge
carry the same `active_island_id`: no live contact or joint edge joins
two different islands. -/
theorem c1_island_partition {s : RigidBodySet} {colliders : ColliderSet}
    {np : NarrowPhase} {jg : JointGraph} {mis fuel : Nat} {out : RigidBodySet}
    (hts : TimestampsOk s) (hatt : AttachOk s.bodies colliders)
    (hrun : s.update_active_set_with_contacts colliders np jg mis fuel = .ok out)
    {i j : Nat} {h1 h2 : RigidBodyHandle} {rb1 rb2 : RigidBody}
    (hi : out.active_dynamic_set[i]? = some h1)
    (hj : out.active_dynamic_set[j]? = some h2)
    (hb1 : out.bodies.get h1 = some rb1) (hb2 : out.bodies.get h2 = some rb2)
    (_hd1 : rb1.is_dynamic = true) (hd2 : rb2.is_dynamic = true)
    (hconn : interactionConnected colliders np jg h1 h2) :
    rb1.active_island_id = rb2.active_island_id := by
  obtain ⟨hmin0, dr, stack2, stF, bodiesF, hdr, hk, hloop, hsleep, hout⟩ :=
    update_ok_decomp hrun
  obtain ⟨b1, stk, csl⟩ := dr
  obtain ⟨hag, -, -, -⟩ := drainPhase_spec hdr
  have hunst := loopStart_unstamped hts hag
  have hattWF : AttachWF b1 colliders :=
    AttachWF_congr (map_field_of_eraseES hag (fun rb => rb.colliders) (fun rb => rfl))
      (AttachOk_to_WF hatt)
  have hinv0 := @c1inv_init colliders np jg (s.active_set_timestamp + 1) b1 stack2
    hunst hattWF
  have hinvF := traversalLoop_inv (C1Inv colliders np jg (s.active_set_timestamp + 1))
    (fun st st1 hs hP => traversalStep_c1inv hs hP) fuel _ stF hloop hinv0
  have hstkF := traversalLoop_final_stack fuel _ stF hloop
  have hregF : Region stF = [] := by
    unfold Region
    rw [hstkF]
    simp
  subst hout
  have hmem1 : h1 ∈ stF.active_dynamic_set := List.getElem?_mem hi
  have hmem2 : h2 ∈ stF.active_dynamic_set := List.getElem?_mem hj
  obtain ⟨rb1', hget1', hts1'⟩ := hinvF.1 h1 hmem1
  obtain ⟨rb2', hget2', hts2'⟩ := hinvF.1 h2 hmem2
  have hb1' : bodiesF.get h1 = some rb1 := hb1
  have hb2' : bodiesF.get h2 = some rb2 := hb2
  have hf1 : rb1.active_island_id = rb1'.active_island_id := by
    obtain ⟨hno, hyes⟩ := sleepPass_spec csl stF.bodies bodiesF hsleep h1 rb1' hget1'
    by_cases hc : h1 ∈ csl ∧ rb1'.activation.sleeping = true
    · rw [hyes hc] at hb1'
      rw [Option.some.inj hb1'.symm]
      rfl
    · rw [hno hc] at hb1'
      rw [Option.some.inj hb1'.symm]
  have hf2 : rb2.active_island_id = rb2'.active_island_id ∧
      rb2.is_dynamic = rb2'.is_dynamic := by
    obtain ⟨hno, hyes⟩ := sleepPass_spec csl stF.bodies bodiesF hsleep h2 rb2' hget2'
    by_cases hc : h2 ∈ csl ∧ rb2'.activation.sleeping = true
    · rw [hyes hc] at hb2'
      rw [Option.some.inj hb2'.symm]
      exact ⟨rfl, rfl⟩
    · rw [hno hc] at hb2'
      rw [Option.some.inj hb2'.symm]
      exact ⟨rfl, rfl⟩
  have hdyn2' : rb2'.is_dynamic = true := by
    rw [← hf2.2]
    exact hd2
  rcases hinvF.2.1 h1 rb1' hget1' hts1' h2 rb2' hconn hget2' hdyn2' with
    ⟨-, hiso⟩ | ⟨-, hmem⟩
  · rw [hf1, hf2.1, hiso]
  · rw [hregF] at hmem
    exact absurd hmem (List.not_mem_nil h2)

/-- An awake moving dynamic body used by the C1 witness run. -/
def exBodyC1 : RigidBody :=
  { status := .dynamic,
    activation := { energy := 10, threshold := 1, sleeping := false },
    updatedEnergy := 10, moving := true, active_set_id := 0, active_island_id := 0,
    active_set_offset := 0, active_set_timestamp := 0,
    changes := RigidBodyChanges.empty, colliders := [] }

/-- Two awake dynamic bodies with colliders 0 and 1, both active. -/
def exSetC1 : RigidBodySet :=
  let p1 := RigidBodySet.new.insert exBodyC1
  let p2 := p1.1.insert exBodyC1
  let fA : RigidBody → RigidBody := fun rb => { rb with colliders := [0] }
  let fB : RigidBody → RigidBody := fun rb => { rb with colliders := [1] }
  let s2 := { p2.1 with bodies := (p2.1.bodies.modify p1.2 fA).modify p2.2 fB }
  (s2.wake_up p1.2 false).wake_up p2.2 false

/-- The collider set of the C1 witness: collider 0 on body ⟨0,0⟩,
collider 1 on body ⟨1,0⟩. -/
def exCsC1 : ColliderSet := ⟨[(0, ⟨⟨0, 0⟩⟩), (1, ⟨⟨1, 0⟩⟩)]⟩

/-- The narrow phase of the C1 witness: one live contact pair between the
two bodies. -/
def exNpC1 : NarrowPhase := ⟨[⟨0, 1, [⟨⟨[7]⟩⟩]⟩]⟩

/-- The result of the C1 witness run. -/
def exResC1 : RigidBodySet :=
  match exSetC1.update_active_set_with_contacts exCsC1 exNpC1 ⟨[]⟩ 1 10 with
  | .ok r => r
  | .error _ => RigidBodySet.new

/-- The first body after the C1 witness run. -/
def exRb1C1 : RigidBody :=
  match exResC1.bodies.get ⟨0, 0⟩ with
  | some rb => rb
  | none => exBodyC1

/-- The second body after the C1 witness run. -/
def exRb2C1 : RigidBody :=
  match exResC1.bodies.get ⟨1, 0⟩ with
  | some rb => rb
  | none => exBodyC1

theorem c1_island_partition_witness :
    TimestampsOk exSetC1 ∧ AttachOk exSetC1.bodies exCsC1 ∧
    exSetC1.update_active_set_with_contacts exCsC1 exNpC1 ⟨[]⟩ 1 10 = .ok exResC1 ∧
    exResC1.active_dynamic_set[0]? = some ⟨0, 0⟩ ∧
    exResC1.active_dynamic_set[1]? = some ⟨1, 0⟩ ∧
    exResC1.bodies.get ⟨0, 0⟩ = some exRb1C1 ∧
    exResC1.bodies.get ⟨1, 0⟩ = some exRb2C1 ∧
    exRb1C1.is_dynamic = true ∧ exRb2C1.is_dynamic = true ∧
    interactionConnected exCsC1 exNpC1 ⟨[]⟩ ⟨0, 0⟩ ⟨1, 0⟩ ∧
    exRb1C1.active_island_id = exRb2C1.active_island_id := by
  have hconn : interactionConnected exCsC1 exNpC1 ⟨[]⟩ ⟨0, 0⟩ ⟨1, 0⟩ :=
    Or.inl ⟨⟨0, 1, [⟨⟨[7]⟩⟩]⟩, by decide, ⟨⟨0, 0⟩⟩, ⟨⟨1, 0⟩⟩, by rfl, by rfl,
      ⟨⟨⟨[7]⟩⟩, by decide, by decide⟩, Or.inl ⟨rfl, rfl⟩⟩
  refine ⟨by decide, by decide, by rfl, by rfl, by rfl, by rfl, by rfl, by rfl,
    by rfl, hconn, ?_⟩
  exact @c1_island_partition exSetC1 exCsC1 exNpC1 ⟨[]⟩ 1 10 exResC1
    (by decide) (by decide) (by rfl) 0 1 ⟨0, 0⟩ ⟨1, 0⟩ exRb1C1 exRb2C1
    (by rfl) (by rfl) (by rfl) (by rfl) (by rfl) (by rfl) hconn

end Rapier
